import Mathlib

/-! # mcinit: artifact cache, fetcher and process supervisor

A shallow embedding of the Go packages `internal/cache` (cache.go,
downloader.go), `internal/server` (state.go, process.go, manager.go),
`internal/java` (detector.go, validator.go), `internal/provider` and
`pkg/jvmflags`, together with the theorems that settle the specification's
claims about them.

Modelling conventions.

* A Go `string` is a Lean `String`; a `[]byte` file content is `Bytes`.
* The file system is a finite view `path ↦ content` of the regular files.
  Directories are not tracked: `os.MkdirAll` can fail but never changes a
  regular file.
* Every system call whose error the program inspects can fail.  The answers
  the operating system and the network give during one call of a function are
  collected in a record (`DownloadEnv`, `SaveEnv`, `StartEnv`, ...) that is an
  input of the model; theorems quantify over all such records.
* A call whose error the program discards, `_ = os.Remove(tempPath)`, removes
  the file if it is there; so does the `p.stateFile.Clear()` of `gracefulStop`
  and `kill`, whose result is discarded.
* Time passes only in the timers and sleeps of the program; it is counted in
  milliseconds for `Process.Stop`.
* The GET requests of a call are its calls of `http.Client.Get`, recorded
  with their URL in the order they are made.
* The standard library is modelled where the program depends on its result:
  `crypto/sha1`, `crypto/sha256` and `encoding/hex` are implemented
  (FIPS 180-4), `path/filepath.Join` is implemented for Unix paths,
  `fmt.Sscanf("%d")` and `fmt.Sprintf("%d")` are implemented for decimal
  integers.  `encoding/json` is a `Codec`: an encoder, a decoder and the one
  fact used about them, that decoding an encoded value gives it back.
* An API request of a provider is answered by the upstream as a function of
  its URL; `json.Unmarshal` of a body into each record is a function that is
  an input of the model (`Decoders`).  What a provider does is recorded as a
  list of steps (`Call`).
* The pattern of `parseJavaVersion` is the only regular expression of the
  program; its leftmost match is implemented directly.
* The target is Unix (`runtime.GOOS != "windows"`, process_unix.go).
-/

namespace Mcinit

/-- Content of a binary file (`[]byte`). -/
abbrev Bytes := List UInt8

/-! ## crypto/sha1, crypto/sha256, encoding/hex -/

namespace sha

/-- Modulus of 32-bit word arithmetic. -/
def w32 : Nat := 4294967296

/-- Rotate a 32-bit word right by `n` bits. -/
def rotr (x n : Nat) : Nat := ((x >>> n) ||| (x <<< (32 - n))) % w32

/-- Rotate a 32-bit word left by `n` bits. -/
def rotl (x n : Nat) : Nat := ((x <<< n) ||| (x >>> (32 - n))) % w32

/-- Big-endian bytes of a number, `n` bytes wide. -/
def beBytes : Nat → Nat → List Nat
  | 0, _ => []
  | n + 1, x => (x >>> (8 * n)) % 256 :: beBytes n x

/-- Big-endian value of a byte string. -/
def beWord (bs : List Nat) : Nat := bs.foldl (fun acc b => acc * 256 + b) 0

/-- Padding shared by SHA-1 and SHA-256: a one bit, zeros, and the bit
length as a 64-bit big-endian number, up to a multiple of 64 bytes. -/
def pad (msg : List Nat) : List Nat :=
  let l := msg.length
  let k := (119 - l % 64) % 64
  msg ++ 128 :: List.replicate k 0 ++ beBytes 8 (8 * l)

/-- The 64-byte blocks of a padded message. -/
def blocks (p : List Nat) : List (List Nat) :=
  (List.range (p.length / 64)).map fun i => (p.drop (64 * i)).take 64

/-- The sixteen big-endian words of a block. -/
def words (blk : List Nat) : List Nat :=
  (List.range 16).map fun i => beWord ((blk.drop (4 * i)).take 4)

end sha

namespace sha256

open sha

/-- Round constants of SHA-256. -/
def K : List Nat := [
  0x428a2f98, 0x71374491, 0xb5c0fbcf, 0xe9b5dba5, 0x3956c25b, 0x59f111f1, 0x923f82a4, 0xab1c5ed5,
  0xd807aa98, 0x12835b01, 0x243185be, 0x550c7dc3, 0x72be5d74, 0x80deb1fe, 0x9bdc06a7, 0xc19bf174,
  0xe49b69c1, 0xefbe4786, 0x0fc19dc6, 0x240ca1cc, 0x2de92c6f, 0x4a7484aa, 0x5cb0a9dc, 0x76f988da,
  0x983e5152, 0xa831c66d, 0xb00327c8, 0xbf597fc7, 0xc6e00bf3, 0xd5a79147, 0x06ca6351, 0x14292967,
  0x27b70a85, 0x2e1b2138, 0x4d2c6dfc, 0x53380d13, 0x650a7354, 0x766a0abb, 0x81c2c92e, 0x92722c85,
  0xa2bfe8a1, 0xa81a664b, 0xc24b8b70, 0xc76c51a3, 0xd192e819, 0xd6990624, 0xf40e3585, 0x106aa070,
  0x19a4c116, 0x1e376c08, 0x2748774c, 0x34b0bcb5, 0x391c0cb3, 0x4ed8aa4a, 0x5b9cca4f, 0x682e6ff3,
  0x748f82ee, 0x78a5636f, 0x84c87814, 0x8cc70208, 0x90befffa, 0xa4506ceb, 0xbef9a3f7, 0xc67178f2]

/-- Message schedule: the 64 words derived from one block. -/
def schedule (blk : List Nat) : List Nat :=
  (List.range 48).foldl (fun w i =>
    let w15 := w.getD (i + 1) 0
    let w2 := w.getD (i + 14) 0
    let s0 := rotr w15 7 ^^^ rotr w15 18 ^^^ (w15 >>> 3)
    let s1 := rotr w2 17 ^^^ rotr w2 19 ^^^ (w2 >>> 10)
    w ++ [(w.getD i 0 + s0 + w.getD (i + 9) 0 + s1) % w32]) (words blk)

/-- The eight working words of SHA-256. -/
structure Digest where
  a : Nat
  b : Nat
  c : Nat
  d : Nat
  e : Nat
  f : Nat
  g : Nat
  h : Nat

/-- One round of the compression function; `kw` is the round constant and
the schedule word. -/
def round (s : Digest) (kw : Nat × Nat) : Digest :=
  let S1 := rotr s.e 6 ^^^ rotr s.e 11 ^^^ rotr s.e 25
  let ch := (s.e &&& s.f) ^^^ ((s.e ^^^ 4294967295) &&& s.g)
  let t1 := (s.h + S1 + ch + kw.1 + kw.2) % w32
  let S0 := rotr s.a 2 ^^^ rotr s.a 13 ^^^ rotr s.a 22
  let maj := (s.a &&& s.b) ^^^ (s.a &&& s.c) ^^^ (s.b &&& s.c)
  let t2 := (S0 + maj) % w32
  ⟨(t1 + t2) % w32, s.a, s.b, s.c, (s.d + t1) % w32, s.e, s.f, s.g⟩

/-- Compression of one block into the running digest. -/
def compress (s : Digest) (blk : List Nat) : Digest :=
  let t := (K.zip (schedule blk)).foldl round s
  ⟨(s.a + t.a) % w32, (s.b + t.b) % w32, (s.c + t.c) % w32, (s.d + t.d) % w32,
   (s.e + t.e) % w32, (s.f + t.f) % w32, (s.g + t.g) % w32, (s.h + t.h) % w32⟩

/-- Initial digest of SHA-256. -/
def init : Digest :=
  ⟨0x6a09e667, 0xbb67ae85, 0x3c6ef372, 0xa54ff53a, 0x510e527f, 0x9b05688c, 0x1f83d9ab, 0x5be0cd19⟩

/-- The digest `sha256.New()` followed by `Write(data)` and `Sum(nil)`
produces: 32 bytes. -/
def Sum (data : Bytes) : Bytes :=
  let s := (blocks (pad (data.map UInt8.toNat))).foldl compress init
  ([s.a, s.b, s.c, s.d, s.e, s.f, s.g, s.h].flatMap (beBytes 4)).map UInt8.ofNat

end sha256

namespace sha1

open sha

/-- Message schedule of SHA-1: the 80 words derived from one block. -/
def schedule (blk : List Nat) : List Nat :=
  (List.range 64).foldl (fun w i =>
    w ++ [rotl (w.getD (i + 13) 0 ^^^ w.getD (i + 8) 0 ^^^ w.getD (i + 2) 0 ^^^ w.getD i 0) 1])
    (words blk)

/-- The five working words of SHA-1. -/
structure Digest where
  a : Nat
  b : Nat
  c : Nat
  d : Nat
  e : Nat

/-- One round of SHA-1; `iw` is the round number and the schedule word. -/
def round (s : Digest) (iw : Nat × Nat) : Digest :=
  let fk : Nat × Nat :=
    if iw.1 < 20 then ((s.b &&& s.c) ||| ((s.b ^^^ 4294967295) &&& s.d), 0x5a827999)
    else if iw.1 < 40 then (s.b ^^^ s.c ^^^ s.d, 0x6ed9eba1)
    else if iw.1 < 60 then ((s.b &&& s.c) ||| (s.b &&& s.d) ||| (s.c &&& s.d), 0x8f1bbcdc)
    else (s.b ^^^ s.c ^^^ s.d, 0xca62c1d6)
  let t := (rotl s.a 5 + fk.1 + s.e + fk.2 + iw.2) % w32
  ⟨t, s.a, rotl s.b 30, s.c, s.d⟩

/-- Compression of one block into the running digest. -/
def compress (s : Digest) (blk : List Nat) : Digest :=
  let t := ((List.range 80).zip (schedule blk)).foldl round s
  ⟨(s.a + t.a) % w32, (s.b + t.b) % w32, (s.c + t.c) % w32, (s.d + t.d) % w32,
   (s.e + t.e) % w32⟩

/-- Initial digest of SHA-1. -/
def init : Digest := ⟨0x67452301, 0xefcdab89, 0x98badcfe, 0x10325476, 0xc3d2e1f0⟩

/-- The digest `sha1.New()` followed by `Write(data)` and `Sum(nil)`
produces: 20 bytes. -/
def Sum (data : Bytes) : Bytes :=
  let s := (blocks (pad (data.map UInt8.toNat))).foldl compress init
  ([s.a, s.b, s.c, s.d, s.e].flatMap (beBytes 4)).map UInt8.ofNat

end sha1

namespace hex

/-- Lowercase hexadecimal digit of a number below sixteen. -/
def digit (n : Nat) : Char := "0123456789abcdef".data.getD n '0'

/-- Model of `hex.EncodeToString`: two lowercase digits per byte. -/
def EncodeToString (bs : Bytes) : String :=
  String.mk (bs.flatMap fun b => [digit (b.toNat / 16), digit (b.toNat % 16)])

end hex

/-! ## path/filepath (Unix) -/

namespace filepath

/-- The components of a path: the pieces between separators. -/
def splitSlash : List Char → List (List Char)
  | [] => [[]]
  | c :: cs =>
    if c = '/' then [] :: splitSlash cs
    else
      match splitSlash cs with
      | [] => [[c]]
      | h :: t => (c :: h) :: t

/-- One component processed by `Clean`; `stack` holds the components kept
so far, last one first.  Empty and `.` components are dropped, `..` removes
the component before it, stays at the front of a relative path and is dropped
at the root. -/
def cleanStep (rooted : Bool) (stack : List (List Char)) (comp : List Char) :
    List (List Char) :=
  if comp = [] ∨ comp = ['.'] then stack
  else if comp = ['.', '.'] then
    match stack with
    | [] => if rooted then [] else [comp]
    | top :: rest => if top = ['.', '.'] then comp :: stack else rest
  else comp :: stack

/-- Model of `filepath.Clean` on the characters of a path. -/
def cleanChars (p : List Char) : List Char :=
  let rooted : Bool := p.head? = some '/'
  let stack := (splitSlash p).foldl (cleanStep rooted) []
  let body := List.intercalate ['/'] stack.reverse
  if rooted then '/' :: body else if body = [] then ['.'] else body

/-- Model of `filepath.Clean`: the shortest path naming the same file by
purely lexical processing. -/
def Clean (path : String) : String := String.mk (cleanChars path.data)

/-- Model of `filepath.Join`: the elements from the first non-empty one on,
joined by separators and cleaned; the empty string when all are empty. -/
def Join (elem : List String) : String :=
  match elem.dropWhile (fun e => e = "") with
  | [] => ""
  | es => Clean (String.intercalate "/" es)

end filepath

deriving instance DecidableEq for Except

/-! ## The file system -/

/-- The regular files of a directory tree, by path. -/
abbrev FS (α : Type) := String → Option α

namespace FS

/-- The file system with no file. -/
def empty {α : Type} : FS α := fun _ => none

/-- The file at `path` created or replaced with `data`. -/
def write {α : Type} (fs : FS α) (path : String) (data : α) : FS α :=
  fun q => if q = path then some data else fs q

/-- The file at `path` removed, if there is one. -/
def remove {α : Type} (fs : FS α) (path : String) : FS α :=
  fun q => if q = path then none else fs q

end FS

/-- Outcome of `os.WriteFile`: the file is written, or it cannot be opened
(nothing changes), or writing fails and leaves `left` in the truncated
file. -/
inductive WriteOutcome (α : Type) where
  | ok
  | openFailed
  | writeFailed (left : α)
  deriving DecidableEq, Repr

namespace utils

/-- Model of `utils.PathExists`: `os.Stat` succeeds. -/
def PathExists {α : Type} (fs : FS α) (path : String) : Bool := (fs path).isSome

end utils

namespace os

/-- Model of `os.WriteFile`; the first component is `true` when the call
fails. -/
def WriteFile {α : Type} (out : WriteOutcome α) (fs : FS α) (path : String) (data : α) :
    Bool × FS α :=
  match out with
  | .ok => (false, fs.write path data)
  | .openFailed => (true, fs)
  | .writeFailed left => (true, fs.write path left)

/-- Model of `os.Rename`: fails when told to or when the source is missing,
and then changes nothing; otherwise moves the content in one step. -/
def Rename {α : Type} (fails : Bool) (fs : FS α) (oldpath newpath : String) : Bool × FS α :=
  match fs oldpath with
  | none => (true, fs)
  | some data => if fails then (true, fs) else (false, (fs.remove oldpath).write newpath data)

end os

/-- An encoder and decoder of the standard library (`json.MarshalIndent`
with `json.Unmarshal`), with the one fact used about them. -/
structure Codec (α β : Type) where
  /-- The encoder. -/
  marshal : α → β
  /-- The decoder. -/
  unmarshal : β → Option α
  /-- Decoding an encoded value gives the value back. -/
  unmarshal_marshal : ∀ a, unmarshal (marshal a) = some a

/-! ## internal/cache: cache.go -/

/-- Model of `Cache`: the cache directory. -/
structure Cache where
  baseDir : String
  deriving DecidableEq, Repr

/-- Model of `CacheMetadata`: the record stored next to a cached jar. -/
structure CacheMetadata where
  Version : String
  Build : String
  ServerType : String
  DownloadURL : String
  Checksum : String
  Algorithm : String
  CachedAt : String
  deriving DecidableEq, Repr

/-- Errors of `Cache.VerifyChecksum`. -/
inductive VerifyError where
  | openJar
  | unsupportedAlgorithm (algorithm : String)
  | computeChecksum
  deriving DecidableEq, Repr

/-- Errors of `Cache.GetMetadata` and `Cache.SaveMetadata`. -/
inductive MetadataError where
  | readMetadata
  | parseMetadata
  | createDirectory
  | writeMetadata
  deriving DecidableEq, Repr

/-- The answers of the operating system to one `Cache.VerifyChecksum`. -/
structure VerifyEnv where
  /-- The call `os.Open` fails on an existing file. -/
  openFails : Bool
  /-- Reading the file into the hasher fails. -/
  readFails : Bool
  deriving DecidableEq, Repr

namespace Cache

/-- Model of `Cache.GetJarPath`. -/
def GetJarPath (c : Cache) (serverType version build : String) : String :=
  let filename := serverType ++ "-" ++ version
  let filename := if build ≠ "" then filename ++ ("-" ++ build) else filename
  let filename := filename ++ ".jar"
  filepath.Join [c.baseDir, "jars", filename]

/-- Model of `Cache.GetMetadataPath`. -/
def GetMetadataPath (c : Cache) (serverType version build : String) : String :=
  let jarPath := c.GetJarPath serverType version build
  jarPath ++ ".meta.json"

/-- Model of `Cache.HasJar`. -/
def HasJar (c : Cache) (fs : FS Bytes) (serverType version build : String) : Bool :=
  let jarPath := c.GetJarPath serverType version build
  let metaPath := c.GetMetadataPath serverType version build
  utils.PathExists fs jarPath && utils.PathExists fs metaPath

/-- Model of `Cache.GetMetadata`; `readFails` says that `os.ReadFile` fails
on an existing file. -/
def GetMetadata (J : Codec CacheMetadata Bytes) (c : Cache) (readFails : Bool) (fs : FS Bytes)
    (serverType version build : String) : Except MetadataError CacheMetadata :=
  let metaPath := c.GetMetadataPath serverType version build
  match fs metaPath with
  | none => .error .readMetadata
  | some data =>
    if readFails then .error .readMetadata
    else
      match J.unmarshal data with
      | none => .error .parseMetadata
      | some m => .ok m

/-- Model of `Cache.SaveMetadata`: the error, if any, and the file system
afterwards. -/
def SaveMetadata (J : Codec CacheMetadata Bytes) (c : Cache) (ensureDirFails : Bool)
    (out : WriteOutcome Bytes) (fs : FS Bytes) (serverType version build : String)
    (m : CacheMetadata) : Option MetadataError × FS Bytes :=
  let metaPath := c.GetMetadataPath serverType version build
  if ensureDirFails then (some .createDirectory, fs)
  else
    let data := J.marshal m
    let w := os.WriteFile out fs metaPath data
    if w.1 then (some .writeMetadata, w.2) else (none, w.2)

/-- Model of `Cache.VerifyChecksum`: the pair `(valid, err)`.  The hasher is
`sha256.New()` whatever the algorithm. -/
def VerifyChecksum (_c : Cache) (env : VerifyEnv) (fs : FS Bytes)
    (jarPath expectedChecksum algorithm : String) : Bool × Option VerifyError :=
  match fs jarPath with
  | none => (false, some .openJar)
  | some file =>
    if env.openFails then (false, some .openJar)
    else if algorithm ≠ "sha256" ∧ algorithm ≠ "sha1" then
      (false, some (.unsupportedAlgorithm algorithm))
    else if env.readFails then (false, some .computeChecksum)
    else
      let actualChecksum := hex.EncodeToString (sha256.Sum file)
      (decide (actualChecksum = expectedChecksum), none)

end Cache

/-! ## internal/cache: downloader.go -/

/-- What `http.Client.Get` gives for a URL: a transport error, or a response
with its status code and body. -/
inductive HttpOutcome where
  | transportError
  | response (status : Nat) (body : Bytes)
  deriving DecidableEq, Repr

/-- Errors of `Downloader.downloadFile`. -/
inductive FileError where
  | createDirectory
  | createFile
  | download
  | status (code : Nat)
  | unsupportedAlgorithm (algorithm : String)
  | saveFile
  | checksumMismatch (expected actual : String)
  deriving DecidableEq, Repr

/-- Errors of `Downloader.DownloadJar`. -/
inductive DownloadError where
  | createCacheDirectory
  | downloadJar (cause : FileError)
  | moveJar
  | saveMetadata (cause : MetadataError)
  deriving DecidableEq, Repr

/-- The answers of the operating system and of the network to one
`Downloader.DownloadJar`. -/
structure DownloadEnv where
  /-- Answers to the verification of the cached jar. -/
  verify : VerifyEnv
  /-- The call `EnsureJarsDir` fails. -/
  ensureJarsDirFails : Bool
  /-- The call `utils.EnsureDir` of `downloadFile` fails. -/
  ensureDestDirFails : Bool
  /-- The call `os.Create` of the temporary file fails. -/
  createFails : Bool
  /-- The transport: what a GET of each URL gives. -/
  get : String → HttpOutcome
  /-- The copy of the body fails after that many bytes (`none`: it succeeds). -/
  copyFailsAfter : Option Nat
  /-- The call `os.Rename` fails. -/
  renameFails : Bool
  /-- The current time, formatted (`time.Now().UTC().Format(time.RFC3339)`). -/
  now : String
  /-- The call `utils.EnsureDir` of `SaveMetadata` fails. -/
  ensureMetaDirFails : Bool
  /-- Outcome of the `os.WriteFile` of the metadata. -/
  writeMeta : WriteOutcome Bytes

/-- What `Downloader.downloadFile` leaves: its error, the file system and
the URLs it requested with GET, in order. -/
structure FileResult where
  err : Option FileError
  fs : FS Bytes
  gets : List String

/-- What `Downloader.DownloadJar` leaves: the returned pair `(path, err)`,
the file system and the URLs it requested with GET, in order. -/
structure DownloadResult where
  path : String
  err : Option DownloadError
  fs : FS Bytes
  gets : List String

namespace Downloader

/-- The hasher `downloadFile` selects for an algorithm name, if any. -/
def hasher (algorithm : String) : Option (Bytes → Bytes) :=
  if algorithm = "sha256" then some sha256.Sum
  else if algorithm = "sha1" then some sha1.Sum
  else none

/-- Model of `Downloader.downloadFile`. -/
def downloadFile (env : DownloadEnv) (fs : FS Bytes)
    (url destPath expectedChecksum algorithm : String) : FileResult :=
  if env.ensureDestDirFails then ⟨some .createDirectory, fs, []⟩
  else if env.createFails then ⟨some .createFile, fs, []⟩
  else
    let fs1 := fs.write destPath []
    match env.get url with
    | .transportError => ⟨some .download, fs1, [url]⟩
    | .response status body =>
      if status ≠ 200 then ⟨some (.status status), fs1, [url]⟩
      else if expectedChecksum ≠ "" ∧ (hasher algorithm).isNone then
        ⟨some (.unsupportedAlgorithm algorithm), fs1, [url]⟩
      else
        match env.copyFailsAfter with
        | some written => ⟨some .saveFile, fs1.write destPath (body.take written), [url]⟩
        | none =>
          let fs2 := fs1.write destPath body
          match (if expectedChecksum ≠ "" then hasher algorithm else none) with
          | some h =>
            let actualChecksum := hex.EncodeToString (h body)
            if actualChecksum ≠ expectedChecksum then
              ⟨some (.checksumMismatch expectedChecksum actualChecksum), fs2, [url]⟩
            else ⟨none, fs2, [url]⟩
          | none => ⟨none, fs2, [url]⟩

/-- Lines 53 to 89 of `DownloadJar`: the download into the cache, taken on a
miss and after a failed verification of the cached jar. -/
def fetch (J : Codec CacheMetadata Bytes) (c : Cache) (env : DownloadEnv) (fs : FS Bytes)
    (url serverType version build expectedChecksum algorithm : String) : DownloadResult :=
  if env.ensureJarsDirFails then ⟨"", some .createCacheDirectory, fs, []⟩
  else
    let jarPath := c.GetJarPath serverType version build
    let tempPath := jarPath ++ ".tmp"
    let d := downloadFile env fs url tempPath expectedChecksum algorithm
    match d.err with
    | some e => ⟨"", some (.downloadJar e), d.fs.remove tempPath, d.gets⟩
    | none =>
      let r := os.Rename env.renameFails d.fs tempPath jarPath
      if r.1 then ⟨"", some .moveJar, r.2.remove tempPath, d.gets⟩
      else
        let m : CacheMetadata :=
          { Version := version, Build := build, ServerType := serverType, DownloadURL := url,
            Checksum := expectedChecksum, Algorithm := algorithm, CachedAt := env.now }
        let s := c.SaveMetadata J env.ensureMetaDirFails env.writeMeta r.2 serverType version
          build m
        match s.1 with
        | some e => ⟨jarPath, some (.saveMetadata e), s.2, d.gets⟩
        | none => ⟨jarPath, none, s.2, d.gets⟩

/-- Model of `Downloader.DownloadJar`. -/
def DownloadJar (J : Codec CacheMetadata Bytes) (c : Cache) (env : DownloadEnv) (fs : FS Bytes)
    (url serverType version build expectedChecksum algorithm : String) : DownloadResult :=
  if c.HasJar fs serverType version build then
    let jarPath := c.GetJarPath serverType version build
    if expectedChecksum ≠ "" then
      let v := c.VerifyChecksum env.verify fs jarPath expectedChecksum algorithm
      if v.2 = none ∧ v.1 = true then ⟨jarPath, none, fs, []⟩
      else fetch J c env fs url serverType version build expectedChecksum algorithm
    else ⟨jarPath, none, fs, []⟩
  else fetch J c env fs url serverType version build expectedChecksum algorithm

/-- The case in which `DownloadJar` returns the cached jar: the jar and its
metadata are there and either no checksum is expected or `VerifyChecksum`
accepts the jar. -/
def servedFromCache (c : Cache) (env : DownloadEnv) (fs : FS Bytes)
    (st v b ck alg : String) : Prop :=
  c.HasJar fs st v b = true ∧
    (ck = "" ∨ c.VerifyChecksum env.verify fs (c.GetJarPath st v b) ck alg = (true, none))

end Downloader

/-! ## fmt: decimal integers -/

namespace fmt

/-- The decimal digits of `n`, most significant first, in front of `acc`;
`fuel` bounds their number. -/
def digitsAux : Nat → Nat → List Char → List Char
  | 0, _, acc => acc
  | fuel + 1, n, acc =>
    if n / 10 = 0 then Nat.digitChar (n % 10) :: acc
    else digitsAux fuel (n / 10) (Nat.digitChar (n % 10) :: acc)

/-- The decimal digits of a natural number. -/
def digits (n : Nat) : List Char := digitsAux (n + 1) n []

/-- What the verb `%d` of `fmt.Sprintf` prints for an integer. -/
def formatInt : Int → List Char
  | .ofNat n => digits n
  | .negSucc n => '-' :: digits (n + 1)

/-- Model of `fmt.Sprintf("%d\n", n)`. -/
def SprintfDecimalLine (n : Int) : String := String.mk (formatInt n ++ ['\n'])

/-- Model of the white space table of package fmt (`isSpace`). -/
def isSpace (c : Char) : Bool :=
  let r := c.toNat
  (0x0009 ≤ r && r ≤ 0x000d) || r = 0x0020 || r = 0x0085 || r = 0x00a0 || r = 0x1680 ||
  (0x2000 ≤ r && r ≤ 0x200a) || r = 0x2028 || r = 0x2029 || r = 0x202f || r = 0x205f ||
  r = 0x3000

/-- Model of `ss.SkipSpace` for `Sscanf`: leading white space is dropped, a
newline among it is an error (`none`). -/
def skipSpace : List Char → Option (List Char)
  | [] => some []
  | c :: cs =>
    if c = '\n' then none
    else if isSpace c then skipSpace cs
    else some (c :: cs)

/-- The values of a Go `int` on a 64-bit platform. -/
def isInt64 (n : Int) : Prop := -9223372036854775808 ≤ n ∧ n ≤ 9223372036854775807

instance (n : Int) : Decidable (isInt64 n) := by
  unfold isInt64
  infer_instance

/-- The value of a string of decimal digits. -/
def digitsValue (tok : List Char) : Nat :=
  tok.foldl (fun acc c => acc * 10 + (c.toNat - 48)) 0

/-- Model of `fmt.Sscanf(s, "%d", &v)` for an `int` of 64 bits: the value
stored in `v`, or `none` when the call returns an error and leaves `v`
untouched.  White space is skipped, one sign is accepted, then the longest run
of decimal digits is the token and the text after it is not read;
`strconv.ParseInt` rejects a value outside the 64-bit range. -/
def SscanfDecimal (s : String) : Option Int :=
  match skipSpace s.data with
  | none => none
  | some rest =>
    let signed : Bool × List Char :=
      match rest with
      | [] => (false, [])
      | c :: t => if c = '+' then (false, t) else if c = '-' then (true, t) else (false, c :: t)
    let tok := signed.2.takeWhile (fun c => c.isDigit)
    if tok = [] then none
    else
      let v : Int := if signed.1 then -(digitsValue tok : Int) else (digitsValue tok : Int)
      if isInt64 v then some v else none

end fmt

/-! ## internal/server: state.go -/

/-- Model of `State`: the server runtime state.  `StartTime` is an instant
in nanoseconds. -/
structure State where
  PID : Int
  StartTime : Int
  Status : String
  deriving DecidableEq, Repr

/-- Model of `StateFile`. -/
structure StateFile where
  serverDir : String
  statePath : String
  pidPath : String
  deriving DecidableEq, Repr

/-- Model of `NewStateFile`. -/
def NewStateFile (serverDir : String) : StateFile :=
  let mcinitDir := filepath.Join [serverDir, ".mcinit"]
  { serverDir := serverDir
    statePath := filepath.Join [mcinitDir, "state.json"]
    pidPath := filepath.Join [mcinitDir, "pid"] }

/-- Errors of the `StateFile` operations. -/
inductive StateError where
  | stateNotFound
  | readState
  | parseState
  | pidNotFound
  | readPid
  | parsePid
  | createDirectory
  | writeState
  | writePid
  | removeState
  | removePid
  deriving DecidableEq, Repr

/-- The answers of the operating system to one `StateFile.Save`. -/
structure SaveEnv where
  /-- The call `utils.EnsureDir` fails. -/
  ensureDirFails : Bool
  /-- Outcome of the `os.WriteFile` of state.json. -/
  writeState : WriteOutcome String
  /-- Outcome of the `os.WriteFile` of the PID file. -/
  writePid : WriteOutcome String
  deriving DecidableEq, Repr

/-- The answers of the operating system to one `StateFile.Clear`. -/
structure ClearEnv where
  /-- The call `os.Remove` of state.json fails. -/
  removeStateFails : Bool
  /-- The call `os.Remove` of the PID file fails. -/
  removePidFails : Bool
  deriving DecidableEq, Repr

namespace StateFile

/-- Model of `StateFile.Load`; `readFails` says that `os.ReadFile` fails on
an existing file. -/
def Load (S : Codec State String) (s : StateFile) (readFails : Bool) (fs : FS String) :
    Except StateError State :=
  if !utils.PathExists fs s.statePath then .error .stateNotFound
  else
    match fs s.statePath with
    | none => .error .readState
    | some data =>
      if readFails then .error .readState
      else
        match S.unmarshal data with
        | none => .error .parseState
        | some state => .ok state

/-- Model of `StateFile.Save`: the error, if any, and the file system
afterwards. -/
def Save (S : Codec State String) (s : StateFile) (env : SaveEnv) (fs : FS String)
    (state : State) : Option StateError × FS String :=
  if env.ensureDirFails then (some .createDirectory, fs)
  else
    let data := S.marshal state
    let w1 := os.WriteFile env.writeState fs s.statePath data
    if w1.1 then (some .writeState, w1.2)
    else
      let pidData := fmt.SprintfDecimalLine state.PID
      let w2 := os.WriteFile env.writePid w1.2 s.pidPath pidData
      if w2.1 then (some .writePid, w2.2) else (none, w2.2)

/-- Model of `StateFile.ReadPID`; `readFails` says that `os.ReadFile` fails
on an existing file. -/
def ReadPID (s : StateFile) (readFails : Bool) (fs : FS String) : Except StateError Int :=
  if !utils.PathExists fs s.pidPath then .error .pidNotFound
  else
    match fs s.pidPath with
    | none => .error .readPid
    | some data =>
      if readFails then .error .readPid
      else
        match fmt.SscanfDecimal data with
        | none => .error .parsePid
        | some pid => .ok pid

/-- Model of `StateFile.Clear`: the last error, if any, and the file system
afterwards. -/
def Clear (s : StateFile) (env : ClearEnv) (fs : FS String) : Option StateError × FS String :=
  let r1 : Option StateError × FS String :=
    if utils.PathExists fs s.statePath then
      if env.removeStateFails then (some .removeState, fs) else (none, fs.remove s.statePath)
    else (none, fs)
  if utils.PathExists r1.2 s.pidPath then
    if env.removePidFails then (some .removePid, r1.2) else (r1.1, r1.2.remove s.pidPath)
  else r1

/-- Model of `StateFile.Exists`. -/
def Exists (s : StateFile) (fs : FS String) : Bool :=
  utils.PathExists fs s.statePath || utils.PathExists fs s.pidPath

end StateFile

/-! ## internal/server: process.go -/

/-- A child process started with `exec.Cmd.Start`: the executable, its
arguments, its working directory, whether it leads a process group of its own,
and the process id the operating system gave it. -/
structure Launch where
  path : String
  args : List String
  dir : String
  setpgid : Bool
  pid : Int
  deriving DecidableEq, Repr

/-- The host as the supervisor sees it. -/
structure World where
  /-- The files of the server directory.  They are text; of a binary file
  only the presence matters. -/
  fs : FS String
  /-- The process ids a signal can be delivered to (`Signal(0)` succeeds). -/
  alive : Int → Bool
  /-- The children launched so far, oldest first. -/
  launched : List Launch
  /-- The children a background watcher waits for; the watcher clears the
  state files when its child exits. -/
  watchers : List Int

/-- Model of `Process`. -/
structure Process where
  serverDir : String
  stateFile : StateFile
  pid : Int
  deriving DecidableEq, Repr

/-- Model of `NewProcess`. -/
def NewProcess (serverDir : String) : Process :=
  { serverDir := serverDir, stateFile := NewStateFile serverDir, pid := 0 }

/-- Errors of `Process.Start`. -/
inductive StartError where
  | stdinPipe
  | stdoutPipe
  | stderrPipe
  | startServer
  | saveState (cause : StateError)
  | exitedWithError
  deriving DecidableEq, Repr

/-- The answers of the operating system to one `Process.Start`. -/
structure StartEnv where
  /-- The call `StdinPipe` fails. -/
  stdinPipeFails : Bool
  /-- The call `StdoutPipe` fails. -/
  stdoutPipeFails : Bool
  /-- The call `StderrPipe` fails. -/
  stderrPipeFails : Bool
  /-- Result of `cmd.Start`: the process id of the child, or `none` when the
  launch fails. -/
  start : Option Int
  /-- The current time (`time.Now()`). -/
  now : Int
  /-- Answers to the `Save` of the state. -/
  save : SaveEnv
  /-- Foreground mode: `cmd.Wait` returns an error. -/
  waitFails : Bool
  /-- Foreground mode: answers to the `Clear` after the child exited. -/
  clear : ClearEnv
  deriving DecidableEq, Repr

/-- What `Process.Start` leaves: its error, the host and the receiver. -/
structure StartResult where
  err : Option StartError
  world : World
  proc : Process

namespace Process

/-- Model of `Process.IsRunning`; `readFails` says that reading the PID file
fails. -/
def IsRunning (p : Process) (readFails : Bool) (w : World) : Bool :=
  match p.stateFile.ReadPID readFails w.fs with
  | .error _ => false
  | .ok pid => w.alive pid

/-- Model of `Process.GetPID`. -/
def GetPID (p : Process) (readFails : Bool) (w : World) : Except StateError Int :=
  p.stateFile.ReadPID readFails w.fs

/-- Model of `Process.GetState`. -/
def GetState (S : Codec State String) (p : Process) (readFails : Bool) (w : World) :
    Except StateError State :=
  p.stateFile.Load S readFails w.fs

/-- Model of `Process.Start`, up to its return.  In foreground mode the
return comes after the child exited; in background mode a watcher for the
child is left behind. -/
def Start (S : Codec State String) (p : Process) (env : StartEnv) (w : World)
    (javaPath jarPath : String) (jvmArgs : List String) (background : Bool) : StartResult :=
  let args := jvmArgs ++ ["-jar", jarPath, "nogui"]
  if env.stdinPipeFails then ⟨some .stdinPipe, w, p⟩
  else if env.stdoutPipeFails then ⟨some .stdoutPipe, w, p⟩
  else if env.stderrPipeFails then ⟨some .stderrPipe, w, p⟩
  else
    match env.start with
    | none => ⟨some .startServer, w, p⟩
    | some pid =>
      let p1 : Process := { p with pid := pid }
      let w1 : World :=
        { w with
          alive := fun q => decide (q = pid) || w.alive q
          launched := w.launched ++ [⟨javaPath, args, p.serverDir, true, pid⟩] }
      let state : State := { PID := pid, StartTime := env.now, Status := "running" }
      let sv := p.stateFile.Save S env.save w1.fs state
      match sv.1 with
      | some e => ⟨some (.saveState e), { w1 with fs := sv.2 }, p1⟩
      | none =>
        if background then
          ⟨none, { w1 with fs := sv.2, watchers := w1.watchers ++ [pid] }, p1⟩
        else
          let cl := p.stateFile.Clear env.clear sv.2
          let w2 : World :=
            { w1 with fs := cl.2, alive := fun q => !decide (q = pid) && w1.alive q }
          if env.waitFails then ⟨some .exitedWithError, w2, p1⟩ else ⟨none, w2, p1⟩

end Process

/-! ## internal/server: process.go, stopping -/

/-- The signals the supervisor sends with `process.Signal`; signal 0, the
probe, is not one of them. -/
inductive Signal where
  | SIGTERM
  | SIGKILL
  deriving DecidableEq, Repr

/-- Errors of `Process.gracefulStop`. -/
inductive GracefulError where
  | sendSIGTERM
  | timedOut
  deriving DecidableEq, Repr

/-- Errors of `Process.Stop`. -/
inductive StopError where
  | notRunning
  | findProcess
  | killProcess
  deriving DecidableEq, Repr

/-- The answers of the host to one `Process.Stop`. -/
structure StopEnv where
  /-- Reading the PID file fails. -/
  readPidFails : Bool
  /-- The call `os.FindProcess` fails (it never does on Unix). -/
  findProcessFails : Bool
  /-- How long after the terminate signal the process exits, in
  milliseconds; `none` when it never exits on that signal. -/
  exitsAfter : Option Nat
  /-- When the timeout and a tick are ready together, the `select` of
  `gracefulStop` takes the tick first. -/
  tickFirst : Bool
  deriving DecidableEq, Repr

/-- What a step of stopping leaves: its error, the host, the signals
delivered, in order, and the time waited in milliseconds. -/
structure StepResult (ε : Type) where
  err : Option ε
  world : World
  signals : List (Int × Signal)
  elapsed : Nat

/-- The timeout of `gracefulStop`, `30 * time.Second`, in milliseconds. -/
def gracefulTimeout : Nat := 30 * 1000

/-- The period of the ticker of `gracefulStop`, `500 * time.Millisecond`. -/
def pollInterval : Nat := 500

/-- The sleep of `kill`, `time.Second`, in milliseconds. -/
def killWait : Nat := 1000

/-- The host after the process `pid` has exited. -/
def World.exit (w : World) (pid : Int) : World :=
  { w with alive := fun q => !decide (q = pid) && w.alive q }

/-- The host after a `p.stateFile.Clear()` whose result is discarded. -/
def World.cleared (w : World) (s : StateFile) : World :=
  { w with fs := (s.Clear ⟨false, false⟩ w.fs).2 }

/-- Whether a process that exits `exitsAfter` after the terminate signal is
gone `t` milliseconds after it. -/
def exitedBy (exitsAfter : Option Nat) (t : Nat) : Bool :=
  match exitsAfter with
  | none => false
  | some d => decide (d ≤ t)

namespace Process

/-- Model of `Process.gracefulStop`.  The terminate signal is delivered to a
live process only.  The ticker fires every `pollInterval`; the ticks before
the timeout are probed in order, and the tick that falls together with the
timeout is probed when the `select` takes it first. -/
def gracefulStop (p : Process) (env : StopEnv) (w : World) (pid : Int) :
    StepResult GracefulError :=
  if !w.alive pid then ⟨some .sendSIGTERM, w, [], 0⟩
  else
    let sent := [(pid, Signal.SIGTERM)]
    let ticksBefore := (gracefulTimeout - 1) / pollInterval
    match (List.range ticksBefore).find?
        (fun i => exitedBy env.exitsAfter (pollInterval * (i + 1))) with
    | some i => ⟨none, (w.exit pid).cleared p.stateFile, sent, pollInterval * (i + 1)⟩
    | none =>
      if env.tickFirst && exitedBy env.exitsAfter gracefulTimeout then
        ⟨none, (w.exit pid).cleared p.stateFile, sent, gracefulTimeout⟩
      else
        ⟨some .timedOut, if exitedBy env.exitsAfter gracefulTimeout then w.exit pid else w,
          sent, gracefulTimeout⟩

/-- Model of `Process.kill` on Unix, continuing a stop that has delivered
`signals` and waited `elapsed`.  The kill signal is delivered to a live
process only, and ends it. -/
def kill (p : Process) (w : World) (pid : Int) (signals : List (Int × Signal))
    (elapsed : Nat) : StepResult StopError :=
  if !w.alive pid then ⟨some .killProcess, w, signals, elapsed⟩
  else
    ⟨none, (w.exit pid).cleared p.stateFile, signals ++ [(pid, Signal.SIGKILL)],
      elapsed + killWait⟩

/-- Model of `Process.Stop`. -/
def Stop (p : Process) (env : StopEnv) (w : World) (force : Bool) : StepResult StopError :=
  match p.stateFile.ReadPID env.readPidFails w.fs with
  | .error _ => ⟨some .notRunning, w, [], 0⟩
  | .ok pid =>
    if env.findProcessFails then ⟨some .findProcess, w, [], 0⟩
    else if force then p.kill w pid [] 0
    else
      let g := p.gracefulStop env w pid
      match g.err with
      | some _ => p.kill g.world pid g.signals g.elapsed
      | none => ⟨none, g.world, g.signals, g.elapsed⟩

end Process

/-! ## pkg/jvmflags -/

namespace jvmflags

/-- Model of `Aikar`. -/
def Aikar (xms xmx : String) : List String :=
  [ "-Xms" ++ xms,
    "-Xmx" ++ xmx,
    "-XX:+UseG1GC",
    "-XX:+ParallelRefProcEnabled",
    "-XX:MaxGCPauseMillis=200",
    "-XX:+UnlockExperimentalVMOptions",
    "-XX:+DisableExplicitGC",
    "-XX:+AlwaysPreTouch",
    "-XX:G1NewSizePercent=30",
    "-XX:G1MaxNewSizePercent=40",
    "-XX:G1HeapRegionSize=8M",
    "-XX:G1ReservePercent=20",
    "-XX:G1HeapWastePercent=5",
    "-XX:G1MixedGCCountTarget=4",
    "-XX:InitiatingHeapOccupancyPercent=15",
    "-XX:G1MixedGCLiveThresholdPercent=90",
    "-XX:G1RSetUpdatingPauseTimePercent=5",
    "-XX:SurvivorRatio=32",
    "-XX:+PerfDisableSharedMem",
    "-XX:MaxTenuringThreshold=1",
    "-Dusing.aikars.flags=https://mcflags.emc.gs",
    "-Daikars.new.flags=true" ]

/-- Model of `GetAikarFlags`. -/
def GetAikarFlags (xms xmx : String) : List String := Aikar xms xmx

/-- Model of `Minimal`. -/
def Minimal (xms xmx : String) : List String :=
  [ "-Xms" ++ xms,
    "-Xmx" ++ xmx,
    "-XX:+UseG1GC",
    "-XX:+ParallelRefProcEnabled",
    "-XX:MaxGCPauseMillis=200" ]

/-- Model of `GetMinimalFlags`. -/
def GetMinimalFlags (xms xmx : String) : List String := Minimal xms xmx

/-- Model of `Custom`. -/
def Custom (xms xmx : String) (customFlags : List String) : List String :=
  ["-Xms" ++ xms, "-Xmx" ++ xmx] ++ customFlags

/-- Model of `GetCustomFlags`. -/
def GetCustomFlags (xms xmx : String) (customFlags : List String) : List String :=
  Custom xms xmx customFlags

/-- The loop state of `ParseCustomFlags`: the flags so far, the characters
of the current flag and whether a quote is open. -/
structure ParseState where
  flags : List String
  current : List Char
  inQuote : Bool
  deriving DecidableEq, Repr

/-- One iteration of the loop of `ParseCustomFlags`. -/
def parseStep (st : ParseState) (char : Char) : ParseState :=
  if char = '"' then { st with inQuote := !st.inQuote }
  else if char = ' ' then
    if st.inQuote then { st with current := st.current ++ [char] }
    else if st.current ≠ [] then
      { st with flags := st.flags ++ [String.mk st.current], current := [] }
    else st
  else { st with current := st.current ++ [char] }

/-- Model of `ParseCustomFlags`. -/
def ParseCustomFlags (flagsString : String) : List String :=
  if flagsString = "" then []
  else
    let st := flagsString.data.foldl parseStep ⟨[], [], false⟩
    if st.current ≠ [] then st.flags ++ [String.mk st.current] else st.flags

/-- Model of `ValidateFlags`: the first flag that is not empty and does not
start with a dash, if any. -/
def ValidateFlags (flags : List String) : Option String :=
  flags.find? fun flag => flag.length ≠ 0 && !flag.startsWith "-" && !flag.startsWith "--"

/-- Errors of `Get`. -/
inductive FlagsError where
  | invalidCustomFlags (flag : String)
  | unknownPreset (preset : String)
  deriving DecidableEq, Repr

/-- Model of `Get`. -/
def Get (preset xms xmx : String) (customFlags : List String) :
    Except FlagsError (List String) :=
  if preset = "aikar" then .ok (GetAikarFlags xms xmx)
  else if preset = "minimal" then .ok (GetMinimalFlags xms xmx)
  else if preset = "custom" then
    match ValidateFlags customFlags with
    | some flag => .error (.invalidCustomFlags flag)
    | none => .ok (GetCustomFlags xms xmx customFlags)
  else .error (.unknownPreset preset)

end jvmflags

/-! ## internal/java: detector.go -/

/-- Model of `Installation`. -/
structure Installation where
  Path : String
  Version : String
  Major : Int
  Minor : Int
  Patch : Int
  deriving DecidableEq, Repr

/-- Errors of the detector. -/
inductive DetectError where
  | noInstallation
  | versionNotFound (majorVersion : Int)
  deriving DecidableEq, Repr

namespace Detector

/-- Model of `Detector.Detect`; `found` is the list of installations the
probes of the host have appended, in order. -/
def Detect (found : List Installation) : Except DetectError (List Installation) :=
  if found.length = 0 then .error .noInstallation else .ok found

/-- Model of `Detector.FindByMajorVersion`. -/
def FindByMajorVersion (found : List Installation) (majorVersion : Int) :
    Except DetectError Installation :=
  match Detect found with
  | .error e => .error e
  | .ok installations =>
    match installations.find? (fun inst => inst.Major = majorVersion) with
    | some inst => .ok inst
    | none => .error (.versionNotFound majorVersion)

/-- The comparison of the loop of `FindBest`: `inst` replaces `best`. -/
def better (inst best : Installation) : Bool :=
  inst.Major > best.Major ||
  (inst.Major = best.Major && inst.Minor > best.Minor) ||
  (inst.Major = best.Major && inst.Minor = best.Minor && inst.Patch > best.Patch)

/-- Model of `Detector.FindBest`. -/
def FindBest (found : List Installation) : Except DetectError Installation :=
  match Detect found with
  | .error e => .error e
  | .ok installations =>
    match installations with
    | [] => .error .noInstallation
    | first :: rest => .ok (rest.foldl (fun best inst => if better inst best then inst else best) first)

end Detector

/-! ## internal/server: manager.go -/

/-- The part of `config.ServerConfig` the manager reads. -/
structure ServerConfig where
  JarPath : String
  deriving DecidableEq, Repr

/-- The part of `config.JavaConfig` the manager reads. -/
structure JavaConfig where
  Version : String
  Path : String
  deriving DecidableEq, Repr

/-- Model of `config.JVMConfig`. -/
structure JVMConfig where
  Xms : String
  Xmx : String
  Flags : String
  CustomFlags : List String
  deriving DecidableEq, Repr

/-- The part of `config.Config` the manager reads. -/
structure Config where
  Server : ServerConfig
  Java : JavaConfig
  JVM : JVMConfig
  deriving DecidableEq, Repr

/-- Model of `Manager`. -/
structure Manager where
  serverDir : String
  config : Option Config
  process : Process
  deriving DecidableEq, Repr

/-- Model of `NewManager` for a server directory that is already absolute. -/
def NewManager (absPath : String) : Manager :=
  { serverDir := absPath, config := none, process := NewProcess absPath }

/-- Errors of `Manager.Start`. -/
inductive ManagerError where
  | loadConfig
  | alreadyRunning
  | resolveJavaPath (cause : DetectError)
  | buildJVMArgs (cause : jvmflags.FlagsError)
  | jarNotFound (jarPath : String)
  | process (cause : StartError)
  deriving DecidableEq, Repr

/-- The answers of the host to one `Manager.Start`. -/
structure ManagerEnv where
  /-- Result of `config.Load` on mcinit.json of the server directory
  (`none`: it fails). -/
  loadConfig : Option Config
  /-- Reading the PID file fails in `IsRunning`. -/
  readPidFails : Bool
  /-- The Java installations the detector finds on the host. -/
  found : List Installation
  /-- Answers to `Process.Start`. -/
  start : StartEnv
  deriving DecidableEq, Repr

/-- What `Manager.Start` leaves: its error, the host and the receiver. -/
structure ManagerResult where
  err : Option ManagerError
  world : World
  mgr : Manager

namespace Manager

/-- Model of `Manager.IsRunning`. -/
def IsRunning (m : Manager) (readFails : Bool) (w : World) : Bool :=
  m.process.IsRunning readFails w

/-- Model of `Manager.resolveJavaPath`. -/
def resolveJavaPath (cfg : Config) (found : List Installation) : Except DetectError String :=
  if cfg.Java.Path ≠ "" ∧ cfg.Java.Path ≠ "auto" then .ok cfg.Java.Path
  else if cfg.Java.Version ≠ "" ∧ cfg.Java.Version ≠ "auto" then
    let majorVersion : Int := (fmt.SscanfDecimal cfg.Java.Version).getD 0
    match Detector.FindByMajorVersion found majorVersion with
    | .error e => .error e
    | .ok inst => .ok inst.Path
  else
    match Detector.FindBest found with
    | .error e => .error e
    | .ok inst => .ok inst.Path

/-- Model of `Manager.buildJVMArgs`. -/
def buildJVMArgs (cfg : Config) (extraArgs : String) :
    Except jvmflags.FlagsError (List String) :=
  match jvmflags.Get cfg.JVM.Flags cfg.JVM.Xms cfg.JVM.Xmx cfg.JVM.CustomFlags with
  | .error e => .error e
  | .ok flags =>
    if extraArgs ≠ "" then .ok (flags ++ jvmflags.ParseCustomFlags extraArgs) else .ok flags

/-- Model of `Manager.Start`. -/
def Start (S : Codec State String) (m : Manager) (env : ManagerEnv) (w : World)
    (background : Bool) (extraArgs : String) : ManagerResult :=
  let loaded : Option Config :=
    match m.config with
    | some cfg => some cfg
    | none => env.loadConfig
  match loaded with
  | none => ⟨some .loadConfig, w, m⟩
  | some cfg =>
    let m1 : Manager := { m with config := some cfg }
    if m.process.IsRunning env.readPidFails w then ⟨some .alreadyRunning, w, m1⟩
    else
      match resolveJavaPath cfg env.found with
      | .error e => ⟨some (.resolveJavaPath e), w, m1⟩
      | .ok javaPath =>
        match buildJVMArgs cfg extraArgs with
        | .error e => ⟨some (.buildJVMArgs e), w, m1⟩
        | .ok jvmArgs =>
          let jarPath := filepath.Join [m.serverDir, cfg.Server.JarPath]
          if !utils.PathExists w.fs jarPath then ⟨some (.jarNotFound jarPath), w, m1⟩
          else
            let r := m.process.Start S env.start w javaPath jarPath jvmArgs background
            match r.err with
            | some e => ⟨some (.process e), r.world, { m1 with process := r.proc }⟩
            | none => ⟨none, r.world, { m1 with process := r.proc }⟩

/-- Model of `Manager.LoadConfig`; `loaded` is the result of `config.Load`. -/
def LoadConfig (m : Manager) (loaded : Option Config) : Option ManagerError × Manager :=
  match loaded with
  | none => (some .loadConfig, m)
  | some cfg => (none, { m with config := some cfg })

/-- Model of `Manager.Stop`. -/
def Stop (m : Manager) (env : StopEnv) (w : World) (force : Bool) : StepResult StopError :=
  m.process.Stop env w force

end Manager

/-- What a restart does, in order: the calls of `Stop` and `Start` and the
sleeps between them, with their duration in nanoseconds. -/
inductive RestartEvent where
  | stop (force : Bool)
  | sleep (nanoseconds : Int)
  | start
  deriving DecidableEq, Repr

/-- Errors of a restart. -/
inductive RestartError where
  | loadConfig
  | stopServer (cause : StopError)
  | startServer (cause : ManagerError)
  deriving DecidableEq, Repr

/-- The answers of the host to one restart. -/
structure RestartEnv where
  /-- Reading the PID file fails in the `IsRunning` of the restart. -/
  readPidFails : Bool
  /-- Answers to the `Stop`. -/
  stop : StopEnv
  /-- Answers to the `Start`. -/
  start : ManagerEnv
  deriving DecidableEq, Repr

/-- What a restart leaves: its error, the host, the receiver, the signals
delivered and what was done, in order. -/
structure RestartResult where
  err : Option RestartError
  world : World
  mgr : Manager
  signals : List (Int × Signal)
  trace : List RestartEvent

/-- Model of `Manager.Restart`.  When `waitSeconds` is positive the program
prints a message; it does not sleep. -/
def Manager.Restart (S : Codec State String) (m : Manager) (env : RestartEnv) (w : World)
    (background : Bool) (_waitSeconds : Int) : RestartResult :=
  let stopped : StepResult StopError × List RestartEvent :=
    if m.IsRunning env.readPidFails w then (m.Stop env.stop w false, [.stop false])
    else (⟨none, w, [], 0⟩, [])
  match stopped.1.err with
  | some e => ⟨some (.stopServer e), stopped.1.world, m, stopped.1.signals, stopped.2⟩
  | none =>
    let r := m.Start S env.start stopped.1.world background ""
    match r.err with
    | some e => ⟨some (.startServer e), r.world, r.mgr, stopped.1.signals, stopped.2 ++ [.start]⟩
    | none => ⟨none, r.world, r.mgr, stopped.1.signals, stopped.2 ++ [.start]⟩

/-! ## internal/cli: stop.go, restart.go -/

namespace cli

/-- Errors of `runStop`. -/
inductive StopCommandError where
  | notRunning
  | stopServer (cause : StopError)
  deriving DecidableEq, Repr

/-- Model of `runStop` for the manager of the server directory;
`readPidFails` says that reading the PID file fails in its `IsRunning`. -/
def runStop (m : Manager) (readPidFails : Bool) (env : StopEnv) (w : World) (force : Bool) :
    StepResult StopCommandError :=
  if !m.IsRunning readPidFails w then ⟨some .notRunning, w, [], 0⟩
  else
    let r := m.Stop env w force
    match r.err with
    | some e => ⟨some (.stopServer e), r.world, r.signals, r.elapsed⟩
    | none => ⟨none, r.world, r.signals, r.elapsed⟩

/-- The duration `time.Duration(waitSeconds) * time.Second`, in nanoseconds,
as a 64-bit integer. -/
def waitDuration (waitSeconds : Int) : Int :=
  (waitSeconds * 1000000000 + 9223372036854775808) % 18446744073709551616 - 9223372036854775808

/-- Model of `runRestart` for the manager of the server directory. -/
def runRestart (S : Codec State String) (m : Manager) (env : RestartEnv) (w : World)
    (background : Bool) (waitSeconds : Int) : RestartResult :=
  let l := m.LoadConfig env.start.loadConfig
  match l.1 with
  | some _ => ⟨some .loadConfig, w, l.2, [], []⟩
  | none =>
    let m1 := l.2
    let stopped : StepResult StopError × List RestartEvent :=
      if m1.IsRunning env.readPidFails w then (m1.Stop env.stop w false, [.stop false])
      else (⟨none, w, [], 0⟩, [])
    match stopped.1.err with
    | some e => ⟨some (.stopServer e), stopped.1.world, m1, stopped.1.signals, stopped.2⟩
    | none =>
      let slept : List RestartEvent :=
        if waitSeconds > 0 then [.sleep (waitDuration waitSeconds)] else []
      let r := m1.Start S env.start stopped.1.world background ""
      match r.err with
      | some e =>
        ⟨some (.startServer e), r.world, r.mgr, stopped.1.signals,
          stopped.2 ++ slept ++ [.start]⟩
      | none => ⟨none, r.world, r.mgr, stopped.1.signals, stopped.2 ++ slept ++ [.start]⟩

end cli

/-! ## strings and regexp: the pieces `parseJavaVersion` uses -/

namespace strings

/-- The pieces of a text between the occurrences of the separator `sep`;
there is always at least one piece. -/
def splitChars (sep : Char) : List Char → List (List Char)
  | [] => [[]]
  | c :: cs =>
    if c = sep then [] :: splitChars sep cs
    else
      match splitChars sep cs with
      | [] => [[c]]
      | h :: t => (c :: h) :: t

/-- Model of `strings.Split(s, sep)` for a separator of one character. -/
def Split (s : String) (sep : Char) : List String :=
  (splitChars sep s.data).map String.mk

end strings

namespace versionRegex

/-- The pattern `version "([^"]+)"` matched at the start of `cs`: the text
of the group, if the pattern matches there.  The group takes the longest run
of characters other than the quote; it must not be empty and a quote must
follow it. -/
def matchHere (cs : List Char) : Option (List Char) :=
  if "version \"".data.isPrefixOf cs then
    let rest := cs.drop "version \"".data.length
    let group := rest.takeWhile (fun c => c ≠ '"')
    if group ≠ [] ∧ (rest.dropWhile (fun c => c ≠ '"')).head? = some '"' then some group
    else none
  else none

/-- The leftmost match of the pattern in `cs`: the whole match and the text
of the group, or the empty list when there is no match. -/
def findChars : List Char → List String
  | [] => []
  | c :: cs =>
    match matchHere (c :: cs) with
    | some group => [String.mk ("version \"".data ++ group ++ ['"']), String.mk group]
    | none => findChars cs

/-- Model of `versionRegex.FindStringSubmatch`, for the pattern
`version "([^"]+)"` of `parseJavaVersion`. -/
def FindStringSubmatch (output : String) : List String := findChars output.data

end versionRegex

/-! ## internal/java: detector.go, parseJavaVersion -/

/-- Errors of `parseJavaVersion`. -/
inductive ParseVersionError where
  | couldNotParse
  | invalidFormat (version : String)
  deriving DecidableEq, Repr

/-- The results of `parseJavaVersion`. -/
structure ParsedVersion where
  version : String
  major : Int
  minor : Int
  patch : Int
  err : Option ParseVersionError
  deriving DecidableEq, Repr

/-- The value a variable that is zero has after `fmt.Sscanf(s, "%d", &v)`,
whose error is discarded. -/
def scanOrZero (s : String) : Int := (fmt.SscanfDecimal s).getD 0

/-- Model of `parseJavaVersion`. -/
def parseJavaVersion (output : String) : ParsedVersion :=
  match versionRegex.FindStringSubmatch output with
  | _ :: version :: _ =>
    match strings.Split version '.' with
    | part0 :: part1 :: rest =>
      if part0 = "1" then
        let major := scanOrZero part1
        match rest with
        | part2 :: _ =>
          let patchStr := (strings.Split part2 '_').headD ""
          ⟨version, major, scanOrZero patchStr, 0, none⟩
        | [] => ⟨version, major, 0, 0, none⟩
      else
        let major := scanOrZero part0
        let minor := scanOrZero part1
        match rest with
        | part2 :: _ =>
          let patchStr := (strings.Split part2 ' ').headD ""
          let patchStr := (strings.Split patchStr '-').headD ""
          let patchStr := (strings.Split patchStr '+').headD ""
          ⟨version, major, minor, scanOrZero patchStr, none⟩
        | [] => ⟨version, major, minor, 0, none⟩
    | _ => ⟨version, 0, 0, 0, some (.invalidFormat version)⟩
  | _ => ⟨"", 0, 0, 0, some .couldNotParse⟩

/-- The version of an installation as a triple. -/
def Installation.triple (inst : Installation) : Int × Int × Int :=
  (inst.Major, inst.Minor, inst.Patch)

/-- The strict lexicographic order on version triples. -/
def tripleLt (a b : Int × Int × Int) : Prop :=
  Prod.Lex (fun x y => x < y) (Prod.Lex (fun x y => x < y) (fun x y => x < y)) a b

/-! ## internal/java: validator.go -/

namespace fmt

/-- One `%d` of a scan: white space is skipped, one sign is accepted, the
longest run of decimal digits is the token; the value and the rest of the
input, or `none` when the scan of the number fails. -/
def scanDecimal (input : List Char) : Option (Int × List Char) :=
  match skipSpace input with
  | none => none
  | some rest =>
    let signed : Bool × List Char :=
      match rest with
      | [] => (false, [])
      | c :: t => if c = '+' then (false, t) else if c = '-' then (true, t) else (false, c :: t)
    let tok := signed.2.takeWhile (fun c => c.isDigit)
    if tok = [] then none
    else
      let v : Int := if signed.1 then -(digitsValue tok : Int) else (digitsValue tok : Int)
      if isInt64 v then some (v, signed.2.dropWhile (fun c => c.isDigit)) else none

/-- Model of `fmt.Sscanf(s, "%d.%d", &major, &minor)` on two variables that
are zero, with the error discarded: the values of the variables afterwards.
A variable is set as soon as its number is scanned; the scan stops at the
first number or literal that does not match. -/
def SscanfDecimalDotDecimal (s : String) : Int × Int :=
  match scanDecimal s.data with
  | none => (0, 0)
  | some (major, rest) =>
    match rest with
    | [] => (major, 0)
    | c :: rest2 =>
      if c = '.' then
        match scanDecimal rest2 with
        | none => (major, 0)
        | some (minor, _) => (major, minor)
      else (major, 0)

end fmt

namespace Validator

/-- Model of `Validator.GetRequiredJavaVersion`. -/
def GetRequiredJavaVersion (mcVersion : String) : Int :=
  if mcVersion.length = 0 then 17
  else
    let scanned := fmt.SscanfDecimalDotDecimal mcVersion
    let major := scanned.1
    let minor := scanned.2
    if major = 1 ∧ minor ≥ 12 ∧ minor ≤ 16 then 8
    else if major = 1 ∧ minor = 17 then 16
    else if major = 1 ∧ minor ≥ 18 ∧ minor ≤ 20 then 17
    else if major = 1 ∧ minor ≥ 21 then 21
    else 17

end Validator

/-! ## internal/provider -/

namespace provider

/-- What the upstream gives for a GET of an API URL: the request cannot be
built, the transport fails, or there is a response with its status code and
its body (`none`: reading the body fails). -/
inductive UpstreamAnswer where
  | invalidRequest
  | transportError
  | response (status : Nat) (body : Option String)
  deriving DecidableEq, Repr

/-- Errors of the API requests; `unsupported` is the error of the methods
of BungeeCord. -/
inductive ApiError where
  | newRequest
  | transport
  | status (code : Nat)
  | readBody
  | unmarshal
  | noBuilds (version : String)
  | unsupported
  deriving DecidableEq, Repr

/-- The part of `PaperVersion` the provider reads. -/
structure PaperVersion where
  Builds : List Int
  deriving DecidableEq, Repr

/-- The part of `PaperBuild` the provider reads: the name and the SHA-256
checksum of the application download. -/
structure PaperBuild where
  Name : String
  SHA256 : String
  deriving DecidableEq, Repr

/-- The part of the version record of Purpur the provider reads:
`builds.latest`. -/
structure PurpurVersion where
  Latest : String
  deriving DecidableEq, Repr

/-- The part of `VersionEntry` the provider reads; `Kind` is the field
`Type`. -/
structure VersionEntry where
  ID : String
  Kind : String
  URL : String
  deriving DecidableEq, Repr

/-- The part of `VersionManifest` the provider reads. -/
structure VersionManifest where
  Versions : List VersionEntry
  deriving DecidableEq, Repr

/-- The part of `VersionInfo` the provider reads: the server download. -/
structure VersionInfo where
  SHA1 : String
  URL : String
  deriving DecidableEq, Repr

/-- The results of `json.Unmarshal` of a body into each of the records
(`none`: it fails). -/
structure Decoders where
  paperVersion : String → Option PaperVersion
  paperBuild : String → Option PaperBuild
  purpurVersion : String → Option PurpurVersion
  manifest : String → Option VersionManifest
  versionInfo : String → Option VersionInfo

/-- What a provider does that is visible from outside, in order: a call of
`GetLatestBuild`, a GET of an API URL, a call of `Downloader.DownloadJar`
with its arguments. -/
inductive Call where
  | latestBuild (version : String)
  | get (url : String)
  | fetch (url serverType version build checksum algorithm : String)
  deriving DecidableEq, Repr

/-- The steps every API method repeats: build the request, send it, check
the status, read the body and unmarshal it.  The second component is the GET
that was sent, if any. -/
def getJSON {α : Type} (decode : String → Option α) (upstream : String → UpstreamAnswer)
    (url : String) : Except ApiError α × List Call :=
  match upstream url with
  | .invalidRequest => (.error .newRequest, [])
  | .transportError => (.error .transport, [.get url])
  | .response status body =>
    if status ≠ 200 then (.error (.status status), [.get url])
    else
      match body with
      | none => (.error .readBody, [.get url])
      | some data =>
        match decode data with
        | none => (.error .unmarshal, [.get url])
        | some v => (.ok v, [.get url])

/-- Errors of `DownloadJar` of the providers. -/
inductive ProviderError where
  | latestBuild (cause : ApiError)
  | buildInfo (cause : ApiError)
  | versionManifest (cause : ApiError)
  | versionNotFound (version : String)
  | versionInfo (cause : ApiError)
  | serverDownloadUnavailable (version : String)
  | downloadJar (cause : DownloadError)
  | unsupported
  deriving DecidableEq, Repr

/-- What `DownloadJar` of a provider leaves: the returned values, the file
system and what it did, in order. -/
structure JarResult where
  localPath : String
  downloadURL : String
  checksum : String
  err : Option ProviderError
  fs : FS Bytes
  calls : List Call

/-- Model of `PaperProvider`. -/
structure PaperProvider where
  cache : Cache
  projectName : String
  deriving DecidableEq, Repr

/-- Model of `NewPaperProvider`, for the cache `cache.New` returns. -/
def NewPaperProvider (c : Cache) : PaperProvider := { cache := c, projectName := "paper" }

namespace PaperProvider

/-- Model of `PaperProvider.GetName`. -/
def GetName (p : PaperProvider) : String := p.projectName

/-- Model of `PaperProvider.GetLatestBuild`. -/
def GetLatestBuild (D : Decoders) (p : PaperProvider) (upstream : String → UpstreamAnswer)
    (version : String) : Except ApiError String × List Call :=
  let url := "https://api.papermc.io/v2/projects/" ++ p.projectName ++ "/versions/" ++ version
  let r := getJSON D.paperVersion upstream url
  match r.1 with
  | .error e => (.error e, .latestBuild version :: r.2)
  | .ok versionInfo =>
    match versionInfo.Builds.getLast? with
    | none => (.error (.noBuilds version), .latestBuild version :: r.2)
    | some last => (.ok (String.mk (fmt.formatInt last)), .latestBuild version :: r.2)

/-- Model of `PaperProvider.getBuildInfo`. -/
def getBuildInfo (D : Decoders) (p : PaperProvider) (upstream : String → UpstreamAnswer)
    (version build : String) : Except ApiError PaperBuild × List Call :=
  getJSON D.paperBuild upstream
    ("https://api.papermc.io/v2/projects/" ++ p.projectName ++ "/versions/" ++ version ++
      "/builds/" ++ build)

/-- Model of `PaperProvider.DownloadJar`. -/
def DownloadJar (D : Decoders) (J : Codec CacheMetadata Bytes) (p : PaperProvider)
    (upstream : String → UpstreamAnswer) (env : DownloadEnv) (fs : FS Bytes)
    (version build : String) : JarResult :=
  let resolved : Except ApiError String × List Call :=
    if build = "" ∨ build = "latest" then p.GetLatestBuild D upstream version
    else (.ok build, [])
  match resolved.1 with
  | .error e => ⟨"", "", "", some (.latestBuild e), fs, resolved.2⟩
  | .ok build =>
    let info := p.getBuildInfo D upstream version build
    match info.1 with
    | .error e => ⟨"", "", "", some (.buildInfo e), fs, resolved.2 ++ info.2⟩
    | .ok buildInfo =>
      let downloadURL := "https://api.papermc.io/v2/projects/" ++ p.projectName ++
        "/versions/" ++ version ++ "/builds/" ++ build ++ "/downloads/" ++ buildInfo.Name
      let checksum := buildInfo.SHA256
      let d := Downloader.DownloadJar J p.cache env fs downloadURL p.projectName version build
        checksum "sha256"
      let calls := resolved.2 ++ info.2 ++
        [.fetch downloadURL p.projectName version build checksum "sha256"]
      match d.err with
      | some e => ⟨"", "", "", some (.downloadJar e), d.fs, calls⟩
      | none => ⟨d.path, downloadURL, checksum, none, d.fs, calls⟩

end PaperProvider

/-- Model of `PurpurProvider`. -/
structure PurpurProvider where
  cache : Cache
  deriving DecidableEq, Repr

namespace PurpurProvider

/-- Model of `PurpurProvider.GetName`. -/
def GetName (_p : PurpurProvider) : String := "purpur"

/-- Model of `PurpurProvider.GetLatestBuild`. -/
def GetLatestBuild (D : Decoders) (_p : PurpurProvider) (upstream : String → UpstreamAnswer)
    (version : String) : Except ApiError String × List Call :=
  let r := getJSON D.purpurVersion upstream ("https://api.purpurmc.org/v2/purpur/" ++ version)
  match r.1 with
  | .error e => (.error e, .latestBuild version :: r.2)
  | .ok result => (.ok result.Latest, .latestBuild version :: r.2)

/-- Model of `PurpurProvider.DownloadJar`. -/
def DownloadJar (D : Decoders) (J : Codec CacheMetadata Bytes) (p : PurpurProvider)
    (upstream : String → UpstreamAnswer) (env : DownloadEnv) (fs : FS Bytes)
    (version build : String) : JarResult :=
  let resolved : Except ApiError String × List Call :=
    if build = "" ∨ build = "latest" then p.GetLatestBuild D upstream version
    else (.ok build, [])
  match resolved.1 with
  | .error e => ⟨"", "", "", some (.latestBuild e), fs, resolved.2⟩
  | .ok build =>
    let downloadURL := "https://api.purpurmc.org/v2/purpur/" ++ version ++ "/" ++ build ++
      "/download"
    let d := Downloader.DownloadJar J p.cache env fs downloadURL "purpur" version build "" ""
    let calls := resolved.2 ++ [.fetch downloadURL "purpur" version build "" ""]
    match d.err with
    | some e => ⟨"", "", "", some (.downloadJar e), d.fs, calls⟩
    | none => ⟨d.path, downloadURL, "", none, d.fs, calls⟩

end PurpurProvider

/-- Model of `VanillaProvider`. -/
structure VanillaProvider where
  cache : Cache
  deriving DecidableEq, Repr

namespace VanillaProvider

/-- Model of `VanillaProvider.GetName`. -/
def GetName (_p : VanillaProvider) : String := "vanilla"

/-- Model of `VanillaProvider.fetchVersionManifest`. -/
def fetchVersionManifest (D : Decoders) (_p : VanillaProvider)
    (upstream : String → UpstreamAnswer) : Except ApiError VersionManifest × List Call :=
  getJSON D.manifest upstream "https://launchermeta.mojang.com/mc/game/version_manifest_v2.json"

/-- Model of `VanillaProvider.fetchVersionInfo`. -/
def fetchVersionInfo (D : Decoders) (_p : VanillaProvider) (upstream : String → UpstreamAnswer)
    (url : String) : Except ApiError VersionInfo × List Call :=
  getJSON D.versionInfo upstream url

/-- Model of `VanillaProvider.GetAvailableVersions`: the loop appends the id
of each release entry. -/
def GetAvailableVersions (D : Decoders) (p : VanillaProvider)
    (upstream : String → UpstreamAnswer) : Except ApiError (List String) :=
  match (p.fetchVersionManifest D upstream).1 with
  | .error e => .error e
  | .ok manifest =>
    .ok (manifest.Versions.foldl
      (fun versions v => if v.Kind = "release" then versions ++ [v.ID] else versions) [])

/-- Model of `VanillaProvider.GetLatestBuild`. -/
def GetLatestBuild (_p : VanillaProvider) (version : String) : Except ApiError String × List Call :=
  (.ok "", [.latestBuild version])

/-- The loop of `DownloadJar` over the manifest: the URL of the first entry
with the id `version`, or the empty string. -/
def versionURL (manifest : VersionManifest) (version : String) : String :=
  match manifest.Versions.find? (fun v => v.ID = version) with
  | some v => v.URL
  | none => ""

/-- Model of `VanillaProvider.DownloadJar`. -/
def DownloadJar (D : Decoders) (J : Codec CacheMetadata Bytes) (p : VanillaProvider)
    (upstream : String → UpstreamAnswer) (env : DownloadEnv) (fs : FS Bytes)
    (version _build : String) : JarResult :=
  let m := p.fetchVersionManifest D upstream
  match m.1 with
  | .error e => ⟨"", "", "", some (.versionManifest e), fs, m.2⟩
  | .ok manifest =>
    let versionURL := versionURL manifest version
    if versionURL = "" then ⟨"", "", "", some (.versionNotFound version), fs, m.2⟩
    else
      let i := p.fetchVersionInfo D upstream versionURL
      match i.1 with
      | .error e => ⟨"", "", "", some (.versionInfo e), fs, m.2 ++ i.2⟩
      | .ok versionInfo =>
        if versionInfo.URL = "" then
          ⟨"", "", "", some (.serverDownloadUnavailable version), fs, m.2 ++ i.2⟩
        else
          let downloadURL := versionInfo.URL
          let checksum := versionInfo.SHA1
          let d := Downloader.DownloadJar J p.cache env fs downloadURL "vanilla" version ""
            checksum "sha1"
          let calls := m.2 ++ i.2 ++ [.fetch downloadURL "vanilla" version "" checksum "sha1"]
          match d.err with
          | some e => ⟨"", "", "", some (.downloadJar e), d.fs, calls⟩
          | none => ⟨d.path, downloadURL, checksum, none, d.fs, calls⟩

end VanillaProvider

/-- Model of the interface `Provider` with its seven implementations.
Folia, Velocity and Waterfall embed a `PaperProvider`, whose methods they use
except for `GetName`; BungeeCord has no fields. -/
inductive Provider where
  | vanilla (p : VanillaProvider)
  | paper (p : PaperProvider)
  | purpur (p : PurpurProvider)
  | folia (p : PaperProvider)
  | velocity (p : PaperProvider)
  | waterfall (p : PaperProvider)
  | bungee
  deriving DecidableEq, Repr

/-- Model of `NewVanillaProvider`. -/
def NewVanillaProvider (c : Cache) : Provider := .vanilla { cache := c }

/-- Model of `NewPurpurProvider`. -/
def NewPurpurProvider (c : Cache) : Provider := .purpur { cache := c }

/-- Model of `NewFoliaProvider`. -/
def NewFoliaProvider (c : Cache) : Provider := .folia { cache := c, projectName := "folia" }

/-- Model of `NewVelocityProvider`. -/
def NewVelocityProvider (c : Cache) : Provider :=
  .velocity { cache := c, projectName := "velocity" }

/-- Model of `NewWaterfallProvider`. -/
def NewWaterfallProvider (c : Cache) : Provider :=
  .waterfall { cache := c, projectName := "waterfall" }

/-- Model of `NewBungeeProvider`. -/
def NewBungeeProvider : Provider := .bungee

namespace Provider

/-- Model of the method `GetName` of each implementation. -/
def GetName : Provider → String
  | .vanilla p => p.GetName
  | .paper p => p.GetName
  | .purpur p => p.GetName
  | .folia _ => "folia"
  | .velocity _ => "velocity"
  | .waterfall _ => "waterfall"
  | .bungee => "bungee"

/-- Model of the method `GetLatestBuild` of each implementation. -/
def GetLatestBuild (D : Decoders) (prov : Provider) (upstream : String → UpstreamAnswer)
    (version : String) : Except ApiError String × List Call :=
  match prov with
  | .vanilla p => p.GetLatestBuild version
  | .paper p => p.GetLatestBuild D upstream version
  | .purpur p => p.GetLatestBuild D upstream version
  | .folia p => p.GetLatestBuild D upstream version
  | .velocity p => p.GetLatestBuild D upstream version
  | .waterfall p => p.GetLatestBuild D upstream version
  | .bungee => (.error .unsupported, [.latestBuild version])

/-- Model of the method `DownloadJar` of each implementation. -/
def DownloadJar (D : Decoders) (J : Codec CacheMetadata Bytes) (prov : Provider)
    (upstream : String → UpstreamAnswer) (env : DownloadEnv) (fs : FS Bytes)
    (version build : String) : JarResult :=
  match prov with
  | .vanilla p => p.DownloadJar D J upstream env fs version build
  | .paper p => p.DownloadJar D J upstream env fs version build
  | .purpur p => p.DownloadJar D J upstream env fs version build
  | .folia p => p.DownloadJar D J upstream env fs version build
  | .velocity p => p.DownloadJar D J upstream env fs version build
  | .waterfall p => p.DownloadJar D J upstream env fs version build
  | .bungee => ⟨"", "", "", some .unsupported, fs, []⟩

end Provider

/-- Errors of the registry. -/
inductive RegistryError where
  | notFound (name : String)
  deriving DecidableEq, Repr

/-- Model of the package variable `providers`, a map from names to
providers: the entries, one per name. -/
structure Registry where
  providers : List (String × Provider)
  deriving DecidableEq, Repr

/-- Model of `Register`: the entry of the name is replaced or added. -/
def Registry.Register (r : Registry) (name : String) (provider : Provider) : Registry :=
  if r.providers.any (fun e => e.1 = name) then
    ⟨r.providers.map (fun e => if e.1 = name then (name, provider) else e)⟩
  else ⟨r.providers ++ [(name, provider)]⟩

/-- Model of `Get`. -/
def Registry.Get (r : Registry) (name : String) : Except RegistryError Provider :=
  match r.providers.find? (fun e => e.1 = name) with
  | some e => .ok e.2
  | none => .error (.notFound name)

/-- Model of `Exists`. -/
def Registry.Exists (r : Registry) (name : String) : Bool :=
  (r.providers.find? (fun e => e.1 = name)).isSome

/-- The names of the entries.  The order in which a Go map is iterated is
not specified. -/
def Registry.names (r : Registry) : List String := r.providers.map (fun e => e.1)

/-- Model of `List`: `names` is a possible result, the registered names in
some order. -/
def Registry.List (r : Registry) (names : List String) : Prop := names.Perm r.names

instance (r : Registry) (names : List String) : Decidable (r.List names) := by
  unfold Registry.List
  infer_instance

/-- Model of `init` of registry.go, for the cache `cache.New` returns. -/
def init (c : Cache) : Registry :=
  let r : Registry := ⟨[]⟩
  let r := r.Register "vanilla" (NewVanillaProvider c)
  let r := r.Register "paper" (.paper (NewPaperProvider c))
  let r := r.Register "purpur" (NewPurpurProvider c)
  let r := r.Register "folia" (NewFoliaProvider c)
  let r := r.Register "velocity" (NewVelocityProvider c)
  let r := r.Register "waterfall" (NewWaterfallProvider c)
  r.Register "bungee" NewBungeeProvider

/-- Whether a step is a call of `GetLatestBuild`. -/
def Call.isLatestBuild : Call → Bool
  | .latestBuild _ => true
  | _ => false


end provider

/-- The flags the words of the specification describe for a text without
quotes: the non-empty pieces between spaces. -/
def jvmflags.spaceFields (flagsString : String) : List String :=
  (strings.Split flagsString ' ').filter (fun f => f ≠ "")

/-- The end of `ParseCustomFlags`: the current flag is appended when it is
not empty. -/
def jvmflags.flush (st : jvmflags.ParseState) : List String :=
  if st.current ≠ [] then st.flags ++ [String.mk st.current] else st.flags

/-! ## A codec that exists

The theorems hold for every `Codec`.  The codecs below show that there is
one, and instantiate the theorems at concrete inputs: a value is written as
its number in an enumeration of its type, in unary. -/

/-- An enumeration of the strings. -/
def stringEncodable : Encodable String :=
  Encodable.ofLeftInjection (fun s => s.data.map Char.toNat)
    (fun l => some (String.mk (l.map Char.ofNat)))
    (fun s => by simp [Function.comp_def])

/-- An enumeration of the metadata records. -/
def metadataEncodable : Encodable CacheMetadata :=
  @Encodable.ofLeftInjection (List String) CacheMetadata (@List.encodable String stringEncodable)
    (fun m => [m.Version, m.Build, m.ServerType, m.DownloadURL, m.Checksum, m.Algorithm,
      m.CachedAt])
    (fun l =>
      match l with
      | [a, b, c, d, e, f, g] => some ⟨a, b, c, d, e, f, g⟩
      | _ => none)
    (fun _ => rfl)

/-- An enumeration of the server states. -/
def stateEncodable : Encodable State :=
  @Encodable.ofLeftInjection (ℤ × ℤ × String) State
    (@Encodable.Prod.encodable ℤ (ℤ × String) _ (@Encodable.Prod.encodable ℤ String _ stringEncodable))
    (fun s => (s.PID, s.StartTime, s.Status))
    (fun t => some ⟨t.1, t.2.1, t.2.2⟩)
    (fun _ => rfl)

namespace Codec

/-- The unary codec into byte files. -/
def unaryBytes {α : Type} (e : Encodable α) : Codec α Bytes where
  marshal a := List.replicate (e.encode a) 0
  unmarshal data := e.decode data.length
  unmarshal_marshal a := by simp

/-- The unary codec into text files. -/
def unaryText {α : Type} (e : Encodable α) : Codec α String where
  marshal a := String.mk (List.replicate (e.encode a) '1')
  unmarshal data := e.decode data.data.length
  unmarshal_marshal a := by simp

end Codec

/-- A codec of metadata records. -/
def metadataCodec : Codec CacheMetadata Bytes := Codec.unaryBytes metadataEncodable

/-- A codec of server states. -/
def stateCodec : Codec State String := Codec.unaryText stateEncodable

/-! ## Hosts for concrete scenarios -/

/-- A host on which every system call of `DownloadJar` succeeds and every
GET is answered with status 200 and the body `body`. -/
def DownloadEnv.healthy (body : Bytes) : DownloadEnv where
  verify := ⟨false, false⟩
  ensureJarsDirFails := false
  ensureDestDirFails := false
  createFails := false
  get := fun _ => .response 200 body
  copyFailsAfter := none
  renameFails := false
  now := "2024-01-01T00:00:00Z"
  ensureMetaDirFails := false
  writeMeta := .ok

/-- The cache of the scenarios: its root is `/cache`. -/
def scenarioCache : Cache := ⟨"/cache"⟩

/-- A cache directory that holds, for one key, the jar `jar` and the
metadata file `record`, and nothing else. -/
def cachedFS (c : Cache) (serverType version build : String) (jar record : Bytes) : FS Bytes :=
  (FS.empty.write (c.GetJarPath serverType version build) jar).write
    (c.GetMetadataPath serverType version build) record

/-- A host on which every system call of `Process.Start` succeeds; the
child gets the process id `pid` and, in foreground mode, exits normally. -/
def StartEnv.healthy (pid : Int) : StartEnv where
  stdinPipeFails := false
  stdoutPipeFails := false
  stderrPipeFails := false
  start := some pid
  now := 1704067200000000000
  save := ⟨false, .ok, .ok⟩
  waitFails := false
  clear := ⟨false, false⟩

/-- A host with an empty server directory and no process. -/
def idleWorld : World where
  fs := FS.empty
  alive := fun _ => false
  launched := []
  watchers := []

/-- A host on which the server of the directory `dir` runs as process `pid`:
both state files are there and the process is alive. -/
def runningWorld (dir : String) (pid : Int) : World where
  fs := (FS.empty.write (NewStateFile dir).statePath
      (stateCodec.marshal { PID := pid, StartTime := 1704067200000000000, Status := "running" })).write
    (NewStateFile dir).pidPath (fmt.SprintfDecimalLine pid)
  alive := fun q => decide (q = pid)
  launched := []
  watchers := []

/-- A configuration for the scenarios. -/
def scenarioConfig : Config where
  Server := ⟨"server.jar"⟩
  Java := ⟨"17", "/usr/bin/java"⟩
  JVM := ⟨"2G", "4G", "minimal", []⟩

/-- A host on which the state files of the directory `dir` name the process
`pid`, which is not alive any more. -/
def staleWorld (dir : String) (pid : Int) : World :=
  { runningWorld dir pid with alive := fun _ => false }

/-- A host on which the server of the directory `dir` runs as process `pid`
and its jar `server.jar` is in place. -/
def installedWorld (dir : String) (pid : Int) : World :=
  { runningWorld dir pid with
    fs := (runningWorld dir pid).fs.write (filepath.Join [dir, "server.jar"]) "" }

/-- A host whose server never exits on the terminate signal. -/
def StopEnv.stubborn : StopEnv where
  readPidFails := false
  findProcessFails := false
  exitsAfter := none
  tickFirst := false

/-- A host whose server exits 700 ms after the terminate signal. -/
def StopEnv.prompt : StopEnv where
  readPidFails := false
  findProcessFails := false
  exitsAfter := some 700
  tickFirst := false

/-- A manifest for the scenarios: two snapshots and two releases. -/
def provider.scenarioManifest : provider.VersionManifest where
  Versions :=
    [⟨"25w03a", "snapshot", "https://meta.example/25w03a.json"⟩,
      ⟨"1.21.4", "release", "https://meta.example/1.21.4.json"⟩,
      ⟨"1.21.4-rc3", "snapshot", "https://meta.example/1.21.4-rc3.json"⟩,
      ⟨"1.21.3", "release", "https://meta.example/1.21.3.json"⟩]

/-- Decoders for the scenarios: each record has one body that unmarshals. -/
def provider.scenarioDecoders : provider.Decoders where
  paperVersion := fun body => if body = "builds 495 496" then some ⟨[495, 496]⟩ else none
  paperBuild := fun body =>
    if body = "build 496" then some ⟨"paper-1.21.4-496.jar", "e3b0"⟩ else none
  purpurVersion := fun body =>
    if body = "latest 2329" then some ⟨"2329"⟩
    else if body = "latest latest" then some ⟨"latest"⟩ else none
  manifest := fun body =>
    if body = "manifest" then some scenarioManifest else none
  versionInfo := fun body =>
    if body = "info 1.21.4" then some ⟨"da39", "https://dl.example/server.jar"⟩ else none

/-- An upstream for the scenarios: every API answers with status 200. -/
def provider.scenarioUpstream (url : String) : provider.UpstreamAnswer :=
  if url = "https://launchermeta.mojang.com/mc/game/version_manifest_v2.json" then
    .response 200 (some "manifest")
  else if url = "https://meta.example/1.21.4.json" then .response 200 (some "info 1.21.4")
  else if url = "https://api.papermc.io/v2/projects/paper/versions/1.21.4" then
    .response 200 (some "builds 495 496")
  else if url = "https://api.papermc.io/v2/projects/paper/versions/1.21.4/builds/496" then
    .response 200 (some "build 496")
  else if url = "https://api.purpurmc.org/v2/purpur/1.21.4" then
    .response 200 (some "latest 2329")
  else if url = "https://api.purpurmc.org/v2/purpur/1.21.5" then
    .response 200 (some "latest latest")
  else .response 404 (some "")

end Mcinit

set_option maxRecDepth 100000

namespace Mcinit

/-! # Theorems -/

/-! ## The library models on known values -/

/-- The model of `filepath.Clean` on cases of the test table of the Go
library. -/
theorem filepath.Clean_examples :
    filepath.Clean "abc//def//ghi" = "abc/def/ghi" ∧ filepath.Clean "abc/./../def" = "def" ∧
    filepath.Clean "/../abc" = "/abc" ∧ filepath.Clean "abc/../../././../def" = "../../def" ∧
    filepath.Clean "abc/def/../../.." = ".." ∧ filepath.Clean "" = "." ∧
    filepath.Clean "abc/" = "abc" ∧ filepath.Clean "/" = "/" ∧
    filepath.Join ["a", "", "b"] = "a/b" ∧ filepath.Join ["", ""] = "" ∧
    filepath.Join ["/cache", "jars", "paper-1.21.4-123.jar"]
      = "/cache/jars/paper-1.21.4-123.jar" := by
  decide

/-- The models of SHA-1 and SHA-256 on the empty message and on a message of
two blocks. -/
theorem sha_examples :
    hex.EncodeToString (sha1.Sum []) = "da39a3ee5e6b4b0d3255bfef95601890afd80709" ∧
    hex.EncodeToString (sha256.Sum [])
      = "e3b0c44298fc1c149afbf4c8996fb92427ae41e4649b934ca495991b7852b855" ∧
    hex.EncodeToString (sha1.Sum (List.replicate 64 97))
      = "0098ba824b5c16427bd7a1122a5a442a25ec644d" ∧
    hex.EncodeToString (sha256.Sum (List.replicate 64 97))
      = "ffe054fe7ae0cb6dc65c3af9b61d5209f439851db43d0ba5997337df154668eb" := by
  decide

/-- The model of `fmt.Sscanf("%d")` on sample texts. -/
theorem fmt.SscanfDecimal_examples :
    fmt.SscanfDecimal "17" = some 17 ∧ fmt.SscanfDecimal " 42\n" = some 42 ∧
    fmt.SscanfDecimal "-3x" = some (-3) ∧ fmt.SscanfDecimal "+8" = some 8 ∧
    fmt.SscanfDecimal "\n5" = none ∧ fmt.SscanfDecimal "1_7" = some 1 ∧
    fmt.SscanfDecimal "21_0" = some 21 ∧ fmt.SscanfDecimal "17.0.1" = some 17 ∧
    fmt.SscanfDecimalDotDecimal "1.21_5" = (1, 21) ∧
    fmt.SscanfDecimalDotDecimal "1.20.5" = (1, 20) ∧ fmt.SscanfDecimalDotDecimal "1" = (1, 0) ∧
    fmt.SscanfDecimal "auto" = none ∧ fmt.SscanfDecimal "" = none ∧
    fmt.SscanfDecimal "9223372036854775808" = none ∧
    fmt.SprintfDecimalLine 4242 = "4242\n" ∧ fmt.SprintfDecimalLine (-7) = "-7\n" ∧
    fmt.SprintfDecimalLine 0 = "0\n" := by
  decide

/-! ## Facts about paths -/

namespace filepath

theorem splitSlash_of_no_slash (t : List Char) (ht : '/' ∉ t) : splitSlash t = [t] := by
  induction t with
  | nil => rfl
  | cons c cs ih =>
    have hc : c ≠ '/' := fun h => ht (h ▸ List.mem_cons_self _ _)
    have hcs : '/' ∉ cs := fun h => ht (List.mem_cons_of_mem _ h)
    simp [splitSlash, hc, ih hcs]

theorem splitSlash_append (s t : List Char) (ht : '/' ∉ t) :
    ∃ D L, splitSlash (s ++ t) = D ++ [L ++ t] := by
  induction s with
  | nil => exact ⟨[], [], by simp [splitSlash_of_no_slash t ht]⟩
  | cons c cs ih =>
    obtain ⟨D, L, h⟩ := ih
    by_cases hc : c = '/'
    · exact ⟨[] :: D, L, by simp [splitSlash, hc, h]⟩
    · cases D with
      | nil => exact ⟨[], c :: L, by simp [splitSlash, hc, h]⟩
      | cons d ds => exact ⟨(c :: d) :: ds, L, by simp [splitSlash, hc, h]⟩

theorem cleanStep_of_long (rooted : Bool) (stack : List (List Char)) (x : List Char)
    (hx : 3 ≤ x.length) : cleanStep rooted stack x = x :: stack := by
  have h0 : x ≠ [] := by rintro rfl; simp at hx
  have h1 : x ≠ ['.'] := by rintro rfl; simp at hx
  have h2 : x ≠ ['.', '.'] := by rintro rfl; simp at hx
  simp [cleanStep, h0, h1, h2]

theorem intercalate_append_singleton (R : List (List Char)) (x : List Char) :
    ∃ pre, List.intercalate ['/'] (R ++ [x]) = pre ++ x := by
  induction R with
  | nil => exact ⟨[], by simp [List.intercalate]⟩
  | cons r rs ih =>
    obtain ⟨pre, h⟩ := ih
    cases rs with
    | nil => exact ⟨r ++ ['/'], by simp [List.intercalate, List.intersperse]⟩
    | cons r2 rs2 =>
      refine ⟨r ++ '/' :: pre, ?_⟩
      simp only [List.intercalate, List.cons_append, List.intersperse, List.flatten_cons] at h ⊢
      simp [h]

/-- A last component of three characters or more survives `Clean`. -/
theorem cleanChars_suffix (s t : List Char) (ht : '/' ∉ t) (hlen : 3 ≤ t.length) :
    ∃ pre, cleanChars (s ++ t) = pre ++ t := by
  obtain ⟨D, L, h⟩ := splitSlash_append s t ht
  have hx : 3 ≤ (L ++ t).length := by
    rw [List.length_append]
    omega
  unfold cleanChars
  simp only [h, List.foldl_append, List.foldl_cons, List.foldl_nil, cleanStep_of_long _ _ _ hx,
    List.reverse_cons]
  generalize decide ((s ++ t).head? = some '/') = rooted
  obtain ⟨pre, hpre⟩ := intercalate_append_singleton
    ((D.foldl (cleanStep rooted) []).reverse) (L ++ t)
  have hne : pre ++ (L ++ t) ≠ [] := by
    intro h0
    have h1 := congrArg List.length h0
    rw [List.length_append] at h1
    simp only [List.length_nil] at h1
    omega
  rw [hpre]
  cases rooted with
  | true => exact ⟨'/' :: (pre ++ L), by simp⟩
  | false => exact ⟨pre ++ L, by simp [hne]⟩

theorem intercalate_go_append (acc sep f : String) (l : List String) :
    String.intercalate.go acc sep (l ++ [f]) = String.intercalate.go acc sep l ++ sep ++ f := by
  induction l generalizing acc with
  | nil => simp [String.intercalate.go]
  | cons a as ih => simp [String.intercalate.go, ih]

theorem intercalate_data_suffix (sep f : String) (l : List String) :
    ∃ pre, (String.intercalate sep (l ++ [f])).data = pre ++ f.data := by
  cases l with
  | nil => exact ⟨[], by simp [String.intercalate, String.intercalate.go]⟩
  | cons a as =>
    refine ⟨(String.intercalate.go a sep as ++ sep).data, ?_⟩
    simp [String.intercalate, intercalate_go_append]

theorem dropWhile_append_singleton (l : List String) (f : String) (hf : f ≠ "") :
    ∃ l2, (l ++ [f]).dropWhile (fun e => decide (e = "")) = l2 ++ [f] := by
  induction l with
  | nil => exact ⟨[], by simp [List.dropWhile, hf]⟩
  | cons a as ih =>
    by_cases ha : a = ""
    · obtain ⟨l2, h⟩ := ih
      exact ⟨l2, by simp [List.dropWhile, ha, h]⟩
    · exact ⟨a :: as, by simp [List.dropWhile, ha]⟩

/-- The result of `Join` ends with the last element's final component, when
that has three characters or more. -/
theorem Join_data_suffix (l : List String) (f : String) (g t : List Char)
    (hf : f.data = g ++ t) (ht : '/' ∉ t) (hlen : 3 ≤ t.length) :
    ∃ pre, (Join (l ++ [f])).data = pre ++ t := by
  have hne : f ≠ "" := by
    intro h0
    rw [h0] at hf
    have := congrArg List.length hf
    simp at this
    omega
  obtain ⟨l2, h2⟩ := dropWhile_append_singleton l f hne
  obtain ⟨pre, hpre⟩ := intercalate_data_suffix "/" f l2
  have hcons : ∃ a as, l2 ++ [f] = a :: as := by
    cases l2 with
    | nil => exact ⟨f, [], rfl⟩
    | cons a as => exact ⟨a, as ++ [f], rfl⟩
  obtain ⟨a, as, hc⟩ := hcons
  unfold Join
  rw [h2]
  rw [hc]
  simp only [Clean]
  rw [← hc, hpre, hf, ← List.append_assoc]
  exact cleanChars_suffix (pre ++ g) t ht hlen

end filepath

end Mcinit

namespace Mcinit

/-! ## Facts about the file system and the cache paths -/

namespace FS

@[simp] theorem write_same {α : Type} (fs : FS α) (p : String) (d : α) :
    (fs.write p d) p = some d := by
  simp [write]

theorem write_other {α : Type} (fs : FS α) (p q : String) (d : α) (h : q ≠ p) :
    (fs.write p d) q = fs q := by
  simp [write, h]

@[simp] theorem remove_same {α : Type} (fs : FS α) (p : String) : (fs.remove p) p = none := by
  simp [remove]

theorem remove_other {α : Type} (fs : FS α) (p q : String) (h : q ≠ p) :
    (fs.remove p) q = fs q := by
  simp [remove, h]

end FS

namespace Cache

/-- Every artifact path ends in `.jar`. -/
theorem GetJarPath_data (c : Cache) (st v b : String) :
    ∃ pre, (c.GetJarPath st v b).data = pre ++ ['.', 'j', 'a', 'r'] := by
  unfold GetJarPath
  exact filepath.Join_data_suffix [c.baseDir, "jars"] _
    (if b ≠ "" then st ++ "-" ++ v ++ ("-" ++ b) else st ++ "-" ++ v).data ['.', 'j', 'a', 'r']
    (by simp) (by decide) (by decide)

theorem temp_ne_jar (c : Cache) (st v b st2 v2 b2 : String) :
    c.GetJarPath st v b ++ ".tmp" ≠ c.GetJarPath st2 v2 b2 := by
  obtain ⟨pre, h⟩ := GetJarPath_data c st2 v2 b2
  intro heq
  have h2 := congrArg (fun s => s.data.getLast?) heq
  simp [h] at h2

theorem temp_ne_meta (c : Cache) (st v b st2 v2 b2 : String) :
    c.GetJarPath st v b ++ ".tmp" ≠ c.GetMetadataPath st2 v2 b2 := by
  intro heq
  have h2 := congrArg (fun s => s.data.getLast?) heq
  simp [GetMetadataPath] at h2

theorem jar_ne_meta (c : Cache) (st v b st2 v2 b2 : String) :
    c.GetJarPath st v b ≠ c.GetMetadataPath st2 v2 b2 := by
  obtain ⟨pre, h⟩ := GetJarPath_data c st v b
  intro heq
  have h2 := congrArg (fun s => s.data.getLast?) heq
  simp [GetMetadataPath, h] at h2

theorem jar_ne_temp (c : Cache) (st v b : String) (p : String) :
    c.GetJarPath st v b ≠ p ++ ".tmp" := by
  obtain ⟨pre, h⟩ := GetJarPath_data c st v b
  intro heq
  have h2 := congrArg (fun s => s.data.getLast?) heq
  simp [h] at h2

theorem meta_ne_temp (c : Cache) (st v b : String) (p : String) :
    c.GetMetadataPath st v b ≠ p ++ ".tmp" := by
  intro heq
  have h2 := congrArg (fun s => s.data.getLast?) heq
  simp [GetMetadataPath] at h2

end Cache

end Mcinit

namespace Mcinit

/-! ## Facts about digests -/

theorem sha.beBytes_length (n x : Nat) : (sha.beBytes n x).length = n := by
  induction n with
  | zero => rfl
  | succ k ih => simp [sha.beBytes, ih]

theorem sha256_Sum_length (data : Bytes) : (sha256.Sum data).length = 32 := by
  simp [sha256.Sum, sha.beBytes_length]

theorem sha1_Sum_length (data : Bytes) : (sha1.Sum data).length = 20 := by
  simp [sha1.Sum, sha.beBytes_length]

theorem hex.EncodeToString_length (bs : Bytes) :
    (hex.EncodeToString bs).length = 2 * bs.length := by
  show (bs.flatMap fun b => [hex.digit (b.toNat / 16), hex.digit (b.toNat % 16)]).length = _
  induction bs with
  | nil => rfl
  | cons b bs ih =>
    simp only [List.flatMap_cons, List.length_append, List.length_cons, List.length_nil, ih]
    omega

/-- A SHA-256 digest in hexadecimal has 64 characters, a SHA-1 digest 40: no
string is both. -/
theorem hex_sha256_ne_hex_sha1 (a b : Bytes) :
    hex.EncodeToString (sha256.Sum a) ≠ hex.EncodeToString (sha1.Sum b) := by
  intro h
  have h2 := congrArg String.length h
  simp [hex.EncodeToString_length, sha256_Sum_length, sha1_Sum_length] at h2

theorem Downloader.hasher_eq_some (algorithm : String) (h : Bytes → Bytes) :
    Downloader.hasher algorithm = some h ↔
      (algorithm = "sha256" ∧ h = sha256.Sum) ∨ (algorithm = "sha1" ∧ h = sha1.Sum) := by
  unfold Downloader.hasher
  by_cases h1 : algorithm = "sha256"
  · subst h1
    simp [eq_comm]
  · by_cases h2 : algorithm = "sha1"
    · subst h2
      simp [eq_comm]
    · simp [h1, h2]

theorem Downloader.hasher_isNone (algorithm : String) :
    (Downloader.hasher algorithm).isNone = true ↔ algorithm ≠ "sha256" ∧ algorithm ≠ "sha1" := by
  unfold Downloader.hasher
  by_cases h1 : algorithm = "sha256"
  · simp [h1]
  · by_cases h2 : algorithm = "sha1"
    · simp [h2]
    · simp [h1, h2]

/-! ## Cache.VerifyChecksum -/

/-- On a readable file and for both algorithm names, `VerifyChecksum`
compares the expected checksum with the SHA-256 digest of the file. -/
theorem Cache.VerifyChecksum_readable (c : Cache) (env : VerifyEnv) (fs : FS Bytes)
    (jarPath expected algorithm : String) (file : Bytes) (hfile : fs jarPath = some file)
    (hopen : env.openFails = false) (hread : env.readFails = false)
    (halg : algorithm = "sha256" ∨ algorithm = "sha1") :
    c.VerifyChecksum env fs jarPath expected algorithm =
      (decide (hex.EncodeToString (sha256.Sum file) = expected), none) := by
  rcases halg with h | h <;> simp [Cache.VerifyChecksum, hfile, hopen, hread, h]

/-- On a readable file, an algorithm name other than sha256 and sha1 is an
error. -/
theorem Cache.VerifyChecksum_unsupported (c : Cache) (env : VerifyEnv) (fs : FS Bytes)
    (jarPath expected algorithm : String) (file : Bytes) (hfile : fs jarPath = some file)
    (hopen : env.openFails = false)
    (h256 : algorithm ≠ "sha256") (h1 : algorithm ≠ "sha1") :
    c.VerifyChecksum env fs jarPath expected algorithm =
      (false, some (.unsupportedAlgorithm algorithm)) := by
  simp [Cache.VerifyChecksum, hfile, hopen, h256, h1]

/-- With algorithm sha1, `VerifyChecksum` rejects the SHA-1 digest of every
readable file. -/
theorem Cache.VerifyChecksum_sha1_never (c : Cache) (env : VerifyEnv) (fs : FS Bytes)
    (jarPath : String) (file : Bytes) (hfile : fs jarPath = some file)
    (hopen : env.openFails = false) (hread : env.readFails = false) :
    c.VerifyChecksum env fs jarPath (hex.EncodeToString (sha1.Sum file)) "sha1" =
      (false, none) := by
  rw [Cache.VerifyChecksum_readable c env fs jarPath _ "sha1" file hfile hopen hread (Or.inr rfl)]
  simp [hex_sha256_ne_hex_sha1]

/-! ## Downloader.downloadFile -/

namespace Downloader

theorem downloadFile_fs_other (env : DownloadEnv) (fs : FS Bytes)
    (url dest ck alg p : String) (hp : p ≠ dest) :
    (downloadFile env fs url dest ck alg).fs p = fs p := by
  unfold downloadFile
  repeat' split
  all_goals try dsimp only
  all_goals try split_ifs
  all_goals simp [FS.write_other, hp]

theorem downloadFile_gets (env : DownloadEnv) (fs : FS Bytes) (url dest ck alg : String) :
    (downloadFile env fs url dest ck alg).gets = [] ∨
      (downloadFile env fs url dest ck alg).gets = [url] := by
  unfold downloadFile
  repeat' split
  all_goals try dsimp only
  all_goals try split_ifs
  all_goals simp

theorem downloadFile_gets_of_created (env : DownloadEnv) (fs : FS Bytes)
    (url dest ck alg : String) (hdest : env.ensureDestDirFails = false)
    (hcreate : env.createFails = false) :
    (downloadFile env fs url dest ck alg).gets = [url] := by
  unfold downloadFile
  rw [if_neg (by simp [hdest]), if_neg (by simp [hcreate])]
  repeat' split
  all_goals try dsimp only
  all_goals try split_ifs
  all_goals simp

/-- A successful `downloadFile` received a response with status 200, stored
its whole body at the destination, issued one GET and, when a checksum was
expected, found it equal to the digest of the body. -/
theorem downloadFile_ok (env : DownloadEnv) (fs : FS Bytes) (url dest ck alg : String)
    (hok : (downloadFile env fs url dest ck alg).err = none) :
    ∃ body, env.get url = .response 200 body ∧
      (downloadFile env fs url dest ck alg).fs dest = some body ∧
      (downloadFile env fs url dest ck alg).gets = [url] ∧
      (ck ≠ "" → ∃ h, hasher alg = some h ∧ hex.EncodeToString (h body) = ck) := by
  unfold downloadFile at hok ⊢
  by_cases h1 : env.ensureDestDirFails = true
  · simp [h1] at hok
  by_cases h2 : env.createFails = true
  · simp [h1, h2] at hok
  simp only [h1, h2] at hok ⊢
  cases hget : env.get url with
  | transportError => simp [hget] at hok
  | response status body =>
    simp only [hget] at hok ⊢
    by_cases h3 : status = 200
    swap
    · simp [h3] at hok
    subst h3
    by_cases h4 : ck ≠ "" ∧ (hasher alg).isNone = true
    · simp [h4] at hok
    rw [if_neg (by simp), if_neg h4] at hok ⊢
    cases hcopy : env.copyFailsAfter with
    | some k => simp [hcopy] at hok
    | none =>
      simp only [hcopy] at hok ⊢
      refine ⟨body, rfl, ?_⟩
      by_cases hck : ck = ""
      · simp [hck]
      · cases hh : hasher alg with
        | none => simp [hck, hh] at h4
        | some h =>
          by_cases hd : hex.EncodeToString (h body) = ck
          · simp [hck, hh, hd]
          · simp [hck, hh, hd] at hok

end Downloader

end Mcinit

namespace Mcinit

namespace Downloader

/-! ## The download path of DownloadJar -/

theorem fetch_gets_eq (J : Codec CacheMetadata Bytes) (c : Cache) (env : DownloadEnv)
    (fs : FS Bytes) (url st v b ck alg : String) :
    (fetch J c env fs url st v b ck alg).gets =
      if env.ensureJarsDirFails = true then []
      else (downloadFile env fs url (c.GetJarPath st v b ++ ".tmp") ck alg).gets := by
  unfold fetch
  by_cases hjars : env.ensureJarsDirFails = true
  · rw [if_pos hjars, if_pos hjars]
  · rw [if_neg hjars, if_neg hjars]
    dsimp only
    cases hd : (downloadFile env fs url (c.GetJarPath st v b ++ ".tmp") ck alg).err with
    | some fe => rfl
    | none =>
      dsimp only
      split_ifs
      · rfl
      · split <;> rfl

theorem fetch_gets (J : Codec CacheMetadata Bytes) (c : Cache) (env : DownloadEnv)
    (fs : FS Bytes) (url st v b ck alg : String) :
    (fetch J c env fs url st v b ck alg).gets = [] ∨
      (fetch J c env fs url st v b ck alg).gets = [url] := by
  rw [fetch_gets_eq]
  split_ifs
  · exact Or.inl rfl
  · exact downloadFile_gets env fs url _ ck alg

theorem fetch_gets_of_created (J : Codec CacheMetadata Bytes) (c : Cache) (env : DownloadEnv)
    (fs : FS Bytes) (url st v b ck alg : String) (hjars : env.ensureJarsDirFails = false)
    (hdest : env.ensureDestDirFails = false) (hcreate : env.createFails = false) :
    (fetch J c env fs url st v b ck alg).gets = [url] := by
  rw [fetch_gets_eq, if_neg (by simp [hjars])]
  exact downloadFile_gets_of_created env fs url _ ck alg hdest hcreate

/-- When the download path fails before the metadata is saved, the returned
path is empty, no file other than the temporary file has changed, and the
temporary file is gone unless nothing was touched at all. -/
theorem fetch_error (J : Codec CacheMetadata Bytes) (c : Cache) (env : DownloadEnv)
    (fs : FS Bytes) (url st v b ck alg : String) (e : DownloadError)
    (herr : (fetch J c env fs url st v b ck alg).err = some e)
    (hmeta : ∀ cause, e ≠ .saveMetadata cause) :
    (fetch J c env fs url st v b ck alg).path = "" ∧
    (∀ p, p ≠ c.GetJarPath st v b ++ ".tmp" →
      (fetch J c env fs url st v b ck alg).fs p = fs p) ∧
    ((e = .createCacheDirectory ∧ (fetch J c env fs url st v b ck alg).fs = fs) ∨
      (fetch J c env fs url st v b ck alg).fs (c.GetJarPath st v b ++ ".tmp") = none) := by
  unfold fetch at herr ⊢
  by_cases hjars : env.ensureJarsDirFails = true
  · rw [if_pos hjars] at herr ⊢
    simp only [Option.some.injEq] at herr
    exact ⟨rfl, fun _ _ => rfl, Or.inl ⟨herr.symm, rfl⟩⟩
  rw [if_neg hjars] at herr ⊢
  dsimp only at herr ⊢
  cases hd : (downloadFile env fs url (c.GetJarPath st v b ++ ".tmp") ck alg).err with
  | some fe =>
    simp only [hd]
    refine ⟨trivial, fun p hp => ?_, Or.inr (FS.remove_same _ _)⟩
    rw [FS.remove_other _ _ _ hp]
    exact downloadFile_fs_other env fs url _ ck alg p hp
  | none =>
    obtain ⟨body, _, hbody, _, _⟩ := downloadFile_ok env fs url _ ck alg hd
    simp only [hd, os.Rename, hbody] at herr ⊢
    by_cases hren : env.renameFails = true
    · simp only [hren, if_true]
      refine ⟨trivial, fun p hp => ?_, Or.inr (FS.remove_same _ _)⟩
      rw [FS.remove_other _ _ _ hp]
      exact downloadFile_fs_other env fs url _ ck alg p hp
    · simp only [hren] at herr
      exfalso
      revert herr
      simp only [Bool.false_eq_true, if_false]
      split
      · intro h
        simp only [Option.some.injEq] at h
        exact hmeta _ h.symm
      · intro h
        simp at h

/-- When the download path succeeds, it issued one GET that was answered
with status 200, the body is at the artifact path, the metadata record is at
the metadata path, the temporary file is gone and, when a checksum was
expected, it is the digest of the body. -/
theorem fetch_ok (J : Codec CacheMetadata Bytes) (c : Cache) (env : DownloadEnv)
    (fs : FS Bytes) (url st v b ck alg : String)
    (hok : (fetch J c env fs url st v b ck alg).err = none) :
    ∃ body, env.get url = .response 200 body ∧
      (fetch J c env fs url st v b ck alg).path = c.GetJarPath st v b ∧
      (fetch J c env fs url st v b ck alg).gets = [url] ∧
      (fetch J c env fs url st v b ck alg).fs (c.GetJarPath st v b) = some body ∧
      (fetch J c env fs url st v b ck alg).fs (c.GetMetadataPath st v b) =
        some (J.marshal ⟨v, b, st, url, ck, alg, env.now⟩) ∧
      (fetch J c env fs url st v b ck alg).fs (c.GetJarPath st v b ++ ".tmp") = none ∧
      (ck ≠ "" → ∃ h, hasher alg = some h ∧ hex.EncodeToString (h body) = ck) := by
  unfold fetch at hok ⊢
  by_cases hjars : env.ensureJarsDirFails = true
  · simp [hjars] at hok
  rw [if_neg hjars] at hok ⊢
  dsimp only at hok ⊢
  cases hd : (downloadFile env fs url (c.GetJarPath st v b ++ ".tmp") ck alg).err with
  | some fe => simp [hd] at hok
  | none =>
    obtain ⟨body, hget, hbody, hgets, hsum⟩ := downloadFile_ok env fs url _ ck alg hd
    simp only [hd, os.Rename, hbody] at hok ⊢
    by_cases hren : env.renameFails = true
    · simp [hren] at hok
    simp only [hren, Bool.false_eq_true, if_false] at hok ⊢
    by_cases hmd : env.ensureMetaDirFails = true
    · simp [Cache.SaveMetadata, hmd] at hok
    have hjm := Cache.jar_ne_meta c st v b st v b
    have htm := (Cache.meta_ne_temp c st v b (c.GetJarPath st v b)).symm
    have htj := (Cache.jar_ne_temp c st v b (c.GetJarPath st v b)).symm
    cases hw : env.writeMeta with
    | openFailed => simp [Cache.SaveMetadata, hmd, hw, os.WriteFile] at hok
    | writeFailed left => simp [Cache.SaveMetadata, hmd, hw, os.WriteFile] at hok
    | ok =>
      refine ⟨body, hget, ?_⟩
      simp [Cache.SaveMetadata, hmd, hw, os.WriteFile, hgets, hsum, FS.write_other,
        FS.remove_other, hjm, htm, htj]
      exact hsum

/-- When the download path fails at the saving of the metadata, the jar is
already in place: the artifact path is returned with the error, it holds the
body received with status 200, and the temporary file is gone. -/
theorem fetch_metadata_error (J : Codec CacheMetadata Bytes) (c : Cache) (env : DownloadEnv)
    (fs : FS Bytes) (url st v b ck alg : String) (cause : MetadataError)
    (herr : (fetch J c env fs url st v b ck alg).err = some (.saveMetadata cause)) :
    (fetch J c env fs url st v b ck alg).path = c.GetJarPath st v b ∧
    (fetch J c env fs url st v b ck alg).fs (c.GetJarPath st v b ++ ".tmp") = none ∧
    ∃ body, env.get url = .response 200 body ∧
      (fetch J c env fs url st v b ck alg).fs (c.GetJarPath st v b) = some body := by
  unfold fetch at herr ⊢
  by_cases hjars : env.ensureJarsDirFails = true
  · simp [hjars] at herr
  rw [if_neg hjars] at herr ⊢
  dsimp only at herr ⊢
  cases hd : (downloadFile env fs url (c.GetJarPath st v b ++ ".tmp") ck alg).err with
  | some fe => simp [hd] at herr
  | none =>
    obtain ⟨body, hget, hbody, _, _⟩ := downloadFile_ok env fs url _ ck alg hd
    simp only [hd, os.Rename, hbody] at herr ⊢
    by_cases hren : env.renameFails = true
    · simp [hren] at herr
    simp only [hren, Bool.false_eq_true, if_false] at herr ⊢
    have hjm := Cache.jar_ne_meta c st v b st v b
    have htm := (Cache.meta_ne_temp c st v b (c.GetJarPath st v b)).symm
    have htj := (Cache.jar_ne_temp c st v b (c.GetJarPath st v b)).symm
    by_cases hmd : env.ensureMetaDirFails = true
    · simp [Cache.SaveMetadata, hmd, FS.write_other, htj, hget]
    cases hw : env.writeMeta with
    | ok => simp [Cache.SaveMetadata, hmd, hw, os.WriteFile] at herr
    | openFailed =>
      simp [Cache.SaveMetadata, hmd, hw, os.WriteFile, FS.write_other, htj, hget]
    | writeFailed left =>
      simp [Cache.SaveMetadata, hmd, hw, os.WriteFile, FS.write_other, FS.remove_other, htj,
        htm, hjm, hget]

/-! ## DownloadJar: the two ways through it -/

theorem DownloadJar_served (J : Codec CacheMetadata Bytes) (c : Cache) (env : DownloadEnv)
    (fs : FS Bytes) (url st v b ck alg : String) (h : servedFromCache c env fs st v b ck alg) :
    DownloadJar J c env fs url st v b ck alg = ⟨c.GetJarPath st v b, none, fs, []⟩ := by
  obtain ⟨hhas, hv⟩ := h
  unfold DownloadJar
  rw [if_pos hhas]
  by_cases hck : ck = ""
  · simp [hck]
  · rcases hv with hv | hv
    · exact absurd hv hck
    · simp [hck, hv]

theorem DownloadJar_fetched (J : Codec CacheMetadata Bytes) (c : Cache) (env : DownloadEnv)
    (fs : FS Bytes) (url st v b ck alg : String) (h : ¬ servedFromCache c env fs st v b ck alg) :
    DownloadJar J c env fs url st v b ck alg = fetch J c env fs url st v b ck alg := by
  unfold servedFromCache at h
  unfold DownloadJar
  by_cases hhas : c.HasJar fs st v b = true
  · rw [if_pos hhas]
    have h2 : ¬ (ck = "" ∨
        c.VerifyChecksum env.verify fs (c.GetJarPath st v b) ck alg = (true, none)) :=
      fun hv => h ⟨hhas, hv⟩
    rw [not_or] at h2
    have h3 : ¬ ((c.VerifyChecksum env.verify fs (c.GetJarPath st v b) ck alg).2 = none ∧
        (c.VerifyChecksum env.verify fs (c.GetJarPath st v b) ck alg).1 = true) := by
      intro ⟨ha, hb⟩
      exact h2.2 (Prod.ext hb ha)
    simp [h2.1, h3]
  · rw [if_neg hhas]

end Downloader

end Mcinit

namespace Mcinit

/-! ## Claims C1 to C7: the fetcher -/

namespace Downloader

/-- With algorithm sha256, a cached and readable jar whose SHA-256 digest is
the expected checksum is returned from the cache without any GET. -/
theorem DownloadJar_cached_sha256 (J : Codec CacheMetadata Bytes) (c : Cache)
    (env : DownloadEnv) (fs : FS Bytes) (url st v b ck : String) (file : Bytes)
    (hhas : c.HasJar fs st v b = true) (hfile : fs (c.GetJarPath st v b) = some file)
    (hopen : env.verify.openFails = false) (hread : env.verify.readFails = false)
    (hsum : hex.EncodeToString (sha256.Sum file) = ck) :
    DownloadJar J c env fs url st v b ck "sha256" = ⟨c.GetJarPath st v b, none, fs, []⟩ := by
  apply DownloadJar_served
  refine ⟨hhas, Or.inr ?_⟩
  rw [Cache.VerifyChecksum_readable c env.verify fs _ ck "sha256" file hfile hopen hread
    (Or.inl rfl)]
  simp [hsum]

/-- With algorithm sha1, a cached and readable jar whose SHA-1 digest is the
expected checksum is never returned from the cache. -/
theorem DownloadJar_cached_sha1_not_served (c : Cache) (env : DownloadEnv) (fs : FS Bytes)
    (st v b : String) (file : Bytes) (hfile : fs (c.GetJarPath st v b) = some file)
    (hopen : env.verify.openFails = false) (hread : env.verify.readFails = false) :
    ¬ servedFromCache c env fs st v b (hex.EncodeToString (sha1.Sum file)) "sha1" := by
  rintro ⟨_, h | h⟩
  · have h2 := congrArg String.length h
    simp [hex.EncodeToString_length, sha1_Sum_length] at h2
  · rw [Cache.VerifyChecksum_sha1_never c env.verify fs _ file hfile hopen hread] at h
    simp at h

/-- C1, at the failing input.  The cache `/cache` holds the jar of the key
(vanilla, 1.21.4, no build), an empty file, and its metadata; the expected
checksum is the SHA-1 digest of the empty file and the algorithm is sha1, as
the vanilla provider passes it.  `DownloadJar` does not stop at the cache: it
requests the URL with GET. -/
theorem DownloadJar_cached_sha1_issues_get :
    scenarioCache.HasJar (cachedFS scenarioCache "vanilla" "1.21.4" "" [] []) "vanilla" "1.21.4" ""
      = true ∧
    cachedFS scenarioCache "vanilla" "1.21.4" "" [] [] (scenarioCache.GetJarPath "vanilla" "1.21.4" "")
      = some [] ∧
    hex.EncodeToString (sha1.Sum []) = "da39a3ee5e6b4b0d3255bfef95601890afd80709" ∧
    (DownloadJar metadataCodec scenarioCache (DownloadEnv.healthy [])
      (cachedFS scenarioCache "vanilla" "1.21.4" "" [] []) "https://example.org/server.jar"
      "vanilla" "1.21.4" "" "da39a3ee5e6b4b0d3255bfef95601890afd80709" "sha1").gets
      = ["https://example.org/server.jar"] := by
  decide

/-- C2, refuted as stated.  On an empty cache `/cache`, a download of the key
(paper, 1.21.4, 123) whose metadata file cannot be written returns an error,
and the artifact path, empty before the call, holds the downloaded body after
it. -/
theorem DownloadJar_metadata_failure_leaves_jar :
    (DownloadJar metadataCodec scenarioCache
      { DownloadEnv.healthy [1, 2, 3] with writeMeta := .openFailed } FS.empty
      "https://example.org/paper.jar" "paper" "1.21.4" "123" "" "").err
      = some (.saveMetadata .writeMetadata) ∧
    (FS.empty : FS Bytes) (scenarioCache.GetJarPath "paper" "1.21.4" "123") = none ∧
    (DownloadJar metadataCodec scenarioCache
      { DownloadEnv.healthy [1, 2, 3] with writeMeta := .openFailed } FS.empty
      "https://example.org/paper.jar" "paper" "1.21.4" "123" "" "").fs
      (scenarioCache.GetJarPath "paper" "1.21.4" "123") = some [1, 2, 3] := by
  decide

/-- C2, amended.  When `DownloadJar` returns an error other than the failure
to save the metadata, the artifact path and the metadata path of every key
hold what they held before the call, and the temporary file of the call is
gone (or, when the cache directory could not be created, nothing was touched
at all).  When the error is the failure to save the metadata, the artifact
path of the key is returned with it and holds the body received, and the
temporary file is gone. -/
theorem DownloadJar_error_keeps_cache (J : Codec CacheMetadata Bytes) (c : Cache)
    (env : DownloadEnv) (fs : FS Bytes) (url st v b ck alg : String) (e : DownloadError)
    (herr : (DownloadJar J c env fs url st v b ck alg).err = some e) :
    ((∀ cause, e ≠ .saveMetadata cause) →
      (∀ st2 v2 b2,
        (DownloadJar J c env fs url st v b ck alg).fs (c.GetJarPath st2 v2 b2)
          = fs (c.GetJarPath st2 v2 b2) ∧
        (DownloadJar J c env fs url st v b ck alg).fs (c.GetMetadataPath st2 v2 b2)
          = fs (c.GetMetadataPath st2 v2 b2)) ∧
      ((e = .createCacheDirectory ∧ (DownloadJar J c env fs url st v b ck alg).fs = fs) ∨
        (DownloadJar J c env fs url st v b ck alg).fs (c.GetJarPath st v b ++ ".tmp")
          = none)) ∧
    (∀ cause, e = .saveMetadata cause →
      (DownloadJar J c env fs url st v b ck alg).path = c.GetJarPath st v b ∧
      (DownloadJar J c env fs url st v b ck alg).fs (c.GetJarPath st v b ++ ".tmp") = none ∧
      ∃ body, env.get url = .response 200 body ∧
        (DownloadJar J c env fs url st v b ck alg).fs (c.GetJarPath st v b) = some body) := by
  by_cases hs : servedFromCache c env fs st v b ck alg
  · rw [DownloadJar_served J c env fs url st v b ck alg hs] at herr
    simp at herr
  · rw [DownloadJar_fetched J c env fs url st v b ck alg hs] at herr ⊢
    constructor
    · intro hmeta
      obtain ⟨_, hother, htemp⟩ := fetch_error J c env fs url st v b ck alg e herr hmeta
      exact ⟨fun st2 v2 b2 =>
        ⟨hother _ (Cache.temp_ne_jar c st v b st2 v2 b2).symm,
          hother _ (Cache.temp_ne_meta c st v b st2 v2 b2).symm⟩, htemp⟩
    · intro cause hc
      subst hc
      exact fetch_metadata_error J c env fs url st v b ck alg cause herr

/-- C2, amended, at concrete inputs: the server answers 404 while the cache
holds an older jar of the key; and the metadata of a fresh download cannot
be written. -/
theorem DownloadJar_error_keeps_cache_witness :
    ((DownloadJar metadataCodec scenarioCache
        { DownloadEnv.healthy [] with get := fun _ => .response 404 [] }
        (cachedFS scenarioCache "paper" "1.21.4" "123" [7] [8])
        "https://example.org/paper.jar" "paper" "1.21.4" "123" "abc" "sha256").err
        = some (.downloadJar (.status 404)) ∧
      (∀ st2 v2 b2,
        (DownloadJar metadataCodec scenarioCache
          { DownloadEnv.healthy [] with get := fun _ => .response 404 [] }
          (cachedFS scenarioCache "paper" "1.21.4" "123" [7] [8])
          "https://example.org/paper.jar" "paper" "1.21.4" "123" "abc" "sha256").fs
          (scenarioCache.GetJarPath st2 v2 b2)
          = cachedFS scenarioCache "paper" "1.21.4" "123" [7] [8]
            (scenarioCache.GetJarPath st2 v2 b2) ∧
        (DownloadJar metadataCodec scenarioCache
          { DownloadEnv.healthy [] with get := fun _ => .response 404 [] }
          (cachedFS scenarioCache "paper" "1.21.4" "123" [7] [8])
          "https://example.org/paper.jar" "paper" "1.21.4" "123" "abc" "sha256").fs
          (scenarioCache.GetMetadataPath st2 v2 b2)
          = cachedFS scenarioCache "paper" "1.21.4" "123" [7] [8]
            (scenarioCache.GetMetadataPath st2 v2 b2)) ∧
      ((DownloadError.downloadJar (.status 404) = .createCacheDirectory ∧
        (DownloadJar metadataCodec scenarioCache
          { DownloadEnv.healthy [] with get := fun _ => .response 404 [] }
          (cachedFS scenarioCache "paper" "1.21.4" "123" [7] [8])
          "https://example.org/paper.jar" "paper" "1.21.4" "123" "abc" "sha256").fs
          = cachedFS scenarioCache "paper" "1.21.4" "123" [7] [8]) ∨
        (DownloadJar metadataCodec scenarioCache
          { DownloadEnv.healthy [] with get := fun _ => .response 404 [] }
          (cachedFS scenarioCache "paper" "1.21.4" "123" [7] [8])
          "https://example.org/paper.jar" "paper" "1.21.4" "123" "abc" "sha256").fs
          (scenarioCache.GetJarPath "paper" "1.21.4" "123" ++ ".tmp") = none)) ∧
    ((DownloadJar metadataCodec scenarioCache
        { DownloadEnv.healthy [1, 2, 3] with writeMeta := .openFailed } FS.empty
        "https://example.org/paper.jar" "paper" "1.21.4" "123" "" "").err
        = some (.saveMetadata .writeMetadata) ∧
      (DownloadJar metadataCodec scenarioCache
        { DownloadEnv.healthy [1, 2, 3] with writeMeta := .openFailed } FS.empty
        "https://example.org/paper.jar" "paper" "1.21.4" "123" "" "").path
        = scenarioCache.GetJarPath "paper" "1.21.4" "123" ∧
      (DownloadJar metadataCodec scenarioCache
        { DownloadEnv.healthy [1, 2, 3] with writeMeta := .openFailed } FS.empty
        "https://example.org/paper.jar" "paper" "1.21.4" "123" "" "").fs
        (scenarioCache.GetJarPath "paper" "1.21.4" "123" ++ ".tmp") = none ∧
      ∃ body, ({ DownloadEnv.healthy [1, 2, 3] with writeMeta := .openFailed } : DownloadEnv).get
          "https://example.org/paper.jar" = .response 200 body ∧
        (DownloadJar metadataCodec scenarioCache
          { DownloadEnv.healthy [1, 2, 3] with writeMeta := .openFailed } FS.empty
          "https://example.org/paper.jar" "paper" "1.21.4" "123" "" "").fs
          (scenarioCache.GetJarPath "paper" "1.21.4" "123") = some body) :=
  ⟨⟨by decide,
      (DownloadJar_error_keeps_cache metadataCodec scenarioCache
        { DownloadEnv.healthy [] with get := fun _ => .response 404 [] }
        (cachedFS scenarioCache "paper" "1.21.4" "123" [7] [8])
        "https://example.org/paper.jar" "paper" "1.21.4" "123" "abc" "sha256"
        (.downloadJar (.status 404)) (by decide)).1 (fun _ h => DownloadError.noConfusion h)⟩,
    ⟨by decide,
      (DownloadJar_error_keeps_cache metadataCodec scenarioCache
        { DownloadEnv.healthy [1, 2, 3] with writeMeta := .openFailed } FS.empty
        "https://example.org/paper.jar" "paper" "1.21.4" "123" "" ""
        (.saveMetadata .writeMetadata) (by decide)).2 .writeMetadata rfl⟩⟩

end Downloader

end Mcinit

namespace Mcinit

namespace Downloader

theorem not_served_of_miss (c : Cache) (env : DownloadEnv) (fs : FS Bytes)
    (st v b ck alg : String) (hmiss : c.HasJar fs st v b = false) :
    ¬ servedFromCache c env fs st v b ck alg := by
  rintro ⟨h, _⟩
  rw [hmiss] at h
  exact Bool.false_ne_true h

/-- What `downloadFile` does with a complete body of status 200 whose digest
is not the expected checksum. -/
theorem downloadFile_mismatch (env : DownloadEnv) (fs : FS Bytes) (url dest ck alg : String)
    (body : Bytes) (h : Bytes → Bytes) (hck : ck ≠ "") (halg : hasher alg = some h)
    (hdest : env.ensureDestDirFails = false) (hcreate : env.createFails = false)
    (hget : env.get url = .response 200 body) (hcopy : env.copyFailsAfter = none)
    (hne : hex.EncodeToString (h body) ≠ ck) :
    (downloadFile env fs url dest ck alg).err =
        some (.checksumMismatch ck (hex.EncodeToString (h body))) ∧
      (downloadFile env fs url dest ck alg).gets = [url] := by
  unfold downloadFile
  simp [hdest, hcreate, hget, hcopy, hck, halg, hne]

/-- C3, refuted as stated.  The cache `/cache` holds a jar of the key
(paper, 1.21.4, 123) but no metadata, so the call is a cache miss; the body
received does not have the expected checksum.  The call fails with a
checksum mismatch, and a file, the old one, is at the artifact path
afterwards. -/
theorem DownloadJar_mismatch_keeps_orphan_jar :
    scenarioCache.HasJar (FS.empty.write (scenarioCache.GetJarPath "paper" "1.21.4" "123") [9])
      "paper" "1.21.4" "123" = false ∧
    (DownloadJar metadataCodec scenarioCache (DownloadEnv.healthy [])
      (FS.empty.write (scenarioCache.GetJarPath "paper" "1.21.4" "123") [9])
      "https://example.org/paper.jar" "paper" "1.21.4" "123" "deadbeef" "sha256").err
      = some (.downloadJar (.checksumMismatch "deadbeef"
          "e3b0c44298fc1c149afbf4c8996fb92427ae41e4649b934ca495991b7852b855")) ∧
    (DownloadJar metadataCodec scenarioCache (DownloadEnv.healthy [])
      (FS.empty.write (scenarioCache.GetJarPath "paper" "1.21.4" "123") [9])
      "https://example.org/paper.jar" "paper" "1.21.4" "123" "deadbeef" "sha256").fs
      (scenarioCache.GetJarPath "paper" "1.21.4" "123") = some [9] := by
  decide

/-- C3, amended.  On a cache miss with a non-empty expected checksum and
algorithm sha256 or sha1 (`hasher algorithm = some h`, `h` the digest), when
the body of a response with status 200 is received in full and its digest
differs from the expected checksum, `DownloadJar` returns a checksum-mismatch
error and the empty path, the temporary file is gone, and the artifact path
and the metadata path hold what they held before the call: the body is at
neither. -/
theorem DownloadJar_miss_checksum_mismatch (J : Codec CacheMetadata Bytes) (c : Cache)
    (env : DownloadEnv) (fs : FS Bytes) (url st v b ck alg : String) (body : Bytes)
    (h : Bytes → Bytes) (hmiss : c.HasJar fs st v b = false) (hck : ck ≠ "")
    (halg : hasher alg = some h) (hjars : env.ensureJarsDirFails = false)
    (hdest : env.ensureDestDirFails = false) (hcreate : env.createFails = false)
    (hget : env.get url = .response 200 body) (hcopy : env.copyFailsAfter = none)
    (hne : hex.EncodeToString (h body) ≠ ck) :
    (DownloadJar J c env fs url st v b ck alg).err =
      some (.downloadJar (.checksumMismatch ck (hex.EncodeToString (h body)))) ∧
    (DownloadJar J c env fs url st v b ck alg).path = "" ∧
    (DownloadJar J c env fs url st v b ck alg).fs (c.GetJarPath st v b ++ ".tmp") = none ∧
    (DownloadJar J c env fs url st v b ck alg).fs (c.GetJarPath st v b)
      = fs (c.GetJarPath st v b) ∧
    (DownloadJar J c env fs url st v b ck alg).fs (c.GetMetadataPath st v b)
      = fs (c.GetMetadataPath st v b) := by
  rw [DownloadJar_fetched J c env fs url st v b ck alg
    (not_served_of_miss c env fs st v b ck alg hmiss)]
  obtain ⟨hd, _⟩ := downloadFile_mismatch env fs url (c.GetJarPath st v b ++ ".tmp") ck alg
    body h hck halg hdest hcreate hget hcopy hne
  have herr : (fetch J c env fs url st v b ck alg).err =
      some (.downloadJar (.checksumMismatch ck (hex.EncodeToString (h body)))) := by
    unfold fetch
    rw [if_neg (by simp [hjars])]
    simp only [hd]
  obtain ⟨hpath, hother, htemp⟩ := fetch_error J c env fs url st v b ck alg _ herr
    (fun _ hc => DownloadError.noConfusion hc)
  refine ⟨herr, hpath, ?_, hother _ (Cache.jar_ne_temp c st v b _),
    hother _ (Cache.meta_ne_temp c st v b _)⟩
  rcases htemp with ⟨hc, _⟩ | htemp
  · exact DownloadError.noConfusion hc
  · exact htemp

/-- C3, amended, at a concrete input: an empty cache, the expected checksum
`deadbeef` and an empty body. -/
theorem DownloadJar_miss_checksum_mismatch_witness :
    (scenarioCache.HasJar FS.empty "paper" "1.21.4" "123" = false ∧
      "deadbeef" ≠ "" ∧ hasher "sha256" = some sha256.Sum ∧
      (DownloadEnv.healthy []).get "https://example.org/paper.jar" = .response 200 [] ∧
      hex.EncodeToString (sha256.Sum []) ≠ "deadbeef") ∧
    ((DownloadJar metadataCodec scenarioCache (DownloadEnv.healthy []) FS.empty
      "https://example.org/paper.jar" "paper" "1.21.4" "123" "deadbeef" "sha256").err =
      some (.downloadJar (.checksumMismatch "deadbeef"
        (hex.EncodeToString (sha256.Sum [])))) ∧
    (DownloadJar metadataCodec scenarioCache (DownloadEnv.healthy []) FS.empty
      "https://example.org/paper.jar" "paper" "1.21.4" "123" "deadbeef" "sha256").path = "" ∧
    (DownloadJar metadataCodec scenarioCache (DownloadEnv.healthy []) FS.empty
      "https://example.org/paper.jar" "paper" "1.21.4" "123" "deadbeef" "sha256").fs
      (scenarioCache.GetJarPath "paper" "1.21.4" "123" ++ ".tmp") = none ∧
    (DownloadJar metadataCodec scenarioCache (DownloadEnv.healthy []) FS.empty
      "https://example.org/paper.jar" "paper" "1.21.4" "123" "deadbeef" "sha256").fs
      (scenarioCache.GetJarPath "paper" "1.21.4" "123")
      = (FS.empty : FS Bytes) (scenarioCache.GetJarPath "paper" "1.21.4" "123") ∧
    (DownloadJar metadataCodec scenarioCache (DownloadEnv.healthy []) FS.empty
      "https://example.org/paper.jar" "paper" "1.21.4" "123" "deadbeef" "sha256").fs
      (scenarioCache.GetMetadataPath "paper" "1.21.4" "123")
      = (FS.empty : FS Bytes) (scenarioCache.GetMetadataPath "paper" "1.21.4" "123")) :=
  ⟨⟨by decide, by decide, rfl, rfl, by decide⟩,
    DownloadJar_miss_checksum_mismatch metadataCodec scenarioCache (DownloadEnv.healthy [])
      FS.empty "https://example.org/paper.jar" "paper" "1.21.4" "123" "deadbeef" "sha256" []
      sha256.Sum (by decide) (by decide) rfl rfl rfl rfl rfl rfl (by decide)⟩

/-- With algorithm sha256, a cached jar whose SHA-256 digest is not the
expected checksum is not returned from the cache. -/
theorem not_served_of_sha256_mismatch (c : Cache) (env : DownloadEnv) (fs : FS Bytes)
    (st v b ck : String) (file : Bytes) (hfile : fs (c.GetJarPath st v b) = some file)
    (hck : ck ≠ "") (hne : hex.EncodeToString (sha256.Sum file) ≠ ck) :
    ¬ servedFromCache c env fs st v b ck "sha256" := by
  rintro ⟨_, h | h⟩
  · exact hck h
  · unfold Cache.VerifyChecksum at h
    rw [hfile] at h
    dsimp only at h
    split_ifs at h with h1 h2 h3
    · simp at h
    · simp at h
    · simp at h
    · simp [hne] at h

/-- C4, refuted as stated.  The cache `/cache` holds the key
(paper, 1.21.4, 123), the cached jar is readable and does not have the
expected checksum, but the temporary file cannot be created: the call fails
without any GET. -/
theorem DownloadJar_cached_mismatch_no_get :
    scenarioCache.HasJar (cachedFS scenarioCache "paper" "1.21.4" "123" [7] [8])
      "paper" "1.21.4" "123" = true ∧
    scenarioCache.VerifyChecksum (DownloadEnv.healthy []).verify
      (cachedFS scenarioCache "paper" "1.21.4" "123" [7] [8])
      (scenarioCache.GetJarPath "paper" "1.21.4" "123")
      "e3b0c44298fc1c149afbf4c8996fb92427ae41e4649b934ca495991b7852b855" "sha256"
      = (false, none) ∧
    (DownloadJar metadataCodec scenarioCache
      { DownloadEnv.healthy [] with createFails := true }
      (cachedFS scenarioCache "paper" "1.21.4" "123" [7] [8])
      "https://example.org/paper.jar" "paper" "1.21.4" "123"
      "e3b0c44298fc1c149afbf4c8996fb92427ae41e4649b934ca495991b7852b855" "sha256").gets = [] ∧
    (DownloadJar metadataCodec scenarioCache
      { DownloadEnv.healthy [] with createFails := true }
      (cachedFS scenarioCache "paper" "1.21.4" "123" [7] [8])
      "https://example.org/paper.jar" "paper" "1.21.4" "123"
      "e3b0c44298fc1c149afbf4c8996fb92427ae41e4649b934ca495991b7852b855" "sha256").err
      = some (.downloadJar .createFile) := by
  decide

/-- C4, amended.  Every call of `DownloadJar` issues at most one GET.  When
the cache holds the key, the algorithm is sha256 and the SHA-256 digest of the
cached jar is not the non-empty expected checksum, exactly one GET is issued
provided the cache directory and the temporary file can be created.  Whenever
a call with a non-empty expected checksum has issued its GET and returns
without error, the file at the artifact path has the expected checksum as its
digest under the given algorithm, which is sha256 or sha1. -/
theorem DownloadJar_at_most_one_get (J : Codec CacheMetadata Bytes) (c : Cache)
    (env : DownloadEnv) (fs : FS Bytes) (url st v b ck alg : String) :
    (DownloadJar J c env fs url st v b ck alg).gets.length ≤ 1 ∧
    (∀ file, c.HasJar fs st v b = true → fs (c.GetJarPath st v b) = some file → ck ≠ "" →
      alg = "sha256" → hex.EncodeToString (sha256.Sum file) ≠ ck →
      env.ensureJarsDirFails = false → env.ensureDestDirFails = false →
      env.createFails = false → (DownloadJar J c env fs url st v b ck alg).gets = [url]) ∧
    (ck ≠ "" → (DownloadJar J c env fs url st v b ck alg).gets ≠ [] →
      (DownloadJar J c env fs url st v b ck alg).err = none →
      ∃ body h, (DownloadJar J c env fs url st v b ck alg).fs (c.GetJarPath st v b)
          = some body ∧
        hasher alg = some h ∧ hex.EncodeToString (h body) = ck) := by
  refine ⟨?_, ?_, ?_⟩
  · by_cases hs : servedFromCache c env fs st v b ck alg
    · rw [DownloadJar_served J c env fs url st v b ck alg hs]
      simp
    · rw [DownloadJar_fetched J c env fs url st v b ck alg hs]
      rcases fetch_gets J c env fs url st v b ck alg with h | h <;> simp [h]
  · intro file _ hfile hck halg hne hjars hdest hcreate
    subst halg
    rw [DownloadJar_fetched J c env fs url st v b ck "sha256"
      (not_served_of_sha256_mismatch c env fs st v b ck file hfile hck hne)]
    exact fetch_gets_of_created J c env fs url st v b ck "sha256" hjars hdest hcreate
  · intro hck hgets hok
    by_cases hs : servedFromCache c env fs st v b ck alg
    · rw [DownloadJar_served J c env fs url st v b ck alg hs] at hgets
      exact absurd rfl hgets
    · rw [DownloadJar_fetched J c env fs url st v b ck alg hs] at hok ⊢
      obtain ⟨body, _, _, _, hjar, _, _, hsum⟩ := fetch_ok J c env fs url st v b ck alg hok
      obtain ⟨h, hh, hd⟩ := hsum hck
      exact ⟨body, h, hjar, hh, hd⟩

/-- C4, amended, at a concrete input: the cached jar of the key
(paper, 1.21.4, 123) is stale and the server delivers an empty jar whose
SHA-256 digest is the expected checksum. -/
theorem DownloadJar_at_most_one_get_witness :
    (scenarioCache.HasJar (cachedFS scenarioCache "paper" "1.21.4" "123" [7] [8])
        "paper" "1.21.4" "123" = true ∧
      cachedFS scenarioCache "paper" "1.21.4" "123" [7] [8]
        (scenarioCache.GetJarPath "paper" "1.21.4" "123") = some [7] ∧
      "e3b0c44298fc1c149afbf4c8996fb92427ae41e4649b934ca495991b7852b855" ≠ "" ∧
      hex.EncodeToString (sha256.Sum [7])
        ≠ "e3b0c44298fc1c149afbf4c8996fb92427ae41e4649b934ca495991b7852b855" ∧
      (DownloadJar metadataCodec scenarioCache (DownloadEnv.healthy [])
        (cachedFS scenarioCache "paper" "1.21.4" "123" [7] [8])
        "https://example.org/paper.jar" "paper" "1.21.4" "123"
        "e3b0c44298fc1c149afbf4c8996fb92427ae41e4649b934ca495991b7852b855" "sha256").gets ≠ [] ∧
      (DownloadJar metadataCodec scenarioCache (DownloadEnv.healthy [])
        (cachedFS scenarioCache "paper" "1.21.4" "123" [7] [8])
        "https://example.org/paper.jar" "paper" "1.21.4" "123"
        "e3b0c44298fc1c149afbf4c8996fb92427ae41e4649b934ca495991b7852b855" "sha256").err
        = none) ∧
    (DownloadJar metadataCodec scenarioCache (DownloadEnv.healthy [])
        (cachedFS scenarioCache "paper" "1.21.4" "123" [7] [8])
        "https://example.org/paper.jar" "paper" "1.21.4" "123"
        "e3b0c44298fc1c149afbf4c8996fb92427ae41e4649b934ca495991b7852b855" "sha256").gets
        = ["https://example.org/paper.jar"] ∧
    (∃ body h, (DownloadJar metadataCodec scenarioCache (DownloadEnv.healthy [])
        (cachedFS scenarioCache "paper" "1.21.4" "123" [7] [8])
        "https://example.org/paper.jar" "paper" "1.21.4" "123"
        "e3b0c44298fc1c149afbf4c8996fb92427ae41e4649b934ca495991b7852b855" "sha256").fs
        (scenarioCache.GetJarPath "paper" "1.21.4" "123") = some body ∧
      hasher "sha256" = some h ∧
      hex.EncodeToString (h body)
        = "e3b0c44298fc1c149afbf4c8996fb92427ae41e4649b934ca495991b7852b855") :=
  ⟨⟨by decide, by decide, by decide, by decide, by decide, by decide⟩,
    (DownloadJar_at_most_one_get metadataCodec scenarioCache (DownloadEnv.healthy [])
      (cachedFS scenarioCache "paper" "1.21.4" "123" [7] [8])
      "https://example.org/paper.jar" "paper" "1.21.4" "123"
      "e3b0c44298fc1c149afbf4c8996fb92427ae41e4649b934ca495991b7852b855" "sha256").2.1 [7]
      (by decide) (by decide) (by decide) rfl (by decide) rfl rfl rfl,
    (DownloadJar_at_most_one_get metadataCodec scenarioCache (DownloadEnv.healthy [])
      (cachedFS scenarioCache "paper" "1.21.4" "123" [7] [8])
      "https://example.org/paper.jar" "paper" "1.21.4" "123"
      "e3b0c44298fc1c149afbf4c8996fb92427ae41e4649b934ca495991b7852b855" "sha256").2.2
      (by decide) (by decide) (by decide)⟩

end Downloader

end Mcinit

namespace Mcinit

/-- C5, at the failing input.  The jar of the key (vanilla, 1.21.4, no build)
in the cache `/cache` holds the three bytes `abc` and is readable; the
expected digest is the lowercase hexadecimal SHA-1 digest of `abc` and the
algorithm is sha1.  `VerifyChecksum` returns false without error: it compares
with the SHA-256 digest. -/
theorem Cache.VerifyChecksum_sha1_digest_rejected :
    hex.EncodeToString (sha1.Sum [97, 98, 99]) = "a9993e364706816aba3e25717850c26c9cd0d89d" ∧
    hex.EncodeToString (sha256.Sum [97, 98, 99])
      = "ba7816bf8f01cfea414140de5dae2223b00361a396177a9cb410ff61f20015ad" ∧
    scenarioCache.VerifyChecksum ⟨false, false⟩
      (cachedFS scenarioCache "vanilla" "1.21.4" "" [97, 98, 99] [])
      (scenarioCache.GetJarPath "vanilla" "1.21.4" "")
      "a9993e364706816aba3e25717850c26c9cd0d89d" "sha1" = (false, none) ∧
    scenarioCache.VerifyChecksum ⟨false, false⟩
      (cachedFS scenarioCache "vanilla" "1.21.4" "" [97, 98, 99] [])
      (scenarioCache.GetJarPath "vanilla" "1.21.4" "")
      "ba7816bf8f01cfea414140de5dae2223b00361a396177a9cb410ff61f20015ad" "sha1"
      = (true, none) := by
  decide

namespace Downloader

/-- The expected checksum `deadbeef` is the SHA-256 digest of no body: with
it, a download under algorithm sha256 never returns without error. -/
theorem fetch_deadbeef_sha256_fails (J : Codec CacheMetadata Bytes) (c : Cache)
    (env : DownloadEnv) (fs : FS Bytes) (url st v b : String) :
    (fetch J c env fs url st v b "deadbeef" "sha256").err ≠ none := by
  intro hok
  obtain ⟨body, _, _, _, _, _, _, hsum⟩ := fetch_ok J c env fs url st v b _ _ hok
  obtain ⟨h, hh, hd⟩ := hsum (by decide)
  rw [hasher_eq_some] at hh
  rcases hh with ⟨_, rfl⟩ | ⟨h1, _⟩
  · have h2 := congrArg String.length hd
    rw [hex.EncodeToString_length, sha256_Sum_length] at h2
    revert h2
    decide
  · revert h1
    decide

/-- C6.  When a call of `DownloadJar` on a cache miss returns without error,
exactly one GET was issued, for the URL; the returned path is the artifact
path of the key; the response had status 200 and its body is the file at
that path; `HasJar` holds for the key; and `GetMetadata` reads a record with
the version, build, server type, URL, checksum and algorithm of the call. -/
theorem DownloadJar_miss_success (J : Codec CacheMetadata Bytes) (c : Cache)
    (env : DownloadEnv) (fs : FS Bytes) (url st v b ck alg : String)
    (hmiss : c.HasJar fs st v b = false)
    (hok : (DownloadJar J c env fs url st v b ck alg).err = none) :
    (DownloadJar J c env fs url st v b ck alg).gets = [url] ∧
    (DownloadJar J c env fs url st v b ck alg).path = c.GetJarPath st v b ∧
    (∃ body, env.get url = .response 200 body ∧
      (DownloadJar J c env fs url st v b ck alg).fs (c.GetJarPath st v b) = some body) ∧
    c.HasJar (DownloadJar J c env fs url st v b ck alg).fs st v b = true ∧
    c.GetMetadata J false (DownloadJar J c env fs url st v b ck alg).fs st v b =
      .ok { Version := v, Build := b, ServerType := st, DownloadURL := url, Checksum := ck,
            Algorithm := alg, CachedAt := env.now } := by
  rw [DownloadJar_fetched J c env fs url st v b ck alg
    (not_served_of_miss c env fs st v b ck alg hmiss)] at hok ⊢
  obtain ⟨body, hget, hpath, hgets, hjar, hmeta, _, _⟩ :=
    fetch_ok J c env fs url st v b ck alg hok
  refine ⟨hgets, hpath, ⟨body, hget, hjar⟩, ?_, ?_⟩
  · simp [Cache.HasJar, utils.PathExists, hjar, hmeta]
  · simp [Cache.GetMetadata, hmeta, J.unmarshal_marshal]

/-- C6 at a concrete input: the cache `/cache` is empty, the key is
(paper, 1.21.4, 123), the algorithm is sha256, the server delivers an empty
jar and the expected checksum is its SHA-256 digest. -/
theorem DownloadJar_miss_success_witness :
    (scenarioCache.HasJar FS.empty "paper" "1.21.4" "123" = false ∧
      (DownloadJar metadataCodec scenarioCache (DownloadEnv.healthy []) FS.empty
        "https://example.org/paper.jar" "paper" "1.21.4" "123"
        "e3b0c44298fc1c149afbf4c8996fb92427ae41e4649b934ca495991b7852b855" "sha256").err
        = none ∧
      scenarioCache.GetJarPath "paper" "1.21.4" "123" = "/cache/jars/paper-1.21.4-123.jar") ∧
    ((DownloadJar metadataCodec scenarioCache (DownloadEnv.healthy []) FS.empty
        "https://example.org/paper.jar" "paper" "1.21.4" "123"
        "e3b0c44298fc1c149afbf4c8996fb92427ae41e4649b934ca495991b7852b855" "sha256").gets
        = ["https://example.org/paper.jar"] ∧
    (DownloadJar metadataCodec scenarioCache (DownloadEnv.healthy []) FS.empty
        "https://example.org/paper.jar" "paper" "1.21.4" "123"
        "e3b0c44298fc1c149afbf4c8996fb92427ae41e4649b934ca495991b7852b855" "sha256").path
        = scenarioCache.GetJarPath "paper" "1.21.4" "123" ∧
    (∃ body, (DownloadEnv.healthy []).get "https://example.org/paper.jar"
        = .response 200 body ∧
      (DownloadJar metadataCodec scenarioCache (DownloadEnv.healthy []) FS.empty
        "https://example.org/paper.jar" "paper" "1.21.4" "123"
        "e3b0c44298fc1c149afbf4c8996fb92427ae41e4649b934ca495991b7852b855" "sha256").fs
        (scenarioCache.GetJarPath "paper" "1.21.4" "123") = some body) ∧
    scenarioCache.HasJar
      (DownloadJar metadataCodec scenarioCache (DownloadEnv.healthy []) FS.empty
        "https://example.org/paper.jar" "paper" "1.21.4" "123"
        "e3b0c44298fc1c149afbf4c8996fb92427ae41e4649b934ca495991b7852b855" "sha256").fs
      "paper" "1.21.4" "123" = true ∧
    scenarioCache.GetMetadata metadataCodec false
      (DownloadJar metadataCodec scenarioCache (DownloadEnv.healthy []) FS.empty
        "https://example.org/paper.jar" "paper" "1.21.4" "123"
        "e3b0c44298fc1c149afbf4c8996fb92427ae41e4649b934ca495991b7852b855" "sha256").fs
      "paper" "1.21.4" "123" =
      .ok { Version := "1.21.4", Build := "123", ServerType := "paper",
            DownloadURL := "https://example.org/paper.jar",
            Checksum := "e3b0c44298fc1c149afbf4c8996fb92427ae41e4649b934ca495991b7852b855",
            Algorithm := "sha256", CachedAt := (DownloadEnv.healthy []).now }) :=
  ⟨⟨by decide, by decide, by decide⟩,
    DownloadJar_miss_success metadataCodec scenarioCache (DownloadEnv.healthy []) FS.empty
      "https://example.org/paper.jar" "paper" "1.21.4" "123"
      "e3b0c44298fc1c149afbf4c8996fb92427ae41e4649b934ca495991b7852b855" "sha256"
      (by decide) (by decide)⟩

/-- C7.  When the cache holds both the jar and the metadata of a key,
`DownloadJar` with an empty expected checksum returns the artifact path
without error, whatever the URL, the algorithm, the content of the cached
file and the answers of the host: it issues no GET and leaves every file as it
was. -/
theorem DownloadJar_cached_no_checksum (J : Codec CacheMetadata Bytes) (c : Cache)
    (env : DownloadEnv) (fs : FS Bytes) (url st v b alg : String)
    (hhas : c.HasJar fs st v b = true) :
    DownloadJar J c env fs url st v b "" alg = ⟨c.GetJarPath st v b, none, fs, []⟩ :=
  DownloadJar_served J c env fs url st v b "" alg ⟨hhas, Or.inl rfl⟩

/-- C7 at a concrete input: the cached jar of the key (purpur, 1.21.4, 2300)
on a host where every system call fails and the server answers 500. -/
theorem DownloadJar_cached_no_checksum_witness :
    scenarioCache.HasJar (cachedFS scenarioCache "purpur" "1.21.4" "2300" [1, 2] [3])
      "purpur" "1.21.4" "2300" = true ∧
    DownloadJar metadataCodec scenarioCache
      { verify := ⟨true, true⟩, ensureJarsDirFails := true, ensureDestDirFails := true,
        createFails := true, get := fun _ => .response 500 [], copyFailsAfter := some 0,
        renameFails := true, now := "", ensureMetaDirFails := true, writeMeta := .openFailed }
      (cachedFS scenarioCache "purpur" "1.21.4" "2300" [1, 2] [3])
      "https://example.org/purpur.jar" "purpur" "1.21.4" "2300" "" "md5"
      = ⟨scenarioCache.GetJarPath "purpur" "1.21.4" "2300", none,
          cachedFS scenarioCache "purpur" "1.21.4" "2300" [1, 2] [3], []⟩ :=
  ⟨by decide, DownloadJar_cached_no_checksum metadataCodec scenarioCache _ _ _ _ _ _ _
    (by decide)⟩

end Downloader

end Mcinit

namespace Mcinit

/-! ## Facts about decimal integers -/

namespace fmt

theorem digitChar_facts : ∀ k, k < 10 →
    (Nat.digitChar k).isDigit = true ∧ (Nat.digitChar k).toNat - 48 = k ∧
    Nat.digitChar k ≠ '_' ∧ Nat.digitChar k ≠ '+' ∧ Nat.digitChar k ≠ '-' ∧
    Nat.digitChar k ≠ '\n' ∧ isSpace (Nat.digitChar k) = false := by
  decide

/-- The characters `digitsAux` puts in front of `acc` are decimal digits,
at least one, and their value is `n`. -/
theorem digitsAux_spec : ∀ (fuel n : Nat) (acc : List Char), n < fuel →
    ∃ ds, digitsAux fuel n acc = ds ++ acc ∧ ds ≠ [] ∧
      (∀ c ∈ ds, ∃ k, k < 10 ∧ c = Nat.digitChar k) ∧
      (∀ init, ds.foldl (fun a c => a * 10 + (c.toNat - 48)) init
        = init * 10 ^ ds.length + n) := by
  intro fuel
  induction fuel with
  | zero => intro n acc h; omega
  | succ fuel ih =>
    intro n acc hn
    have hlt : n % 10 < 10 := Nat.mod_lt _ (by decide)
    by_cases h0 : n / 10 = 0
    · refine ⟨[Nat.digitChar (n % 10)], ?_, by simp, ?_, ?_⟩
      · simp [digitsAux, h0]
      · intro c hc
        exact ⟨n % 10, hlt, by simpa using hc⟩
      · intro init
        have hk := (digitChar_facts (n % 10) hlt).2.1
        have hn10 : n % 10 = n := by omega
        simp only [List.foldl_cons, List.foldl_nil, hk, List.length_singleton, pow_one]
        omega
    · have hlt2 : n / 10 < fuel := by omega
      obtain ⟨ds, hds, _, hdig, hval⟩ := ih (n / 10) (Nat.digitChar (n % 10) :: acc) hlt2
      refine ⟨ds ++ [Nat.digitChar (n % 10)], ?_, by simp, ?_, ?_⟩
      · simp [digitsAux, h0, hds]
      · intro c hc
        rcases List.mem_append.mp hc with hc | hc
        · exact hdig c hc
        · exact ⟨n % 10, hlt, by simpa using hc⟩
      · intro init
        have hk := (digitChar_facts (n % 10) hlt).2.1
        simp only [List.foldl_append, List.foldl_cons, List.foldl_nil, hval, hk,
          List.length_append, List.length_singleton, pow_succ]
        have := Nat.div_add_mod n 10
        nlinarith [Nat.div_add_mod n 10]

theorem digits_spec (n : Nat) :
    digits n ≠ [] ∧ (∀ c ∈ digits n, ∃ k, k < 10 ∧ c = Nat.digitChar k) ∧
      digitsValue (digits n) = n := by
  obtain ⟨ds, hds, hne, hdig, hval⟩ := digitsAux_spec (n + 1) n [] (Nat.lt_succ_self n)
  have h : digits n = ds := by simp [digits, hds]
  rw [h]
  refine ⟨hne, hdig, ?_⟩
  have := hval 0
  simpa [digitsValue] using this

theorem takeWhile_append_stop (p : Char → Bool) (ds : List Char) (x : Char) (tl : List Char)
    (hds : ∀ c ∈ ds, p c = true) (hx : p x = false) :
    (ds ++ x :: tl).takeWhile p = ds := by
  induction ds with
  | nil => simp [List.takeWhile, hx]
  | cons d ds ih =>
    have hd : p d = true := hds d (List.mem_cons_self _ _)
    simp [List.takeWhile, hd, ih (fun c hc => hds c (List.mem_cons_of_mem _ hc))]

/-- The token `Sscanf` reads from digits followed by a newline. -/
theorem token_of_digits (n : Nat) :
    (digits n ++ ['\n']).takeWhile (fun c => c.isDigit) = digits n := by
  apply takeWhile_append_stop
  · intro c hc
    obtain ⟨k, hk, rfl⟩ := (digits_spec n).2.1 c hc
    simp [(digitChar_facts k hk).1]
  · decide

theorem digits_head (n : Nat) : ∃ k tl, k < 10 ∧ digits n = Nat.digitChar k :: tl := by
  obtain ⟨hne, hdig, _⟩ := digits_spec n
  cases h : digits n with
  | nil => exact absurd h hne
  | cons d tl =>
    obtain ⟨k, hk, rfl⟩ := hdig d (by simp [h])
    exact ⟨k, tl, hk, rfl⟩

/-- The scan of a text that starts with neither white space nor a sign. -/
theorem scan_unsigned (c : Char) (rest tok : List Char) (h1 : c ≠ '\n')
    (h2 : isSpace c = false) (h3 : c ≠ '+') (h4 : c ≠ '-')
    (htok : (c :: rest).takeWhile (fun c => c.isDigit) = tok) (hne : tok ≠ [])
    (hrange : isInt64 ((digitsValue tok : Nat) : Int)) :
    SscanfDecimal (String.mk (c :: rest)) = some ((digitsValue tok : Nat) : Int) := by
  unfold SscanfDecimal
  simp only [skipSpace, h1, h2, h3, h4, if_false, Bool.false_eq_true, htok, hne, hrange,
    if_true]

/-- The scan of a text that starts with a minus sign. -/
theorem scan_negative (rest tok : List Char)
    (htok : rest.takeWhile (fun c => c.isDigit) = tok) (hne : tok ≠ [])
    (hrange : isInt64 (-((digitsValue tok : Nat) : Int))) :
    SscanfDecimal (String.mk ('-' :: rest)) = some (-((digitsValue tok : Nat) : Int)) := by
  have h1 : ('-' : Char) ≠ '\n' := by decide
  have h2 : isSpace '-' = false := by decide
  have h3 : ('-' : Char) ≠ '+' := by decide
  unfold SscanfDecimal
  simp only [skipSpace, h1, h2, h3, if_false, Bool.false_eq_true, htok, hne, hrange,
    if_true]

/-- What `Sprintf("%d\n")` writes, `Sscanf("%d")` reads back, for every
value of an `int`. -/
theorem SscanfDecimal_SprintfDecimalLine (n : Int) (hn : isInt64 n) :
    SscanfDecimal (SprintfDecimalLine n) = some n := by
  cases n with
  | ofNat m =>
    obtain ⟨k, tl, hk, hd⟩ := digits_head m
    obtain ⟨hne, _, hval⟩ := digits_spec m
    have hf := digitChar_facts k hk
    have htok := token_of_digits m
    have hshape : SprintfDecimalLine (Int.ofNat m) = String.mk (Nat.digitChar k :: (tl ++ ['\n'])) := by
      simp [SprintfDecimalLine, formatInt, hd]
    have htok2 : (Nat.digitChar k :: (tl ++ ['\n'])).takeWhile
        (fun c => c.isDigit) = digits m := by
      rw [← List.cons_append, ← hd]
      exact htok
    rw [hshape, scan_unsigned _ _ (digits m) hf.2.2.2.2.2.1 hf.2.2.2.2.2.2 hf.2.2.2.1
      hf.2.2.2.2.1 htok2 hne (by rw [hval]; exact hn), hval]
    rfl
  | negSucc m =>
    obtain ⟨hne, _, hval⟩ := digits_spec (m + 1)
    have hshape : SprintfDecimalLine (Int.negSucc m)
        = String.mk ('-' :: (digits (m + 1) ++ ['\n'])) := by
      simp [SprintfDecimalLine, formatInt]
    have hneg : -(((m + 1 : Nat)) : Int) = Int.negSucc m := by
      rw [Int.negSucc_eq]
      push_cast
      ring
    rw [hshape, scan_negative _ (digits (m + 1)) (token_of_digits (m + 1)) hne
      (by rw [hval, hneg]; exact hn), hval, hneg]

end fmt

end Mcinit

namespace Mcinit

/-! ## Facts about the state store -/

theorem NewStateFile_paths_ne (serverDir : String) :
    (NewStateFile serverDir).statePath ≠ (NewStateFile serverDir).pidPath := by
  obtain ⟨p1, h1⟩ := filepath.Join_data_suffix [filepath.Join [serverDir, ".mcinit"]]
    "state.json" [] "state.json".data rfl (by decide) (by decide)
  obtain ⟨p2, h2⟩ := filepath.Join_data_suffix [filepath.Join [serverDir, ".mcinit"]]
    "pid" [] "pid".data rfl (by decide) (by decide)
  intro heq
  have h3 := congrArg (fun s => s.data.getLast?) heq
  simp only [NewStateFile] at h3
  simp only [List.singleton_append] at h1 h2
  rw [h1, h2] at h3
  simp at h3

namespace StateFile

/-- A `Save` without error wrote the encoded state to state.json and then
the PID line to the PID file. -/
theorem Save_ok (S : Codec State String) (s : StateFile) (env : SaveEnv) (fs : FS String)
    (state : State) (hok : (s.Save S env fs state).1 = none) :
    (s.Save S env fs state).2 =
      (fs.write s.statePath (S.marshal state)).write s.pidPath
        (fmt.SprintfDecimalLine state.PID) := by
  unfold Save at hok ⊢
  by_cases hd : env.ensureDirFails = true
  · simp [hd] at hok
  rw [if_neg hd] at hok ⊢
  cases hw1 : env.writeState with
  | openFailed => simp [hw1, os.WriteFile] at hok
  | writeFailed left => simp [hw1, os.WriteFile] at hok
  | ok =>
    cases hw2 : env.writePid with
    | openFailed => simp [hw1, hw2, os.WriteFile] at hok
    | writeFailed left => simp [hw1, hw2, os.WriteFile] at hok
    | ok => simp [hw1, hw2, os.WriteFile]

theorem Save_healthy (S : Codec State String) (s : StateFile) (fs : FS String)
    (state : State) : (s.Save S ⟨false, .ok, .ok⟩ fs state).1 = none := by
  simp [Save, os.WriteFile]

/-- After a `Save` without error, `ReadPID` returns the saved PID and `Load`
the saved state. -/
theorem read_after_Save (S : Codec State String) (serverDir : String) (env : SaveEnv)
    (fs : FS String) (state : State) (hpid : fmt.isInt64 state.PID)
    (hok : ((NewStateFile serverDir).Save S env fs state).1 = none) :
    (NewStateFile serverDir).ReadPID false ((NewStateFile serverDir).Save S env fs state).2
      = .ok state.PID ∧
    (NewStateFile serverDir).Load S false ((NewStateFile serverDir).Save S env fs state).2
      = .ok state := by
  rw [Save_ok S _ env fs state hok]
  have hne := NewStateFile_paths_ne serverDir
  constructor
  · simp [ReadPID, utils.PathExists, fmt.SscanfDecimal_SprintfDecimalLine _ hpid]
  · simp [Load, utils.PathExists, FS.write_other _ _ _ _ hne, S.unmarshal_marshal]

end StateFile

end Mcinit

namespace Mcinit

/-! ## Claims C8 to C10: the start of the server process -/

/-- C8, refuted as stated.  The state store of `/srv/mc` holds the PID 4242
of a live process, so `IsRunning` is true.  `Process.Start` makes no check: it
returns without error, has launched a second process, 5000, and has replaced
the stored PID. -/
theorem Process.Start_while_running_launches :
    (NewProcess "/srv/mc").IsRunning false (runningWorld "/srv/mc" 4242) = true ∧
    ((NewProcess "/srv/mc").Start stateCodec (StartEnv.healthy 5000)
      (runningWorld "/srv/mc" 4242) "/usr/bin/java" "/srv/mc/server.jar" ["-Xmx4G"] true).err
      = none ∧
    ((NewProcess "/srv/mc").Start stateCodec (StartEnv.healthy 5000)
      (runningWorld "/srv/mc" 4242) "/usr/bin/java" "/srv/mc/server.jar" ["-Xmx4G"]
      true).world.launched
      = [⟨"/usr/bin/java", ["-Xmx4G", "-jar", "/srv/mc/server.jar", "nogui"], "/srv/mc", true,
          5000⟩] ∧
    (NewProcess "/srv/mc").GetPID false
      ((NewProcess "/srv/mc").Start stateCodec (StartEnv.healthy 5000)
        (runningWorld "/srv/mc" 4242) "/usr/bin/java" "/srv/mc/server.jar" ["-Xmx4G"]
        true).world
      = .ok 5000 := by
  decide

/-- C8, amended.  `Manager.Start` is the caller of `Process.Start` and holds
the check: whenever `IsRunning` reports a live process for the server
directory, it returns the already-running error (or, when no configuration is
loaded and loading it fails, the configuration error), and it leaves the host
as it was: no process is launched and the state files are untouched. -/
theorem Manager.Start_already_running (S : Codec State String) (m : Manager)
    (env : ManagerEnv) (w : World) (background : Bool) (extraArgs : String)
    (hrun : m.process.IsRunning env.readPidFails w = true) :
    ((m.Start S env w background extraArgs).err = some .alreadyRunning ∨
      (m.config = none ∧ env.loadConfig = none ∧
        (m.Start S env w background extraArgs).err = some .loadConfig)) ∧
    (m.Start S env w background extraArgs).world = w := by
  unfold Manager.Start
  cases hc : m.config with
  | some cfg => simp [hrun]
  | none =>
    cases hl : env.loadConfig with
    | some cfg => simp [hrun]
    | none => simp

/-- C8, amended, at a concrete input: the server of `/srv/mc` runs as process
4242 and the configuration is loaded. -/
theorem Manager.Start_already_running_witness :
    ({ NewManager "/srv/mc" with config := some scenarioConfig } : Manager).process.IsRunning
      false (runningWorld "/srv/mc" 4242) = true ∧
    ((({ NewManager "/srv/mc" with config := some scenarioConfig } : Manager).Start stateCodec
        ⟨none, false, [], StartEnv.healthy 5000⟩ (runningWorld "/srv/mc" 4242) true "").err
        = some .alreadyRunning ∨
      (({ NewManager "/srv/mc" with config := some scenarioConfig } : Manager).config = none ∧
        (⟨none, false, [], StartEnv.healthy 5000⟩ : ManagerEnv).loadConfig = none ∧
        (({ NewManager "/srv/mc" with config := some scenarioConfig } : Manager).Start
          stateCodec ⟨none, false, [], StartEnv.healthy 5000⟩ (runningWorld "/srv/mc" 4242)
          true "").err = some .loadConfig)) ∧
    (({ NewManager "/srv/mc" with config := some scenarioConfig } : Manager).Start stateCodec
        ⟨none, false, [], StartEnv.healthy 5000⟩ (runningWorld "/srv/mc" 4242) true "").world
      = runningWorld "/srv/mc" 4242 :=
  ⟨by decide,
    Manager.Start_already_running stateCodec
      { NewManager "/srv/mc" with config := some scenarioConfig }
      ⟨none, false, [], StartEnv.healthy 5000⟩ (runningWorld "/srv/mc" 4242) true ""
      (by decide)⟩

/-- C9, at the failing inputs.  In background mode the child is launched as
process 4242 and then `Save` fails, first because the state directory cannot
be created, then because the PID file cannot be written.  Both times `Start`
returns an error while the child is alive and `ReadPID` finds no PID:
`IsRunning` is false. -/
theorem Process.Start_save_failure_orphans_child :
    (((NewProcess "/srv/mc").Start stateCodec
        { StartEnv.healthy 4242 with save := ⟨true, .ok, .ok⟩ } idleWorld
        "/usr/bin/java" "/srv/mc/server.jar" [] true).err
        = some (.saveState .createDirectory) ∧
      ((NewProcess "/srv/mc").Start stateCodec
        { StartEnv.healthy 4242 with save := ⟨true, .ok, .ok⟩ } idleWorld
        "/usr/bin/java" "/srv/mc/server.jar" [] true).world.alive 4242 = true ∧
      ((NewProcess "/srv/mc").Start stateCodec
        { StartEnv.healthy 4242 with save := ⟨true, .ok, .ok⟩ } idleWorld
        "/usr/bin/java" "/srv/mc/server.jar" [] true).world.launched
        = [⟨"/usr/bin/java", ["-jar", "/srv/mc/server.jar", "nogui"], "/srv/mc", true, 4242⟩] ∧
      (NewProcess "/srv/mc").GetPID false
        ((NewProcess "/srv/mc").Start stateCodec
          { StartEnv.healthy 4242 with save := ⟨true, .ok, .ok⟩ } idleWorld
          "/usr/bin/java" "/srv/mc/server.jar" [] true).world
        = .error .pidNotFound ∧
      (NewProcess "/srv/mc").IsRunning false
        ((NewProcess "/srv/mc").Start stateCodec
          { StartEnv.healthy 4242 with save := ⟨true, .ok, .ok⟩ } idleWorld
          "/usr/bin/java" "/srv/mc/server.jar" [] true).world
        = false) ∧
    (((NewProcess "/srv/mc").Start stateCodec
        { StartEnv.healthy 4242 with save := ⟨false, .ok, .openFailed⟩ } idleWorld
        "/usr/bin/java" "/srv/mc/server.jar" [] true).err
        = some (.saveState .writePid) ∧
      ((NewProcess "/srv/mc").Start stateCodec
        { StartEnv.healthy 4242 with save := ⟨false, .ok, .openFailed⟩ } idleWorld
        "/usr/bin/java" "/srv/mc/server.jar" [] true).world.alive 4242 = true ∧
      (NewProcess "/srv/mc").GetPID false
        ((NewProcess "/srv/mc").Start stateCodec
          { StartEnv.healthy 4242 with save := ⟨false, .ok, .openFailed⟩ } idleWorld
          "/usr/bin/java" "/srv/mc/server.jar" [] true).world
        = .error .pidNotFound ∧
      (NewProcess "/srv/mc").IsRunning false
        ((NewProcess "/srv/mc").Start stateCodec
          { StartEnv.healthy 4242 with save := ⟨false, .ok, .openFailed⟩ } idleWorld
          "/usr/bin/java" "/srv/mc/server.jar" [] true).world
        = false) := by
  decide

/-- C10.  `Process.Start` writes the state only after the launch.  When a
pipe cannot be created or the launch fails, it returns an error and the host
is as before: no file has changed and no process was launched.  When the
launch gives the process id `pid` and `Save` succeeds, in background mode it
returns without error, the child is the process launched last, `ReadPID`
returns `pid` and `Load` returns the state with that PID, the time of the
call and the status running. -/
theorem Process.Start_writes_state_after_launch (S : Codec State String) (p : Process)
    (env : StartEnv) (w : World) (javaPath jarPath : String) (jvmArgs : List String)
    (background : Bool) (hsf : p.stateFile = NewStateFile p.serverDir) :
    ((env.stdinPipeFails = true ∨ env.stdoutPipeFails = true ∨ env.stderrPipeFails = true ∨
        env.start = none) →
      (p.Start S env w javaPath jarPath jvmArgs background).err ≠ none ∧
      (p.Start S env w javaPath jarPath jvmArgs background).world = w) ∧
    (∀ pid, env.stdinPipeFails = false → env.stdoutPipeFails = false →
      env.stderrPipeFails = false → env.start = some pid → fmt.isInt64 pid →
      (p.stateFile.Save S env.save w.fs
        { PID := pid, StartTime := env.now, Status := "running" }).1 = none →
      background = true →
      (p.Start S env w javaPath jarPath jvmArgs background).err = none ∧
      (p.Start S env w javaPath jarPath jvmArgs background).world.launched =
        w.launched ++ [⟨javaPath, jvmArgs ++ ["-jar", jarPath, "nogui"], p.serverDir, true,
          pid⟩] ∧
      p.stateFile.ReadPID false (p.Start S env w javaPath jarPath jvmArgs background).world.fs
        = .ok pid ∧
      p.stateFile.Load S false (p.Start S env w javaPath jarPath jvmArgs background).world.fs
        = .ok { PID := pid, StartTime := env.now, Status := "running" }) := by
  constructor
  · intro h
    unfold Process.Start
    by_cases h1 : env.stdinPipeFails = true
    · simp [h1]
    by_cases h2 : env.stdoutPipeFails = true
    · simp [h1, h2]
    by_cases h3 : env.stderrPipeFails = true
    · simp [h1, h2, h3]
    have h4 : env.start = none := by
      rcases h with h | h | h | h
      · exact absurd h h1
      · exact absurd h h2
      · exact absurd h h3
      · exact h
    simp [h1, h2, h3, h4]
  · intro pid h1 h2 h3 h4 hpid hsave hbg
    rw [hsf] at hsave
    obtain ⟨hread, hload⟩ := StateFile.read_after_Save S p.serverDir env.save w.fs
      { PID := pid, StartTime := env.now, Status := "running" } hpid hsave
    unfold Process.Start
    simp only [h1, h2, h3, h4, hbg, hsf, hsave, Bool.false_eq_true, if_false, if_true]
    exact ⟨trivial, trivial, hread, hload⟩

/-- C10 at concrete inputs: on an idle host the launch fails; then it
succeeds with the process id 4242, in background mode. -/
theorem Process.Start_writes_state_after_launch_witness :
    (((({ StartEnv.healthy 4242 with start := none } : StartEnv).stdinPipeFails = true ∨
        ({ StartEnv.healthy 4242 with start := none } : StartEnv).stdoutPipeFails = true ∨
        ({ StartEnv.healthy 4242 with start := none } : StartEnv).stderrPipeFails = true ∨
        ({ StartEnv.healthy 4242 with start := none } : StartEnv).start = none)) ∧
      ((NewProcess "/srv/mc").Start stateCodec { StartEnv.healthy 4242 with start := none }
        idleWorld "/usr/bin/java" "/srv/mc/server.jar" ["-Xmx4G"] true).err ≠ none ∧
      ((NewProcess "/srv/mc").Start stateCodec { StartEnv.healthy 4242 with start := none }
        idleWorld "/usr/bin/java" "/srv/mc/server.jar" ["-Xmx4G"] true).world = idleWorld) ∧
    ((StartEnv.healthy 4242).start = some 4242 ∧ fmt.isInt64 4242 ∧
      ((NewProcess "/srv/mc").stateFile.Save stateCodec (StartEnv.healthy 4242).save
        idleWorld.fs ⟨4242, (StartEnv.healthy 4242).now, "running"⟩).1 = none) ∧
    (((NewProcess "/srv/mc").Start stateCodec (StartEnv.healthy 4242) idleWorld
        "/usr/bin/java" "/srv/mc/server.jar" ["-Xmx4G"] true).err = none ∧
      ((NewProcess "/srv/mc").Start stateCodec (StartEnv.healthy 4242) idleWorld
        "/usr/bin/java" "/srv/mc/server.jar" ["-Xmx4G"] true).world.launched =
        idleWorld.launched ++ [⟨"/usr/bin/java", ["-Xmx4G"] ++ ["-jar", "/srv/mc/server.jar",
          "nogui"], (NewProcess "/srv/mc").serverDir, true, 4242⟩] ∧
      (NewProcess "/srv/mc").stateFile.ReadPID false
        ((NewProcess "/srv/mc").Start stateCodec (StartEnv.healthy 4242) idleWorld
          "/usr/bin/java" "/srv/mc/server.jar" ["-Xmx4G"] true).world.fs = .ok 4242 ∧
      (NewProcess "/srv/mc").stateFile.Load stateCodec false
        ((NewProcess "/srv/mc").Start stateCodec (StartEnv.healthy 4242) idleWorld
          "/usr/bin/java" "/srv/mc/server.jar" ["-Xmx4G"] true).world.fs
        = .ok ⟨4242, (StartEnv.healthy 4242).now, "running"⟩) :=
  ⟨⟨Or.inr (Or.inr (Or.inr rfl)),
      (Process.Start_writes_state_after_launch stateCodec (NewProcess "/srv/mc")
        { StartEnv.healthy 4242 with start := none } idleWorld "/usr/bin/java"
        "/srv/mc/server.jar" ["-Xmx4G"] true rfl).1 (Or.inr (Or.inr (Or.inr rfl)))⟩,
    ⟨rfl, by decide, StateFile.Save_healthy _ _ _ _⟩,
    (Process.Start_writes_state_after_launch stateCodec (NewProcess "/srv/mc")
      (StartEnv.healthy 4242) idleWorld "/usr/bin/java" "/srv/mc/server.jar" ["-Xmx4G"] true
      rfl).2 4242 rfl rfl rfl rfl (by decide) (StateFile.Save_healthy _ _ _ _) rfl⟩

end Mcinit

namespace Mcinit

/-! ## Claims C16 to C18: the state store -/

namespace StateFile

theorem Load_of_absent (S : Codec State String) (s : StateFile) (readFails : Bool)
    (fs : FS String) (h : fs s.statePath = none) :
    s.Load S readFails fs = .error .stateNotFound := by
  simp [Load, utils.PathExists, h]

theorem ReadPID_of_absent (s : StateFile) (readFails : Bool) (fs : FS String)
    (h : fs s.pidPath = none) : s.ReadPID readFails fs = .error .pidNotFound := by
  simp [ReadPID, utils.PathExists, h]

/-- When the PID file cannot be read, `ReadPID` fails. -/
theorem ReadPID_unreadable (s : StateFile) (fs : FS String) :
    ∃ e, s.ReadPID true fs = .error e := by
  unfold ReadPID
  cases h : fs s.pidPath <;> simp [utils.PathExists, h]

/-- `Load` reads state.json only: its result is a function of that file. -/
theorem Load_congr (S : Codec State String) (s : StateFile) (readFails : Bool)
    (fs fs2 : FS String) (h : fs2 s.statePath = fs s.statePath) :
    s.Load S readFails fs2 = s.Load S readFails fs := by
  simp [Load, utils.PathExists, h]

/-- `ReadPID` reads the PID file only: its result is a function of that
file. -/
theorem ReadPID_congr (s : StateFile) (readFails : Bool) (fs fs2 : FS String)
    (h : fs2 s.pidPath = fs s.pidPath) : s.ReadPID readFails fs2 = s.ReadPID readFails fs := by
  simp [ReadPID, utils.PathExists, h]

/-- C16, refuted as stated.  In the server directory `/srv/mc` only
state.json is present, written by `Save` for the state of process 4242, and
the PID file is absent: `Load` returns the state.  And when only the PID file
is present, `ReadPID` returns the PID. -/
theorem Load_succeeds_without_pid_file :
    (FS.empty.write (NewStateFile "/srv/mc").statePath
      (stateCodec.marshal ⟨4242, 0, "running"⟩)) (NewStateFile "/srv/mc").pidPath = none ∧
    (NewStateFile "/srv/mc").Load stateCodec false
      (FS.empty.write (NewStateFile "/srv/mc").statePath
        (stateCodec.marshal ⟨4242, 0, "running"⟩)) = .ok ⟨4242, 0, "running"⟩ ∧
    (FS.empty.write (NewStateFile "/srv/mc").pidPath "4242\n")
      (NewStateFile "/srv/mc").statePath = none ∧
    (NewStateFile "/srv/mc").ReadPID false
      (FS.empty.write (NewStateFile "/srv/mc").pidPath "4242\n") = .ok 4242 := by
  have hne := NewStateFile_paths_ne "/srv/mc"
  refine ⟨?_, ?_, ?_, by decide⟩
  · simp [FS.write, FS.empty, hne.symm]
  · simp [Load, utils.PathExists, stateCodec.unmarshal_marshal]
  · simp [FS.write, FS.empty, hne]

/-- C16, amended.  `Load` returns the not-found error whenever state.json is
absent and `ReadPID` returns the not-found error whenever the PID file is
absent; each reads its own file only, so the absence of the other file does
not change its result. -/
theorem not_found_of_own_file_absent (S : Codec State String) (serverDir : String)
    (readFails : Bool) (fs : FS String) :
    ((fs (NewStateFile serverDir).statePath = none →
        (NewStateFile serverDir).Load S readFails fs = .error .stateNotFound) ∧
      (fs (NewStateFile serverDir).pidPath = none →
        (NewStateFile serverDir).ReadPID readFails fs = .error .pidNotFound)) ∧
    (NewStateFile serverDir).Load S readFails (fs.remove (NewStateFile serverDir).pidPath)
      = (NewStateFile serverDir).Load S readFails fs ∧
    (NewStateFile serverDir).ReadPID readFails (fs.remove (NewStateFile serverDir).statePath)
      = (NewStateFile serverDir).ReadPID readFails fs := by
  have hne := NewStateFile_paths_ne serverDir
  refine ⟨⟨Load_of_absent S _ readFails fs, ReadPID_of_absent _ readFails fs⟩, ?_, ?_⟩
  · exact Load_congr S _ readFails _ _ (FS.remove_other _ _ _ hne)
  · exact ReadPID_congr _ readFails _ _ (FS.remove_other _ _ _ hne.symm)

/-- C16, amended, at a concrete input: the empty server directory
`/srv/mc`. -/
theorem not_found_of_own_file_absent_witness :
    ((FS.empty : FS String) (NewStateFile "/srv/mc").statePath = none ∧
      (FS.empty : FS String) (NewStateFile "/srv/mc").pidPath = none) ∧
    (NewStateFile "/srv/mc").Load stateCodec false FS.empty = .error .stateNotFound ∧
    (NewStateFile "/srv/mc").ReadPID false FS.empty = .error .pidNotFound :=
  ⟨⟨rfl, rfl⟩,
    (not_found_of_own_file_absent stateCodec "/srv/mc" false FS.empty).1.1 rfl,
    (not_found_of_own_file_absent stateCodec "/srv/mc" false FS.empty).1.2 rfl⟩

/-- C17.  After a `Save` of a state `s` that returns without error, whatever
the server directory held before, state.json and the PID file both exist,
`ReadPID` returns the PID of `s` and `Load` returns `s`, so a state with the
PID and the status of `s`.  The PID is any value of a Go `int`, the status any
string. -/
theorem Save_then_read (S : Codec State String) (serverDir : String) (env : SaveEnv)
    (fs : FS String) (s : State) (hpid : fmt.isInt64 s.PID)
    (hok : ((NewStateFile serverDir).Save S env fs s).1 = none) :
    utils.PathExists ((NewStateFile serverDir).Save S env fs s).2
      (NewStateFile serverDir).statePath = true ∧
    utils.PathExists ((NewStateFile serverDir).Save S env fs s).2
      (NewStateFile serverDir).pidPath = true ∧
    (NewStateFile serverDir).ReadPID false ((NewStateFile serverDir).Save S env fs s).2
      = .ok s.PID ∧
    (NewStateFile serverDir).Load S false ((NewStateFile serverDir).Save S env fs s).2
      = .ok s ∧
    ∃ loaded, (NewStateFile serverDir).Load S false
        ((NewStateFile serverDir).Save S env fs s).2 = .ok loaded ∧
      loaded.PID = s.PID ∧ loaded.Status = s.Status := by
  obtain ⟨hread, hload⟩ := read_after_Save S serverDir env fs s hpid hok
  refine ⟨?_, ?_, hread, hload, s, hload, rfl, rfl⟩
  · rw [Save_ok S _ env fs s hok]
    simp [utils.PathExists, FS.write_other _ _ _ _ (NewStateFile_paths_ne serverDir)]
  · rw [Save_ok S _ env fs s hok]
    simp [utils.PathExists]

/-- C17 at a concrete input: the state of process -7 with the status
`crashed`, saved into the empty server directory `/srv/mc`. -/
theorem Save_then_read_witness :
    (fmt.isInt64 (-7) ∧
      ((NewStateFile "/srv/mc").Save stateCodec ⟨false, .ok, .ok⟩ FS.empty
        ⟨-7, 1704067200000000000, "crashed"⟩).1 = none) ∧
    (NewStateFile "/srv/mc").ReadPID false
      ((NewStateFile "/srv/mc").Save stateCodec ⟨false, .ok, .ok⟩ FS.empty
        ⟨-7, 1704067200000000000, "crashed"⟩).2 = .ok (-7) ∧
    (NewStateFile "/srv/mc").Load stateCodec false
      ((NewStateFile "/srv/mc").Save stateCodec ⟨false, .ok, .ok⟩ FS.empty
        ⟨-7, 1704067200000000000, "crashed"⟩).2
      = .ok ⟨-7, 1704067200000000000, "crashed"⟩ :=
  ⟨⟨by decide, Save_healthy _ _ _ _⟩,
    (Save_then_read stateCodec "/srv/mc" ⟨false, .ok, .ok⟩ FS.empty
      ⟨-7, 1704067200000000000, "crashed"⟩ (by decide) (Save_healthy _ _ _ _)).2.2.1,
    (Save_then_read stateCodec "/srv/mc" ⟨false, .ok, .ok⟩ FS.empty
      ⟨-7, 1704067200000000000, "crashed"⟩ (by decide) (Save_healthy _ _ _ _)).2.2.2.1⟩

/-- What `Clear` leaves when the files can be removed: neither file, and
every other file as it was. -/
theorem Clear_removes (serverDir : String) (fs : FS String) :
    ((NewStateFile serverDir).Clear ⟨false, false⟩ fs).1 = none ∧
    ((NewStateFile serverDir).Clear ⟨false, false⟩ fs).2 (NewStateFile serverDir).statePath
      = none ∧
    ((NewStateFile serverDir).Clear ⟨false, false⟩ fs).2 (NewStateFile serverDir).pidPath
      = none ∧
    ∀ p, p ≠ (NewStateFile serverDir).statePath → p ≠ (NewStateFile serverDir).pidPath →
      ((NewStateFile serverDir).Clear ⟨false, false⟩ fs).2 p = fs p := by
  have hne := NewStateFile_paths_ne serverDir
  unfold Clear
  cases h1 : fs (NewStateFile serverDir).statePath <;>
    cases h2 : fs (NewStateFile serverDir).pidPath <;>
    simp [utils.PathExists, h1, h2, FS.remove_other, hne, hne.symm] <;>
    intro p hp1 hp2 <;> simp [FS.remove_other, hp1, hp2]

/-- On a directory without the state files `Clear` does nothing and returns
no error, whatever the host answers. -/
theorem Clear_of_absent (s : StateFile) (env : ClearEnv) (fs : FS String)
    (h1 : fs s.statePath = none) (h2 : fs s.pidPath = none) : s.Clear env fs = (none, fs) := by
  simp [Clear, utils.PathExists, h1, h2]

/-- C18.  Whatever files the server directory holds, so for each of the
four combinations of state.json and the PID file being present or absent,
when removing an existing file succeeds `Clear` returns no error and
afterwards neither file exists, so `ReadPID` and `Load` fail with their
not-found errors; a second `Clear` changes nothing and returns no error. -/
theorem Clear_idempotent (S : Codec State String) (serverDir : String) (fs : FS String)
    (readFails : Bool) (env2 : ClearEnv) :
    ((NewStateFile serverDir).Clear ⟨false, false⟩ fs).1 = none ∧
    utils.PathExists ((NewStateFile serverDir).Clear ⟨false, false⟩ fs).2
      (NewStateFile serverDir).statePath = false ∧
    utils.PathExists ((NewStateFile serverDir).Clear ⟨false, false⟩ fs).2
      (NewStateFile serverDir).pidPath = false ∧
    (NewStateFile serverDir).ReadPID readFails
      ((NewStateFile serverDir).Clear ⟨false, false⟩ fs).2 = .error .pidNotFound ∧
    (NewStateFile serverDir).Load S readFails
      ((NewStateFile serverDir).Clear ⟨false, false⟩ fs).2 = .error .stateNotFound ∧
    (NewStateFile serverDir).Clear env2 ((NewStateFile serverDir).Clear ⟨false, false⟩ fs).2
      = (none, ((NewStateFile serverDir).Clear ⟨false, false⟩ fs).2) := by
  obtain ⟨herr, hs, hp, _⟩ := Clear_removes serverDir fs
  exact ⟨herr, by simp [utils.PathExists, hs], by simp [utils.PathExists, hp],
    ReadPID_of_absent _ readFails _ hp, Load_of_absent S _ readFails _ hs,
    Clear_of_absent _ env2 _ hs hp⟩

end StateFile

end Mcinit

namespace Mcinit

/-! ## Claims C11 and C19: what the manager starts -/

namespace Manager

/-- C11.  Whenever the configuration in use, the one the manager holds or
else the one loaded from the server directory, names a jar whose path, the
server directory joined with the configured jar path, is not a file on disk,
`Manager.Start` returns an error, and when the server is not running and the
Java path and the JVM arguments are resolved the error is the jar-not-found
error for that path.  Nothing is launched and no file, so no process state,
is created or changed: the host is left as it was, and the process of the
manager too, since `Process.Start` is not called. -/
theorem Start_jar_missing (S : Codec State String) (m : Manager) (env : ManagerEnv)
    (w : World) (background : Bool) (extraArgs : String) (cfg : Config)
    (hcfg : m.config = some cfg ∨ (m.config = none ∧ env.loadConfig = some cfg))
    (hjar : utils.PathExists w.fs (filepath.Join [m.serverDir, cfg.Server.JarPath]) = false) :
    (m.Start S env w background extraArgs).err ≠ none ∧
    (m.Start S env w background extraArgs).world = w ∧
    (m.Start S env w background extraArgs).mgr.process = m.process ∧
    (m.IsRunning env.readPidFails w = false →
      ∀ javaPath jvmArgs, resolveJavaPath cfg env.found = .ok javaPath →
        buildJVMArgs cfg extraArgs = .ok jvmArgs →
        (m.Start S env w background extraArgs).err
          = some (.jarNotFound (filepath.Join [m.serverDir, cfg.Server.JarPath]))) := by
  have hloaded : (match m.config with
      | some cfg => some cfg
      | none => env.loadConfig) = some cfg := by
    rcases hcfg with h | ⟨h, h2⟩
    · simp [h]
    · simp [h, h2]
  unfold Start
  simp only [hloaded, IsRunning]
  cases hrun : m.process.IsRunning env.readPidFails w
  · cases hjava : resolveJavaPath cfg env.found with
    | error e => simp
    | ok javaPath =>
      cases hargs : buildJVMArgs cfg extraArgs with
      | error e => simp
      | ok jvmArgs => simp [hjar]
  · simp

/-- C11 at a concrete input: the server directory `/srv/mc` is empty, so
`/srv/mc/server.jar` is missing. -/
theorem Start_jar_missing_witness :
    (({ NewManager "/srv/mc" with config := some scenarioConfig } : Manager).config
        = some scenarioConfig ∧
      utils.PathExists idleWorld.fs (filepath.Join ["/srv/mc", scenarioConfig.Server.JarPath])
        = false) ∧
    (({ NewManager "/srv/mc" with config := some scenarioConfig } : Manager).Start stateCodec
        ⟨none, false, [], StartEnv.healthy 4242⟩ idleWorld true "").err
      = some (.jarNotFound "/srv/mc/server.jar") ∧
    (({ NewManager "/srv/mc" with config := some scenarioConfig } : Manager).Start stateCodec
        ⟨none, false, [], StartEnv.healthy 4242⟩ idleWorld true "").world = idleWorld :=
  ⟨⟨rfl, by decide⟩,
    ((Start_jar_missing stateCodec { NewManager "/srv/mc" with config := some scenarioConfig }
      ⟨none, false, [], StartEnv.healthy 4242⟩ idleWorld true "" scenarioConfig
      (Or.inl rfl) (by decide)).2.2.2 (by decide) "/usr/bin/java" (jvmflags.Minimal "2G" "4G")
        (by decide) (by decide)).trans (by decide),
    (Start_jar_missing stateCodec { NewManager "/srv/mc" with config := some scenarioConfig }
      ⟨none, false, [], StartEnv.healthy 4242⟩ idleWorld true "" scenarioConfig
      (Or.inl rfl) (by decide)).2.1⟩

end Manager

namespace Process

/-- C19.  For every Java path, jar path and list of JVM arguments: when the
three pipes can be opened and the operating system starts the child,
`Process.Start` launches exactly one command, the executable `javaPath` with
the arguments `jvmArgs` in their order followed by `-jar`, the jar path and
`nogui`, in the server directory as working directory, whatever the mode and
whatever happens to the state afterwards.  When a pipe cannot be opened or
the child cannot be started, nothing is launched. -/
theorem Start_command_line (S : Codec State String) (p : Process) (env : StartEnv) (w : World)
    (javaPath jarPath : String) (jvmArgs : List String) (background : Bool) :
    (env.stdinPipeFails = false → env.stdoutPipeFails = false → env.stderrPipeFails = false →
      ∀ pid, env.start = some pid →
        (p.Start S env w javaPath jarPath jvmArgs background).world.launched
          = w.launched ++
            [⟨javaPath, jvmArgs ++ ["-jar", jarPath, "nogui"], p.serverDir, true, pid⟩]) ∧
    ((env.stdinPipeFails = true ∨ env.stdoutPipeFails = true ∨ env.stderrPipeFails = true ∨
        env.start = none) →
      (p.Start S env w javaPath jarPath jvmArgs background).world.launched = w.launched) := by
  refine ⟨?_, ?_⟩
  · intro h1 h2 h3 pid hstart
    unfold Start
    simp only [h1, h2, h3, hstart]
    cases hs : (p.stateFile.Save S env.save w.fs ⟨pid, env.now, "running"⟩).1 <;>
      cases background <;> cases hw : env.waitFails <;> simp [hs, hw]
  · intro h
    unfold Start
    cases h1 : env.stdinPipeFails
    · cases h2 : env.stdoutPipeFails
      · cases h3 : env.stderrPipeFails
        · cases h4 : env.start with
          | none => simp
          | some pid => simp [h1, h2, h3, h4] at h
        · simp
      · simp
    · simp

/-- C19 at a concrete input: a server started in the background on a
healthy host with two JVM arguments. -/
theorem Start_command_line_witness :
    ((StartEnv.healthy 4242).stdinPipeFails = false ∧
      (StartEnv.healthy 4242).stdoutPipeFails = false ∧
      (StartEnv.healthy 4242).stderrPipeFails = false ∧
      (StartEnv.healthy 4242).start = some 4242) ∧
    ((NewProcess "/srv/mc").Start stateCodec (StartEnv.healthy 4242) idleWorld
        "/usr/bin/java" "/srv/mc/server.jar" ["-Xms2G", "-Xmx4G"] true).world.launched
      = [⟨"/usr/bin/java", ["-Xms2G", "-Xmx4G", "-jar", "/srv/mc/server.jar", "nogui"],
          "/srv/mc", true, 4242⟩] :=
  ⟨⟨rfl, rfl, rfl, rfl⟩,
    (Start_command_line stateCodec (NewProcess "/srv/mc") (StartEnv.healthy 4242) idleWorld
      "/usr/bin/java" "/srv/mc/server.jar" ["-Xms2G", "-Xmx4G"] true).1 rfl rfl rfl 4242 rfl⟩

end Process

end Mcinit

namespace Mcinit

/-! ## Claims C12 to C15: stopping and restarting -/

theorem exitedBy_mono (exitsAfter : Option Nat) (t t2 : Nat) (h : t ≤ t2)
    (hexit : exitedBy exitsAfter t = true) : exitedBy exitsAfter t2 = true := by
  cases exitsAfter with
  | none => simp [exitedBy] at hexit
  | some d =>
    simp only [exitedBy, decide_eq_true_eq] at hexit ⊢
    omega

/-- After the discarded `Clear` neither state file is left, so the server
does not count as running. -/
theorem World.cleared_spec (w : World) (serverDir : String) :
    (w.cleared (NewStateFile serverDir)).fs (NewStateFile serverDir).statePath = none ∧
    (w.cleared (NewStateFile serverDir)).fs (NewStateFile serverDir).pidPath = none ∧
    (w.cleared (NewStateFile serverDir)).alive = w.alive ∧
    (w.cleared (NewStateFile serverDir)).launched = w.launched := by
  obtain ⟨_, hs, hp, _⟩ := StateFile.Clear_removes serverDir w.fs
  exact ⟨hs, hp, rfl, rfl⟩

namespace Process

theorem IsRunning_of_no_pid_file (p : Process) (readFails : Bool) (w : World)
    (h : w.fs p.stateFile.pidPath = none) : p.IsRunning readFails w = false := by
  simp [IsRunning, StateFile.ReadPID_of_absent _ readFails _ h]

/-- A process that has not exited when the timeout expires is not seen gone
by any probe: `gracefulStop` delivers the terminate signal and times out
after `gracefulTimeout`, leaving the host as it was. -/
theorem gracefulStop_timeout (p : Process) (env : StopEnv) (w : World) (pid : Int)
    (halive : w.alive pid = true) (hstay : exitedBy env.exitsAfter gracefulTimeout = false) :
    (p.gracefulStop env w pid).err = some .timedOut ∧
    (p.gracefulStop env w pid).world = w ∧
    (p.gracefulStop env w pid).signals = [(pid, Signal.SIGTERM)] ∧
    (p.gracefulStop env w pid).elapsed = gracefulTimeout := by
  have hfind : (List.range ((gracefulTimeout - 1) / pollInterval)).find?
      (fun i => exitedBy env.exitsAfter (pollInterval * (i + 1))) = none := by
    rw [List.find?_eq_none]
    intro i hi
    rw [List.mem_range] at hi
    intro hex
    have hle : pollInterval * (i + 1) ≤ gracefulTimeout := by
      simp only [gracefulTimeout, pollInterval] at hi ⊢
      omega
    rw [exitedBy_mono _ _ _ hle hex] at hstay
    exact Bool.noConfusion hstay
  unfold gracefulStop
  simp [halive, hfind, hstay]

/-- C12, refuted as stated.  In `/srv/mc` the state files name process
4242, which is not alive.  `Process.Stop`, forced or not, fails with the
error of the refused kill signal (`failed to kill process`), not with the
not-running error it returns on an empty server directory. -/
theorem Stop_dead_pid_gives_kill_error :
    (NewProcess "/srv/mc").stateFile.ReadPID false (staleWorld "/srv/mc" 4242).fs = .ok 4242 ∧
    (staleWorld "/srv/mc" 4242).alive 4242 = false ∧
    ((NewProcess "/srv/mc").Stop StopEnv.prompt (staleWorld "/srv/mc" 4242) true).err
      = some .killProcess ∧
    ((NewProcess "/srv/mc").Stop StopEnv.prompt (staleWorld "/srv/mc" 4242) false).err
      = some .killProcess ∧
    ((NewProcess "/srv/mc").Stop StopEnv.prompt idleWorld true).err = some .notRunning ∧
    ((NewProcess "/srv/mc").Stop StopEnv.prompt idleWorld false).err = some .notRunning := by
  decide

/-- C12, amended.  For either value of `force`: when the PID file is absent
`Process.Stop` returns the not-running error, and when the stored PID is not
the PID of a live process it returns the error of the refused kill signal;
in both cases no signal is delivered, no time is waited and the host, so
the state store, is unchanged.  The stop command `runStop` returns its
not-running error in both cases, since it asks `IsRunning` first, and then
does not call `Stop`. -/
theorem Stop_without_live_process (p : Process) (env : StopEnv) (w : World) (force : Bool) :
    (utils.PathExists w.fs p.stateFile.pidPath = false →
      (p.Stop env w force).err = some .notRunning ∧ (p.Stop env w force).signals = [] ∧
        (p.Stop env w force).world = w ∧ (p.Stop env w force).elapsed = 0) ∧
    (∀ pid, p.stateFile.ReadPID env.readPidFails w.fs = .ok pid → w.alive pid = false →
      env.findProcessFails = false →
      (p.Stop env w force).err = some .killProcess ∧ (p.Stop env w force).signals = [] ∧
        (p.Stop env w force).world = w ∧ (p.Stop env w force).elapsed = 0) ∧
    (∀ (m : Manager) (readPidFails : Bool), m.process = p →
      m.IsRunning readPidFails w = false →
      (cli.runStop m readPidFails env w force).err = some .notRunning ∧
        (cli.runStop m readPidFails env w force).signals = [] ∧
        (cli.runStop m readPidFails env w force).world = w) := by
  refine ⟨?_, ?_, ?_⟩
  · intro h
    have hread : p.stateFile.ReadPID env.readPidFails w.fs = .error .pidNotFound := by
      simp [StateFile.ReadPID, h]
    simp [Stop, hread]
  · intro pid hread halive hfind
    cases force <;> simp [Stop, hread, hfind, kill, gracefulStop, halive]
  · intro m readPidFails _ hrun
    simp [cli.runStop, hrun]

/-- C12, amended, at concrete inputs: the empty server directory `/srv/mc`,
and the directory whose state files name the dead process 4242. -/
theorem Stop_without_live_process_witness :
    (utils.PathExists idleWorld.fs (NewProcess "/srv/mc").stateFile.pidPath = false ∧
      ((NewProcess "/srv/mc").Stop StopEnv.prompt idleWorld false).err = some .notRunning) ∧
    (((NewProcess "/srv/mc").stateFile.ReadPID StopEnv.prompt.readPidFails
          (staleWorld "/srv/mc" 4242).fs = .ok 4242 ∧
        (staleWorld "/srv/mc" 4242).alive 4242 = false ∧
        StopEnv.prompt.findProcessFails = false) ∧
      ((NewProcess "/srv/mc").Stop StopEnv.prompt (staleWorld "/srv/mc" 4242) false).err
        = some .killProcess ∧
      ((NewProcess "/srv/mc").Stop StopEnv.prompt (staleWorld "/srv/mc" 4242) false).world
        = staleWorld "/srv/mc" 4242) ∧
    ((NewManager "/srv/mc").IsRunning false (staleWorld "/srv/mc" 4242) = false ∧
      (cli.runStop (NewManager "/srv/mc") false StopEnv.prompt (staleWorld "/srv/mc" 4242)
        false).err = some .notRunning) :=
  ⟨⟨by decide,
      ((Stop_without_live_process (NewProcess "/srv/mc") StopEnv.prompt idleWorld false).1
        (by decide)).1⟩,
    ⟨⟨by decide, rfl, rfl⟩,
      ((Stop_without_live_process (NewProcess "/srv/mc") StopEnv.prompt
        (staleWorld "/srv/mc" 4242) false).2.1 4242 (by decide) rfl rfl).1,
      ((Stop_without_live_process (NewProcess "/srv/mc") StopEnv.prompt
        (staleWorld "/srv/mc" 4242) false).2.1 4242 (by decide) rfl rfl).2.2.1⟩,
    ⟨by decide,
      ((Stop_without_live_process (NewProcess "/srv/mc") StopEnv.prompt
        (staleWorld "/srv/mc" 4242) false).2.2 (NewManager "/srv/mc") false rfl
        (by decide)).1⟩⟩

/-- C13, refuted as stated.  The server of `/srv/mc` runs as process 4242
and never exits on the terminate signal.  The graceful `Stop` escalates and
returns without error, but only 31000 ms after it began: later than the
timeout plus one poll interval, which is 30500 ms. -/
theorem Stop_escalation_exceeds_poll_bound :
    (runningWorld "/srv/mc" 4242).alive 4242 = true ∧
    exitedBy StopEnv.stubborn.exitsAfter gracefulTimeout = false ∧
    ((NewProcess "/srv/mc").Stop StopEnv.stubborn (runningWorld "/srv/mc" 4242) false).err
      = none ∧
    ((NewProcess "/srv/mc").Stop StopEnv.stubborn (runningWorld "/srv/mc" 4242) false).signals
      = [(4242, Signal.SIGTERM), (4242, Signal.SIGKILL)] ∧
    ((NewProcess "/srv/mc").Stop StopEnv.stubborn (runningWorld "/srv/mc" 4242) false).elapsed
      = 31000 ∧
    ¬ ((NewProcess "/srv/mc").Stop StopEnv.stubborn (runningWorld "/srv/mc" 4242) false).elapsed
      ≤ gracefulTimeout + pollInterval := by
  decide

/-- C13, amended.  For a graceful `Stop` of a live process that has not
exited when the 30-second timeout expires: `gracefulStop` delivers the
terminate signal and times out after exactly the timeout, `Stop` then
delivers the kill signal and returns without error after the one-second wait
of the hard kill, so after the timeout plus one second; then the process is
gone, neither state file is left and `IsRunning` returns false. -/
theorem Stop_escalates_after_timeout (serverDir : String) (env : StopEnv) (w : World)
    (pid : Int)
    (hread : (NewProcess serverDir).stateFile.ReadPID env.readPidFails w.fs = .ok pid)
    (hfound : env.findProcessFails = false) (halive : w.alive pid = true)
    (hstay : exitedBy env.exitsAfter gracefulTimeout = false) :
    ((NewProcess serverDir).gracefulStop env w pid).err = some .timedOut ∧
    ((NewProcess serverDir).gracefulStop env w pid).elapsed = gracefulTimeout ∧
    ((NewProcess serverDir).Stop env w false).err = none ∧
    ((NewProcess serverDir).Stop env w false).signals
      = [(pid, Signal.SIGTERM), (pid, Signal.SIGKILL)] ∧
    ((NewProcess serverDir).Stop env w false).elapsed = gracefulTimeout + killWait ∧
    ((NewProcess serverDir).Stop env w false).world.alive pid = false ∧
    ((NewProcess serverDir).Stop env w false).world.fs (NewStateFile serverDir).statePath
      = none ∧
    ((NewProcess serverDir).Stop env w false).world.fs (NewStateFile serverDir).pidPath
      = none ∧
    ∀ readFails,
      (NewProcess serverDir).IsRunning readFails ((NewProcess serverDir).Stop env w false).world
        = false := by
  obtain ⟨hg1, hg2, hg3, hg4⟩ := gracefulStop_timeout (NewProcess serverDir) env w pid halive hstay
  have hstop : (NewProcess serverDir).Stop env w false
      = ⟨none, (w.exit pid).cleared (NewStateFile serverDir),
          [(pid, Signal.SIGTERM), (pid, Signal.SIGKILL)], gracefulTimeout + killWait⟩ := by
    unfold Stop
    simp only [hread, hfound, hg1, hg2, hg3, hg4]
    simp [kill, halive, NewProcess]
  obtain ⟨hs, hp, ha, _⟩ := World.cleared_spec (w.exit pid) serverDir
  rw [hstop]
  refine ⟨hg1, hg4, rfl, rfl, rfl, ?_, hs, hp, ?_⟩
  · show ((w.exit pid).cleared (NewStateFile serverDir)).alive pid = false
    rw [ha]
    simp [World.exit]
  · intro readFails
    exact IsRunning_of_no_pid_file _ readFails _ hp

/-- C13, amended, at a concrete input: the server of `/srv/mc` runs as
process 4242 and never exits on the terminate signal. -/
theorem Stop_escalates_after_timeout_witness :
    ((NewProcess "/srv/mc").stateFile.ReadPID StopEnv.stubborn.readPidFails
        (runningWorld "/srv/mc" 4242).fs = .ok 4242 ∧
      StopEnv.stubborn.findProcessFails = false ∧
      (runningWorld "/srv/mc" 4242).alive 4242 = true ∧
      exitedBy StopEnv.stubborn.exitsAfter gracefulTimeout = false) ∧
    ((NewProcess "/srv/mc").Stop StopEnv.stubborn (runningWorld "/srv/mc" 4242) false).err
      = none ∧
    ((NewProcess "/srv/mc").Stop StopEnv.stubborn (runningWorld "/srv/mc" 4242) false).elapsed
      = gracefulTimeout + killWait ∧
    (NewProcess "/srv/mc").IsRunning false
      ((NewProcess "/srv/mc").Stop StopEnv.stubborn (runningWorld "/srv/mc" 4242) false).world
      = false :=
  ⟨⟨by decide, rfl, by decide, rfl⟩,
    (Stop_escalates_after_timeout "/srv/mc" StopEnv.stubborn (runningWorld "/srv/mc" 4242) 4242
      (by decide) rfl (by decide) rfl).2.2.1,
    (Stop_escalates_after_timeout "/srv/mc" StopEnv.stubborn (runningWorld "/srv/mc" 4242) 4242
      (by decide) rfl (by decide) rfl).2.2.2.2.1,
    (Stop_escalates_after_timeout "/srv/mc" StopEnv.stubborn (runningWorld "/srv/mc" 4242) 4242
      (by decide) rfl (by decide) rfl).2.2.2.2.2.2.2.2 false⟩

/-- C14.  For every host on which the state store holds the PID of a live
process: when `Stop` with `force` set returns without error, the only signal
delivered is the kill signal to that process, so no terminate signal was
sent; the process is gone, neither state file is left, and `IsRunning`
returns false. -/
theorem Stop_force (serverDir : String) (env : StopEnv) (w : World) (pid : Int)
    (hread : (NewProcess serverDir).stateFile.ReadPID false w.fs = .ok pid)
    (halive : w.alive pid = true)
    (herr : ((NewProcess serverDir).Stop env w true).err = none) :
    ((NewProcess serverDir).Stop env w true).signals = [(pid, Signal.SIGKILL)] ∧
    (∀ q, (q, Signal.SIGTERM) ∉ ((NewProcess serverDir).Stop env w true).signals) ∧
    ((NewProcess serverDir).Stop env w true).world.alive pid = false ∧
    utils.PathExists ((NewProcess serverDir).Stop env w true).world.fs
      (NewStateFile serverDir).statePath = false ∧
    utils.PathExists ((NewProcess serverDir).Stop env w true).world.fs
      (NewStateFile serverDir).pidPath = false ∧
    ∀ readFails,
      (NewProcess serverDir).IsRunning readFails ((NewProcess serverDir).Stop env w true).world
        = false := by
  have hrf : env.readPidFails = false := by
    cases h : env.readPidFails
    · rfl
    · obtain ⟨e, he⟩ := StateFile.ReadPID_unreadable (NewProcess serverDir).stateFile w.fs
      simp [Stop, h, he] at herr
  rw [← hrf] at hread
  have hfound : env.findProcessFails = false := by
    cases h : env.findProcessFails
    · rfl
    · simp [Stop, hread, h] at herr
  have hstop : (NewProcess serverDir).Stop env w true
      = ⟨none, (w.exit pid).cleared (NewStateFile serverDir), [(pid, Signal.SIGKILL)],
          killWait⟩ := by
    unfold Stop
    simp only [hread, hfound]
    simp [kill, halive, NewProcess]
  obtain ⟨hs, hp, ha, _⟩ := World.cleared_spec (w.exit pid) serverDir
  rw [hstop]
  refine ⟨rfl, ?_, ?_, ?_, ?_, ?_⟩
  · intro q
    simp
  · show ((w.exit pid).cleared (NewStateFile serverDir)).alive pid = false
    rw [ha]
    simp [World.exit]
  · simp [utils.PathExists, hs]
  · simp [utils.PathExists, hp]
  · intro readFails
    exact IsRunning_of_no_pid_file _ readFails _ hp

/-- C14 at a concrete input: the server of `/srv/mc` runs as process
4242. -/
theorem Stop_force_witness :
    ((NewProcess "/srv/mc").stateFile.ReadPID false (runningWorld "/srv/mc" 4242).fs = .ok 4242 ∧
      (runningWorld "/srv/mc" 4242).alive 4242 = true ∧
      ((NewProcess "/srv/mc").Stop StopEnv.prompt (runningWorld "/srv/mc" 4242) true).err
        = none) ∧
    ((NewProcess "/srv/mc").Stop StopEnv.prompt (runningWorld "/srv/mc" 4242) true).signals
      = [(4242, Signal.SIGKILL)] ∧
    (NewProcess "/srv/mc").IsRunning false
      ((NewProcess "/srv/mc").Stop StopEnv.prompt (runningWorld "/srv/mc" 4242) true).world
      = false :=
  ⟨⟨by decide, by decide, by decide⟩,
    (Stop_force "/srv/mc" StopEnv.prompt (runningWorld "/srv/mc" 4242) 4242
      (by decide) (by decide) (by decide)).1,
    (Stop_force "/srv/mc" StopEnv.prompt (runningWorld "/srv/mc" 4242) 4242
      (by decide) (by decide) (by decide)).2.2.2.2.2 false⟩

end Process

namespace Manager

/-- C15, a defect of `Manager.Restart`.  It never sleeps, whatever the
wait.  On the failing input, the running server of `/srv/mc` restarted in
the background with a wait of 5 seconds, it stops the server gracefully and
starts it again at once, whereas `runRestart` of the command line sleeps
5 seconds between the two. -/
theorem Restart_does_not_sleep :
    (∀ (S : Codec State String) (m : Manager) (env : RestartEnv) (w : World)
        (background : Bool) (waitSeconds nanoseconds : Int),
      RestartEvent.sleep nanoseconds ∉ (m.Restart S env w background waitSeconds).trace) ∧
    (NewManager "/srv/mc").IsRunning false (installedWorld "/srv/mc" 4242) = true ∧
    ((NewManager "/srv/mc").Restart stateCodec
        ⟨false, StopEnv.prompt, ⟨some scenarioConfig, false, [], StartEnv.healthy 4343⟩⟩
        (installedWorld "/srv/mc" 4242) true 5).err = none ∧
    ((NewManager "/srv/mc").Restart stateCodec
        ⟨false, StopEnv.prompt, ⟨some scenarioConfig, false, [], StartEnv.healthy 4343⟩⟩
        (installedWorld "/srv/mc" 4242) true 5).trace = [.stop false, .start] ∧
    (cli.runRestart stateCodec (NewManager "/srv/mc")
        ⟨false, StopEnv.prompt, ⟨some scenarioConfig, false, [], StartEnv.healthy 4343⟩⟩
        (installedWorld "/srv/mc" 4242) true 5).trace
      = [.stop false, .sleep 5000000000, .start] := by
  refine ⟨?_, by decide, by decide, by decide, by decide⟩
  intro S m env w background waitSeconds nanoseconds
  unfold Restart
  cases hrun : m.IsRunning env.readPidFails w <;>
    simp only [hrun, Bool.false_eq_true, if_false, if_true] <;>
    split <;> try split
  all_goals simp

end Manager

end Mcinit

namespace Mcinit

/-! ## More on decimal texts -/

namespace provider

theorem formatInt_head (n : Int) :
    ∃ c tl, fmt.formatInt n = c :: tl ∧ (c = '-' ∨ ∃ k, k < 10 ∧ c = Nat.digitChar k) := by
  cases n with
  | ofNat m =>
    obtain ⟨k, tl, hk, hd⟩ := fmt.digits_head m
    exact ⟨_, tl, by simpa [fmt.formatInt] using hd, Or.inr ⟨k, hk, rfl⟩⟩
  | negSucc m => exact ⟨'-', _, rfl, Or.inl rfl⟩

/-- What `%d` prints is never the word `latest`, nor empty. -/
theorem formatInt_ne_latest (n : Int) :
    String.mk (fmt.formatInt n) ≠ "latest" ∧ String.mk (fmt.formatInt n) ≠ "" := by
  obtain ⟨c, tl, h, hc⟩ := formatInt_head n
  rw [h]
  refine ⟨?_, ?_⟩
  · intro heq
    have h2 := congrArg (fun s => s.data.head?) heq
    simp at h2
    rcases hc with hc | ⟨k, hk, hc⟩
    · rw [hc] at h2
      exact absurd h2 (by decide)
    · rw [hc] at h2
      have : ∀ k, k < 10 → Nat.digitChar k ≠ 'l' := by decide
      exact this k hk h2
  · intro heq
    have h2 := congrArg (fun s => s.data) heq
    simp at h2

/-- The decimal text of a Go `int` scans back to it. -/
theorem scan_formatInt (n : Int) (hn : fmt.isInt64 n) :
    fmt.SscanfDecimal (String.mk (fmt.formatInt n)) = some n := by
  have htake : ∀ m : Nat,
      (fmt.digits m).takeWhile (fun c => c.isDigit) = fmt.digits m := by
    intro m
    rw [List.takeWhile_eq_self_iff]
    intro c hc
    obtain ⟨k, hk, rfl⟩ := (fmt.digits_spec m).2.1 c hc
    simp [(fmt.digitChar_facts k hk).1]
  cases n with
  | ofNat m =>
    obtain ⟨k, tl, hk, hd⟩ := fmt.digits_head m
    obtain ⟨hne, _, hval⟩ := fmt.digits_spec m
    have hf := fmt.digitChar_facts k hk
    have h := fmt.scan_unsigned (Nat.digitChar k) tl (fmt.digits m) hf.2.2.2.2.2.1 hf.2.2.2.2.2.2
      hf.2.2.2.1 hf.2.2.2.2.1 (by rw [← hd]; exact htake m) hne (by rw [hval]; exact hn)
    rw [hval] at h
    simpa [fmt.formatInt, hd] using h
  | negSucc m =>
    obtain ⟨hne, _, hval⟩ := fmt.digits_spec (m + 1)
    have h := fmt.scan_negative (fmt.digits (m + 1)) (fmt.digits (m + 1)) (htake (m + 1)) hne
    rw [hval] at h
    have h2 := h (by simpa [Int.negSucc_eq] using hn)
    simpa [fmt.formatInt, Int.negSucc_eq] using h2

end provider

end Mcinit

namespace Mcinit

/-! ## Claims C21 to C24: the providers and their registry -/

namespace provider

/-- The loop of `GetAvailableVersions` computes the ids of the release
entries, in order. -/
theorem release_loop (versions : List VersionEntry) (acc : List String) :
    versions.foldl (fun versions v => if v.Kind = "release" then versions ++ [v.ID] else versions)
        acc
      = acc ++ (versions.filter (fun v => v.Kind = "release")).map (fun v => v.ID) := by
  induction versions generalizing acc with
  | nil => simp
  | cons v vs ih =>
    rw [List.foldl_cons, ih]
    by_cases h : v.Kind = "release" <;> simp [h]

/-- C22.  For every version manifest the upstream delivers (a response with
status 200 whose body unmarshals to the manifest),
`VanillaProvider.GetAvailableVersions` returns the ids of the entries of type
`release`, in the order of the manifest: an id is in the result exactly when
it is the id of a release entry. -/
theorem VanillaProvider.GetAvailableVersions_releases (D : Decoders) (p : VanillaProvider)
    (upstream : String → UpstreamAnswer) (body : String) (manifest : VersionManifest)
    (hanswer : upstream "https://launchermeta.mojang.com/mc/game/version_manifest_v2.json"
      = .response 200 (some body))
    (hbody : D.manifest body = some manifest) :
    p.GetAvailableVersions D upstream
      = .ok ((manifest.Versions.filter (fun v => v.Kind = "release")).map (fun v => v.ID)) ∧
    ∀ id, (∃ versions, p.GetAvailableVersions D upstream = .ok versions ∧ id ∈ versions) ↔
      ∃ v ∈ manifest.Versions, v.Kind = "release" ∧ v.ID = id := by
  have h : p.GetAvailableVersions D upstream
      = .ok ((manifest.Versions.filter (fun v => v.Kind = "release")).map (fun v => v.ID)) := by
    simp [VanillaProvider.GetAvailableVersions, VanillaProvider.fetchVersionManifest, getJSON,
      hanswer, hbody, release_loop]
  refine ⟨h, ?_⟩
  intro id
  rw [h]
  constructor
  · rintro ⟨versions, hv, hid⟩
    cases hv
    simp only [List.mem_map, List.mem_filter, decide_eq_true_eq] at hid
    obtain ⟨v, ⟨hv, hk⟩, hid⟩ := hid
    exact ⟨v, hv, hk, hid⟩
  · rintro ⟨v, hv, hk, hid⟩
    refine ⟨_, rfl, ?_⟩
    simp only [List.mem_map, List.mem_filter]
    exact ⟨v, ⟨hv, by simp [hk]⟩, hid⟩

/-- C22 at a concrete input: a manifest with two snapshots and two
releases. -/
theorem VanillaProvider.GetAvailableVersions_releases_witness :
    (scenarioUpstream "https://launchermeta.mojang.com/mc/game/version_manifest_v2.json"
        = .response 200 (some "manifest") ∧
      scenarioDecoders.manifest "manifest" = some scenarioManifest) ∧
    VanillaProvider.GetAvailableVersions scenarioDecoders ⟨⟨"/cache"⟩⟩ scenarioUpstream
      = .ok ["1.21.4", "1.21.3"] :=
  ⟨⟨by decide, by decide⟩,
    (VanillaProvider.GetAvailableVersions_releases scenarioDecoders ⟨⟨"/cache"⟩⟩
      scenarioUpstream "manifest" scenarioManifest (by decide) (by decide)).1.trans (by decide)⟩

/-- C23.  For every response of the version endpoint with status 200 whose
body unmarshals: when the builds array is not empty, `GetLatestBuild` of the
Paper provider returns what `%d` prints for its last element, a text that
scans back to that element; when the array is empty, as it is when the body
has none, it returns the no-builds error.  Folia, Velocity and Waterfall use
the same method. -/
theorem PaperProvider.GetLatestBuild_last (D : Decoders) (p : PaperProvider)
    (upstream : String → UpstreamAnswer) (version body : String) (versionInfo : PaperVersion)
    (hanswer : upstream
      ("https://api.papermc.io/v2/projects/" ++ p.projectName ++ "/versions/" ++ version)
      = .response 200 (some body))
    (hbody : D.paperVersion body = some versionInfo) :
    (∀ front last, versionInfo.Builds = front ++ [last] →
      (p.GetLatestBuild D upstream version).1 = .ok (String.mk (fmt.formatInt last)) ∧
      (fmt.isInt64 last → fmt.SscanfDecimal (String.mk (fmt.formatInt last)) = some last)) ∧
    (versionInfo.Builds = [] →
      (p.GetLatestBuild D upstream version).1 = .error (.noBuilds version)) ∧
    ∀ prov ∈ [Provider.paper p, Provider.folia p, Provider.velocity p, Provider.waterfall p],
      prov.GetLatestBuild D upstream version = p.GetLatestBuild D upstream version := by
  refine ⟨?_, ?_, ?_⟩
  · intro front last hb
    refine ⟨?_, scan_formatInt last⟩
    simp [PaperProvider.GetLatestBuild, getJSON, hanswer, hbody, hb]
  · intro hb
    simp [PaperProvider.GetLatestBuild, getJSON, hanswer, hbody, hb]
  · intro prov hprov
    simp only [List.mem_cons, List.mem_singleton, List.not_mem_nil, or_false] at hprov
    rcases hprov with h | h | h | h <;> rw [h] <;> rfl

/-- C23 at a concrete input: the version endpoint of Paper 1.21.4 answers
with the builds 495 and 496. -/
theorem PaperProvider.GetLatestBuild_last_witness :
    (scenarioUpstream
        ("https://api.papermc.io/v2/projects/" ++ (NewPaperProvider scenarioCache).projectName ++
          "/versions/" ++ "1.21.4") = .response 200 (some "builds 495 496") ∧
      scenarioDecoders.paperVersion "builds 495 496" = some ⟨[495, 496]⟩) ∧
    ((NewPaperProvider scenarioCache).GetLatestBuild scenarioDecoders scenarioUpstream
      "1.21.4").1 = .ok "496" :=
  ⟨⟨by decide, by decide⟩,
    (((PaperProvider.GetLatestBuild_last scenarioDecoders (NewPaperProvider scenarioCache)
      scenarioUpstream "1.21.4" "builds 495 496" ⟨[495, 496]⟩ (by decide) (by decide)).1
      [495] 496 rfl).1).trans (by decide)⟩

/-- The entries of the registry after `init`. -/
theorem init_providers (c : Cache) :
    (init c).providers
      = [("vanilla", NewVanillaProvider c), ("paper", .paper (NewPaperProvider c)),
          ("purpur", NewPurpurProvider c), ("folia", NewFoliaProvider c),
          ("velocity", NewVelocityProvider c), ("waterfall", NewWaterfallProvider c),
          ("bungee", NewBungeeProvider)] := by
  simp [init, Registry.Register]

/-- C24.  After `init` the registry holds exactly the seven names: every
result of `List` has 7 names, none twice, and they are the seven; `Exists`
is true for exactly these; `Get` of each returns a provider whose `GetName`
is the name; `Get` of any other name returns the not-found error. -/
theorem init_registers_seven (c : Cache) :
    (∀ names, (init c).List names →
      names.length = 7 ∧ names.Nodup ∧
      ∀ name, name ∈ names ↔
        name ∈ ["vanilla", "paper", "purpur", "folia", "velocity", "waterfall", "bungee"]) ∧
    (∀ name, (init c).Exists name = true ↔
      name ∈ ["vanilla", "paper", "purpur", "folia", "velocity", "waterfall", "bungee"]) ∧
    (∀ name ∈ ["vanilla", "paper", "purpur", "folia", "velocity", "waterfall", "bungee"],
      ∃ prov, (init c).Get name = .ok prov ∧ prov.GetName = name) ∧
    (∀ name, name ∉ ["vanilla", "paper", "purpur", "folia", "velocity", "waterfall", "bungee"] →
      (init c).Get name = .error (.notFound name)) := by
  have hnames : (init c).names
      = ["vanilla", "paper", "purpur", "folia", "velocity", "waterfall", "bungee"] := by
    simp [Registry.names, init_providers]
  refine ⟨?_, ?_, ?_, ?_⟩
  · intro names hl
    unfold Registry.List at hl
    rw [hnames] at hl
    refine ⟨by simpa using hl.length_eq, hl.nodup_iff.mpr (by decide), fun name => hl.mem_iff⟩
  · intro name
    simp only [Registry.Exists, init_providers, List.mem_cons, List.mem_singleton,
      List.not_mem_nil, or_false]
    constructor
    · intro h
      by_contra hne
      simp only [not_or] at hne
      obtain ⟨h1, h2, h3, h4, h5, h6, h7⟩ := hne
      simp [List.find?, Ne.symm h1, Ne.symm h2, Ne.symm h3, Ne.symm h4, Ne.symm h5, Ne.symm h6,
        Ne.symm h7] at h
    · intro h
      rcases h with h | h | h | h | h | h | h <;> subst h <;> simp [List.find?]
  · intro name hname
    simp only [List.mem_cons, List.mem_singleton, List.not_mem_nil, or_false] at hname
    rcases hname with h | h | h | h | h | h | h <;> subst h <;>
      simp [Registry.Get, init_providers, List.find?, Provider.GetName, NewVanillaProvider,
        NewPaperProvider, NewPurpurProvider, NewFoliaProvider, NewVelocityProvider,
        NewWaterfallProvider, NewBungeeProvider, VanillaProvider.GetName,
        PaperProvider.GetName, PurpurProvider.GetName]
  · intro name hname
    simp only [List.mem_cons, List.mem_singleton, List.not_mem_nil, or_false, not_or] at hname
    obtain ⟨h1, h2, h3, h4, h5, h6, h7⟩ := hname
    simp [Registry.Get, init_providers, List.find?, Ne.symm h1, Ne.symm h2, Ne.symm h3,
      Ne.symm h4, Ne.symm h5, Ne.symm h6, Ne.symm h7]

/-- C24 at concrete inputs: a listing in another order, the name `folia`
and the name `nonexistent` of the test. -/
theorem init_registers_seven_witness :
    ((init scenarioCache).List
        ["bungee", "waterfall", "velocity", "folia", "purpur", "paper", "vanilla"] ∧
      ("nonexistent" : String)
        ∉ ["vanilla", "paper", "purpur", "folia", "velocity", "waterfall", "bungee"]) ∧
    (["bungee", "waterfall", "velocity", "folia", "purpur", "paper", "vanilla"] :
      List String).length = 7 ∧
    (∃ prov, (init scenarioCache).Get "folia" = .ok prov ∧ prov.GetName = "folia") ∧
    (init scenarioCache).Get "nonexistent" = .error (.notFound "nonexistent") :=
  ⟨⟨by decide, by decide⟩,
    ((init_registers_seven scenarioCache).1 _ (by decide)).1,
    (init_registers_seven scenarioCache).2.2.1 "folia" (by decide),
    (init_registers_seven scenarioCache).2.2.2 "nonexistent" (by decide)⟩

end provider

end Mcinit

namespace Mcinit

namespace provider

theorem getJSON_calls {α : Type} (decode : String → Option α)
    (upstream : String → UpstreamAnswer) (url : String) :
    (getJSON decode upstream url).2 = [] ∨ (getJSON decode upstream url).2 = [.get url] := by
  unfold getJSON
  cases upstream url with
  | invalidRequest => simp
  | transportError => simp
  | response status body =>
    by_cases hs : status = 200
    · cases body with
      | none => simp [hs]
      | some data => cases hdec : decode data <;> simp [hs, hdec]
    · simp [hs]

theorem getJSON_filter {α : Type} (decode : String → Option α)
    (upstream : String → UpstreamAnswer) (url : String) :
    (getJSON decode upstream url).2.filter Call.isLatestBuild = [] ∧
    ∀ u st v b ck alg, Call.fetch u st v b ck alg ∉ (getJSON decode upstream url).2 := by
  rcases getJSON_calls decode upstream url with h | h <;> rw [h] <;>
    simp [Call.isLatestBuild]

/-- What `GetLatestBuild` of the Paper provider does and returns: one call,
at most one GET, and as build what `%d` prints for an integer. -/
theorem PaperProvider.GetLatestBuild_paper_shape (D : Decoders) (p : PaperProvider)
    (upstream : String → UpstreamAnswer) (version : String) :
    (∃ gets, (p.GetLatestBuild D upstream version).2 = .latestBuild version :: gets ∧
      gets.filter Call.isLatestBuild = [] ∧ ∀ u st v b ck alg, Call.fetch u st v b ck alg ∉ gets) ∧
    ∀ build, (p.GetLatestBuild D upstream version).1 = .ok build →
      ∃ n : Int, build = String.mk (fmt.formatInt n) := by
  obtain ⟨hf, hn⟩ := getJSON_filter D.paperVersion upstream
    ("https://api.papermc.io/v2/projects/" ++ p.projectName ++ "/versions/" ++ version)
  refine ⟨⟨_, ?_, hf, hn⟩, ?_⟩
  · unfold PaperProvider.GetLatestBuild
    dsimp only
    split
    · rfl
    · split <;> rfl
  · intro build
    unfold PaperProvider.GetLatestBuild
    dsimp only
    split
    · simp
    · split
      · simp
      · intro hb
        simp only [Except.ok.injEq] at hb
        exact ⟨_, hb.symm⟩

theorem PurpurProvider.GetLatestBuild_purpur_shape (D : Decoders) (p : PurpurProvider)
    (upstream : String → UpstreamAnswer) (version : String) :
    ∃ gets, (p.GetLatestBuild D upstream version).2 = .latestBuild version :: gets ∧
      gets.filter Call.isLatestBuild = [] ∧
      ∀ u st v b ck alg, Call.fetch u st v b ck alg ∉ gets := by
  obtain ⟨hf, hn⟩ := getJSON_filter D.purpurVersion upstream
    ("https://api.purpurmc.org/v2/purpur/" ++ version)
  refine ⟨_, ?_, hf, hn⟩
  unfold PurpurProvider.GetLatestBuild
  dsimp only
  split <;> rfl

/-- In a list of steps made of API calls and one list of calls of the
fetcher, the calls of `GetLatestBuild` and of the fetcher are where they were
put. -/
theorem calls_shape (resolving gets fetches : List Call)
    (h1 : gets.filter Call.isLatestBuild = [])
    (h2 : ∀ u st v b ck alg, Call.fetch u st v b ck alg ∉ gets)
    (h3 : fetches.filter Call.isLatestBuild = [])
    (h4 : ∀ u st v b ck alg, Call.fetch u st v b ck alg ∉ resolving) :
    (resolving ++ gets ++ fetches).filter Call.isLatestBuild
      = resolving.filter Call.isLatestBuild ∧
    ∀ u st v b ck alg, Call.fetch u st v b ck alg ∈ resolving ++ gets ++ fetches →
      Call.fetch u st v b ck alg ∈ fetches := by
  refine ⟨by simp [List.filter_append, h1, h3], ?_⟩
  intro u st v b ck alg hmem
  simp only [List.mem_append] at hmem
  rcases hmem with (h | h) | h
  · exact absurd h (h4 u st v b ck alg)
  · exact absurd h (h2 u st v b ck alg)
  · exact h

/-- `DownloadJar` of the Paper provider with the build `latest` or empty. -/
theorem PaperProvider.DownloadJar_paper_latest (D : Decoders) (J : Codec CacheMetadata Bytes)
    (p : PaperProvider) (upstream : String → UpstreamAnswer) (env : DownloadEnv) (fs : FS Bytes)
    (version build : String) (hb : build = "" ∨ build = "latest") :
    (p.DownloadJar D J upstream env fs version build).calls.filter Call.isLatestBuild
      = [.latestBuild version] ∧
    ∀ u st v b ck alg,
      Call.fetch u st v b ck alg ∈ (p.DownloadJar D J upstream env fs version build).calls →
      st = p.projectName ∧ v = version ∧ (p.GetLatestBuild D upstream version).1 = .ok b ∧
        (∃ n : Int, b = String.mk (fmt.formatInt n)) ∧ b ≠ "latest" ∧ b ≠ "" := by
  obtain ⟨⟨gets, hcalls, hfilter, hnofetch⟩, hbuild⟩ :=
    PaperProvider.GetLatestBuild_paper_shape D p upstream version
  have hres : (Call.latestBuild version :: gets).filter Call.isLatestBuild
      = [.latestBuild version] := by
    simp [List.filter, Call.isLatestBuild, hfilter]
  have hres2 : ∀ u st v b ck alg,
      Call.fetch u st v b ck alg ∉ Call.latestBuild version :: gets := by
    intro u st v b ck alg hmem
    simp only [List.mem_cons] at hmem
    rcases hmem with h | h
    · cases h
    · exact hnofetch u st v b ck alg h
  unfold PaperProvider.DownloadJar
  simp only [hb, if_true]
  split
  · rw [hcalls]
    exact ⟨hres, fun u st v b ck alg hmem => absurd hmem (hres2 u st v b ck alg)⟩
  · next resolved hok =>
    obtain ⟨n, hn⟩ := hbuild resolved hok
    obtain ⟨hf2, hn2⟩ := getJSON_filter D.paperBuild upstream
      ("https://api.papermc.io/v2/projects/" ++ p.projectName ++ "/versions/" ++ version ++
        "/builds/" ++ resolved)
    simp only [PaperProvider.getBuildInfo, hcalls]
    split
    · obtain ⟨k1, k2⟩ := calls_shape (Call.latestBuild version :: gets) _ [] hf2 hn2 rfl hres2
      simp only [List.append_nil] at k1 k2
      refine ⟨k1.trans hres, ?_⟩
      intro u st v b ck alg hmem
      exact absurd (k2 u st v b ck alg hmem) (List.not_mem_nil _)
    · next buildInfo hinfo =>
      obtain ⟨k1, k2⟩ := calls_shape (Call.latestBuild version :: gets) _
        [Call.fetch ("https://api.papermc.io/v2/projects/" ++ p.projectName ++
          "/versions/" ++ version ++ "/builds/" ++ resolved ++ "/downloads/" ++
          buildInfo.Name) p.projectName version resolved buildInfo.SHA256 "sha256"]
        hf2 hn2 rfl hres2
      have key : ∀ u st v b ck alg,
          Call.fetch u st v b ck alg ∈ [Call.fetch ("https://api.papermc.io/v2/projects/" ++
              p.projectName ++ "/versions/" ++ version ++ "/builds/" ++ resolved ++
              "/downloads/" ++ buildInfo.Name) p.projectName version resolved buildInfo.SHA256
              "sha256"] →
            st = p.projectName ∧ v = version ∧
              (p.GetLatestBuild D upstream version).1 = .ok b ∧
              (∃ n : Int, b = String.mk (fmt.formatInt n)) ∧ b ≠ "latest" ∧ b ≠ "" := by
        intro u st v b ck alg hmem
        simp only [List.mem_singleton] at hmem
        cases hmem
        exact ⟨rfl, rfl, hok, ⟨n, hn⟩, by rw [hn]; exact (formatInt_ne_latest n).1,
          by rw [hn]; exact (formatInt_ne_latest n).2⟩
      split <;>
        exact ⟨k1.trans hres, fun u st v b ck alg hmem => key _ _ _ _ _ _ (k2 _ _ _ _ _ _ hmem)⟩

/-- `DownloadJar` of the Purpur provider with the build `latest` or
empty. -/
theorem PurpurProvider.DownloadJar_purpur_latest (D : Decoders) (J : Codec CacheMetadata Bytes)
    (p : PurpurProvider) (upstream : String → UpstreamAnswer) (env : DownloadEnv)
    (fs : FS Bytes) (version build : String) (hb : build = "" ∨ build = "latest") :
    (p.DownloadJar D J upstream env fs version build).calls.filter Call.isLatestBuild
      = [.latestBuild version] ∧
    ∀ u st v b ck alg,
      Call.fetch u st v b ck alg ∈ (p.DownloadJar D J upstream env fs version build).calls →
      st = "purpur" ∧ v = version ∧ (p.GetLatestBuild D upstream version).1 = .ok b := by
  obtain ⟨gets, hcalls, hfilter, hnofetch⟩ :=
    PurpurProvider.GetLatestBuild_purpur_shape D p upstream version
  have hres : (Call.latestBuild version :: gets).filter Call.isLatestBuild
      = [.latestBuild version] := by
    simp [List.filter, Call.isLatestBuild, hfilter]
  have hres2 : ∀ u st v b ck alg,
      Call.fetch u st v b ck alg ∉ Call.latestBuild version :: gets := by
    intro u st v b ck alg hmem
    simp only [List.mem_cons] at hmem
    rcases hmem with h | h
    · cases h
    · exact hnofetch u st v b ck alg h
  unfold PurpurProvider.DownloadJar
  simp only [hb, if_true]
  split
  · rw [hcalls]
    exact ⟨hres, fun u st v b ck alg hmem => absurd hmem (hres2 u st v b ck alg)⟩
  · next resolved hok =>
    simp only [hcalls]
    obtain ⟨k1, k2⟩ := calls_shape (Call.latestBuild version :: gets) []
      [Call.fetch ("https://api.purpurmc.org/v2/purpur/" ++ version ++ "/" ++ resolved ++
        "/download") "purpur" version resolved "" ""]
      rfl (fun _ _ _ _ _ _ h => List.not_mem_nil _ h) rfl hres2
    simp only [List.append_nil] at k1 k2
    have key : ∀ u st v b ck alg,
        Call.fetch u st v b ck alg ∈ [Call.fetch ("https://api.purpurmc.org/v2/purpur/" ++
            version ++ "/" ++ resolved ++ "/download") "purpur" version resolved "" ""] →
          st = "purpur" ∧ v = version ∧ (p.GetLatestBuild D upstream version).1 = .ok b := by
      intro u st v b ck alg hmem
      simp only [List.mem_singleton] at hmem
      cases hmem
      exact ⟨rfl, rfl, hok⟩
    split <;>
      exact ⟨k1.trans hres, fun u st v b ck alg hmem => key _ _ _ _ _ _ (k2 _ _ _ _ _ _ hmem)⟩

/-- The Purpur provider takes the latest build from the response as it
is. -/
theorem PurpurProvider.GetLatestBuild_verbatim (D : Decoders) (p : PurpurProvider)
    (upstream : String → UpstreamAnswer) (version body : String) (result : PurpurVersion)
    (hanswer : upstream ("https://api.purpurmc.org/v2/purpur/" ++ version)
      = .response 200 (some body))
    (hbody : D.purpurVersion body = some result) :
    (p.GetLatestBuild D upstream version).1 = .ok result.Latest := by
  simp [PurpurProvider.GetLatestBuild, getJSON, hanswer, hbody]

/-- `DownloadJar` of the Vanilla provider, for any build. -/
theorem VanillaProvider.DownloadJar_key (D : Decoders) (J : Codec CacheMetadata Bytes)
    (p : VanillaProvider) (upstream : String → UpstreamAnswer) (env : DownloadEnv)
    (fs : FS Bytes) (version build : String) :
    (p.DownloadJar D J upstream env fs version build).calls.filter Call.isLatestBuild = [] ∧
    ∀ u st v b ck alg,
      Call.fetch u st v b ck alg ∈ (p.DownloadJar D J upstream env fs version build).calls →
      st = "vanilla" ∧ v = version ∧ b = "" := by
  obtain ⟨hf1, hn1⟩ := getJSON_filter D.manifest upstream
    "https://launchermeta.mojang.com/mc/game/version_manifest_v2.json"
  unfold VanillaProvider.DownloadJar
  simp only [VanillaProvider.fetchVersionManifest, VanillaProvider.fetchVersionInfo]
  split
  · exact ⟨hf1, fun u st v b ck alg hmem => absurd hmem (hn1 u st v b ck alg)⟩
  · next manifest hm =>
    split
    · exact ⟨hf1, fun u st v b ck alg hmem => absurd hmem (hn1 u st v b ck alg)⟩
    · obtain ⟨hf2, hn2⟩ := getJSON_filter D.versionInfo upstream
        (VanillaProvider.versionURL manifest version)
      have none_here := calls_shape [] (getJSON D.manifest upstream
          "https://launchermeta.mojang.com/mc/game/version_manifest_v2.json").2
        (getJSON D.versionInfo upstream (VanillaProvider.versionURL manifest version)).2
        hf1 hn1 hf2 (fun _ _ _ _ _ _ h => List.not_mem_nil _ h)
      simp only [List.nil_append, List.filter_nil] at none_here
      split
      · exact ⟨none_here.1, fun u st v b ck alg hmem =>
          absurd (none_here.2 _ _ _ _ _ _ hmem) (hn2 u st v b ck alg)⟩
      · next versionInfo hi =>
        split
        · exact ⟨none_here.1, fun u st v b ck alg hmem =>
            absurd (none_here.2 _ _ _ _ _ _ hmem) (hn2 u st v b ck alg)⟩
        · have hfilter : ((getJSON D.manifest upstream
                "https://launchermeta.mojang.com/mc/game/version_manifest_v2.json").2 ++
              (getJSON D.versionInfo upstream (VanillaProvider.versionURL manifest version)).2 ++
              [Call.fetch versionInfo.URL "vanilla" version "" versionInfo.SHA1 "sha1"]).filter
              Call.isLatestBuild = [] := by
            simp [List.filter_append, hf1, hf2, List.filter, Call.isLatestBuild]
          have key : ∀ u st v b ck alg,
              Call.fetch u st v b ck alg ∈ (getJSON D.manifest upstream
                "https://launchermeta.mojang.com/mc/game/version_manifest_v2.json").2 ++
              (getJSON D.versionInfo upstream (VanillaProvider.versionURL manifest version)).2 ++
              [Call.fetch versionInfo.URL "vanilla" version "" versionInfo.SHA1 "sha1"] →
              st = "vanilla" ∧ v = version ∧ b = "" := by
            intro u st v b ck alg hmem
            simp only [List.mem_append, List.mem_singleton] at hmem
            rcases hmem with (h | h) | h
            · exact absurd h (hn1 u st v b ck alg)
            · exact absurd h (hn2 u st v b ck alg)
            · cases h
              exact ⟨rfl, rfl, rfl⟩
          split <;> exact ⟨hfilter, key⟩

/-- C21, refuted as stated.  The version endpoint of Purpur answers for
1.21.5 with the latest build `latest`.  `DownloadJar` of the Purpur provider
with the build `latest` resolves the build once and hands the key
(purpur, 1.21.5, latest) to the fetcher, which stores the jar as
`purpur-1.21.5-latest.jar`. -/
theorem Provider.DownloadJar_purpur_latest_key :
    scenarioDecoders.purpurVersion "latest latest" = some ⟨"latest"⟩ ∧
    ((Provider.purpur ⟨scenarioCache⟩).DownloadJar scenarioDecoders metadataCodec
        scenarioUpstream (DownloadEnv.healthy []) FS.empty "1.21.5" "latest").calls
      = [.latestBuild "1.21.5", .get "https://api.purpurmc.org/v2/purpur/1.21.5",
          .fetch "https://api.purpurmc.org/v2/purpur/1.21.5/latest/download" "purpur" "1.21.5"
            "latest" "" ""] ∧
    ((Provider.purpur ⟨scenarioCache⟩).DownloadJar scenarioDecoders metadataCodec
        scenarioUpstream (DownloadEnv.healthy []) FS.empty "1.21.5" "latest").err = none ∧
    ((Provider.purpur ⟨scenarioCache⟩).DownloadJar scenarioDecoders metadataCodec
        scenarioUpstream (DownloadEnv.healthy []) FS.empty "1.21.5" "latest").localPath
      = "/cache/jars/purpur-1.21.5-latest.jar" := by
  decide

/-- C21, amended.  For `DownloadJar` of every provider called with the
build `latest` or empty.  Paper, Folia, Velocity and Waterfall call
`GetLatestBuild` exactly once, and every key they hand to the fetcher is the
project name, the version and the build that call returned, which is what
`%d` prints for an integer and so never `latest` nor empty.  Purpur calls
`GetLatestBuild` exactly once and hands over (purpur, version, build) with
the build that call returned, which is the text `builds.latest` of the
response as it is.  Vanilla never calls `GetLatestBuild` and hands over
(vanilla, version, empty build).  BungeeCord does nothing. -/
theorem Provider.DownloadJar_latest_key (D : Decoders) (J : Codec CacheMetadata Bytes)
    (upstream : String → UpstreamAnswer) (env : DownloadEnv) (fs : FS Bytes)
    (version build : String) (hb : build = "" ∨ build = "latest") :
    (∀ (p : PaperProvider),
      ∀ prov ∈ [Provider.paper p, Provider.folia p, Provider.velocity p, Provider.waterfall p],
      (prov.DownloadJar D J upstream env fs version build).calls.filter Call.isLatestBuild
        = [.latestBuild version] ∧
      ∀ u st v b ck alg,
        Call.fetch u st v b ck alg ∈ (prov.DownloadJar D J upstream env fs version build).calls →
        st = p.projectName ∧ v = version ∧ (p.GetLatestBuild D upstream version).1 = .ok b ∧
          (∃ n : Int, b = String.mk (fmt.formatInt n)) ∧ b ≠ "latest" ∧ b ≠ "") ∧
    (∀ (p : PurpurProvider),
      ((Provider.purpur p).DownloadJar D J upstream env fs version build).calls.filter
          Call.isLatestBuild = [.latestBuild version] ∧
      (∀ u st v b ck alg,
        Call.fetch u st v b ck alg
          ∈ ((Provider.purpur p).DownloadJar D J upstream env fs version build).calls →
        st = "purpur" ∧ v = version ∧ (p.GetLatestBuild D upstream version).1 = .ok b) ∧
      ∀ body result, upstream ("https://api.purpurmc.org/v2/purpur/" ++ version)
          = .response 200 (some body) → D.purpurVersion body = some result →
        (p.GetLatestBuild D upstream version).1 = .ok result.Latest) ∧
    (∀ (p : VanillaProvider),
      ((Provider.vanilla p).DownloadJar D J upstream env fs version build).calls.filter
          Call.isLatestBuild = [] ∧
      ∀ u st v b ck alg,
        Call.fetch u st v b ck alg
          ∈ ((Provider.vanilla p).DownloadJar D J upstream env fs version build).calls →
        st = "vanilla" ∧ v = version ∧ b = "") ∧
    (Provider.bungee.DownloadJar D J upstream env fs version build).calls = [] := by
  refine ⟨?_, ?_, ?_, rfl⟩
  · intro p prov hprov
    have h := PaperProvider.DownloadJar_paper_latest D J p upstream env fs version build hb
    simp only [List.mem_cons, List.mem_singleton, List.not_mem_nil, or_false] at hprov
    rcases hprov with hp | hp | hp | hp <;> rw [hp] <;> exact h
  · intro p
    have h := PurpurProvider.DownloadJar_purpur_latest D J p upstream env fs version build hb
    exact ⟨h.1, h.2, fun body result ha hd =>
      PurpurProvider.GetLatestBuild_verbatim D p upstream version body result ha hd⟩
  · intro p
    exact VanillaProvider.DownloadJar_key D J p upstream env fs version build

/-- C21, amended, at a concrete input: Paper 1.21.4 with the build
`latest`, whose builds are 495 and 496. -/
theorem Provider.DownloadJar_latest_key_witness :
    (("latest" : String) = "" ∨ ("latest" : String) = "latest") ∧
    ((Provider.paper (NewPaperProvider scenarioCache)).DownloadJar scenarioDecoders
        metadataCodec scenarioUpstream (DownloadEnv.healthy []) FS.empty "1.21.4"
        "latest").calls.filter Call.isLatestBuild = [.latestBuild "1.21.4"] ∧
    Call.fetch
        "https://api.papermc.io/v2/projects/paper/versions/1.21.4/builds/496/downloads/paper-1.21.4-496.jar"
        "paper" "1.21.4" "496" "e3b0" "sha256"
      ∈ ((Provider.paper (NewPaperProvider scenarioCache)).DownloadJar scenarioDecoders
        metadataCodec scenarioUpstream (DownloadEnv.healthy []) FS.empty "1.21.4"
        "latest").calls :=
  ⟨Or.inr rfl,
    ((Provider.DownloadJar_latest_key scenarioDecoders metadataCodec scenarioUpstream
      (DownloadEnv.healthy []) FS.empty "1.21.4" "latest" (Or.inr rfl)).1
      (NewPaperProvider scenarioCache) _ (List.mem_cons_self _ _)).1,
    by decide⟩

end provider

end Mcinit

namespace Mcinit

/-! ## Claims C25 and C30: the layout of the cache -/

namespace filepath

theorem splitSlash_ne_nil (p : List Char) : splitSlash p ≠ [] := by
  cases p with
  | nil => simp [splitSlash]
  | cons c cs =>
    by_cases hc : c = '/'
    · simp [splitSlash, hc]
    · cases h : splitSlash cs <;> simp [splitSlash, hc, h]

/-- A component without separator that is appended becomes the last
component. -/
theorem splitSlash_append_component (p f : List Char) (hf : '/' ∉ f) :
    splitSlash (p ++ '/' :: f) = splitSlash p ++ [f] := by
  induction p with
  | nil => simp [splitSlash, splitSlash_of_no_slash f hf]
  | cons c cs ih =>
    by_cases hc : c = '/'
    · simp [splitSlash, hc, ih]
    · cases h : splitSlash cs with
      | nil => exact absurd h (splitSlash_ne_nil cs)
      | cons d ds => simp [splitSlash, hc, ih, h]

theorem intercalate_snoc (R : List (List Char)) (f : List Char) (hR : R ≠ []) :
    List.intercalate ['/'] (R ++ [f]) = List.intercalate ['/'] R ++ '/' :: f := by
  induction R with
  | nil => exact absurd rfl hR
  | cons r rs ih =>
    cases rs with
    | nil => simp [List.intercalate, List.intersperse]
    | cons r2 rs2 =>
      have h := ih (by simp)
      simp only [List.intercalate, List.cons_append, List.intersperse, List.flatten_cons] at h ⊢
      simp [h]

/-- A clean path other than `/` and `.` stays as it is, and clean, when a
component that is neither empty nor `.` nor `..` is appended. -/
theorem cleanChars_append_component (p f : List Char) (hclean : cleanChars p = p)
    (hroot : p ≠ ['/']) (hdot : p ≠ ['.']) (hf : '/' ∉ f) (h0 : f ≠ []) (h1 : f ≠ ['.'])
    (h2 : f ≠ ['.', '.']) : cleanChars (p ++ '/' :: f) = p ++ '/' :: f := by
  have hp : p ≠ [] := by
    rintro rfl
    simp [cleanChars, splitSlash, cleanStep, List.intercalate] at hclean
  have hhead : (p ++ '/' :: f).head? = p.head? := by
    cases p with
    | nil => exact absurd rfl hp
    | cons c cs => rfl
  have hstep : ∀ rooted stack, cleanStep rooted stack f = f :: stack := by
    intro rooted stack
    simp [cleanStep, h0, h1, h2]
  unfold cleanChars at hclean ⊢
  dsimp only at hclean ⊢
  simp only [hhead, splitSlash_append_component p f hf, List.foldl_append, List.foldl_cons,
    List.foldl_nil, hstep, List.reverse_cons]
  generalize (splitSlash p).foldl (cleanStep (decide (p.head? = some '/'))) []
    = stack at hclean ⊢
  generalize decide (p.head? = some '/') = rooted at hclean ⊢
  have hne : stack.reverse ≠ [] := by
    intro hnil
    rw [hnil] at hclean
    cases rooted with
    | true => exact hroot (by simpa [List.intercalate] using hclean.symm)
    | false => exact hdot (by simpa [List.intercalate] using hclean.symm)
  rw [intercalate_snoc _ f hne]
  cases rooted with
  | true =>
    simp only [if_true] at hclean ⊢
    rw [← List.cons_append, hclean]
  | false =>
    simp only [Bool.false_eq_true, if_false] at hclean ⊢
    by_cases hbody : List.intercalate ['/'] stack.reverse = []
    · rw [if_pos hbody] at hclean
      exact absurd hclean.symm hdot
    · rw [if_neg hbody] at hclean
      rw [if_neg (by simp), hclean]

end filepath

namespace Cache

/-- The file name of a key: what `GetJarPath` joins to the jars
directory. -/
theorem filename_facts (st v b : String) (hst : '/' ∉ st.data) (hv : '/' ∉ v.data)
    (hb : '/' ∉ b.data) :
    '/' ∉ ((if b ≠ "" then st ++ "-" ++ v ++ ("-" ++ b) else st ++ "-" ++ v) ++ ".jar").data ∧
    5 ≤ ((if b ≠ "" then st ++ "-" ++ v ++ ("-" ++ b) else st ++ "-" ++ v) ++ ".jar").data.length
      := by
  by_cases h : b = ""
  · simp [h, hst, hv]
    omega
  · simp [h, hst, hv, hb]
    omega

/-- The path of a key in a cache whose root is a clean path other than `/`
and `.`, when no component of the key has a separator. -/
theorem GetJarPath_eq (c : Cache) (st v b : String)
    (hclean : filepath.Clean c.baseDir = c.baseDir) (hroot : c.baseDir ≠ "/")
    (hdot : c.baseDir ≠ ".") (hst : '/' ∉ st.data) (hv : '/' ∉ v.data) (hb : '/' ∉ b.data) :
    c.GetJarPath st v b
      = c.baseDir ++ "/jars/" ++
        ((if b ≠ "" then st ++ "-" ++ v ++ ("-" ++ b) else st ++ "-" ++ v) ++ ".jar") := by
  unfold GetJarPath
  dsimp only
  obtain ⟨hf, hlen⟩ := filename_facts st v b hst hv hb
  generalize ((if b ≠ "" then st ++ "-" ++ v ++ ("-" ++ b) else st ++ "-" ++ v) ++ ".jar")
    = filename at hf hlen ⊢
  have hc : filepath.cleanChars c.baseDir.data = c.baseDir.data := by
    have := congrArg String.data hclean
    simpa [filepath.Clean] using this
  have hne : c.baseDir ≠ "" := by
    intro h0
    rw [h0] at hclean
    exact absurd hclean (by decide)
  have hr : c.baseDir.data ≠ ['/'] := fun h => hroot (String.ext h)
  have hd : c.baseDir.data ≠ ['.'] := fun h => hdot (String.ext h)
  have hjars := filepath.cleanChars_append_component c.baseDir.data "jars".data hc hr hd
    (by decide) (by decide) (by decide) (by decide)
  have hr2 : c.baseDir.data ++ '/' :: "jars".data ≠ ['/'] := by
    intro h
    have := congrArg List.length h
    simp at this
  have hd2 : c.baseDir.data ++ '/' :: "jars".data ≠ ['.'] := by
    intro h
    have := congrArg List.length h
    simp at this
  have hfile := filepath.cleanChars_append_component (c.baseDir.data ++ '/' :: "jars".data)
    filename.data hjars hr2 hd2 hf
    (by intro h; rw [h] at hlen; simp at hlen)
    (by intro h; rw [h] at hlen; simp at hlen)
    (by intro h; rw [h] at hlen; simp at hlen)
  simp only [filepath.Join, List.dropWhile, hne, decide_False]
  apply String.ext
  simp only [filepath.Clean, String.intercalate, String.intercalate.go, String.data_append]
  simpa using hfile

/-- C25, refuted as stated.  In the cache `/cache` the key with the server
type `paper`, the version `/../../x` and no build does not get the path made
of the root, `/jars/`, the server type, a dash, the version and `.jar`:
`filepath.Join` cleans the path, and the result `/cache/x.jar` is not even in
the jars directory. -/
theorem GetJarPath_cleans_key :
    scenarioCache.GetJarPath "paper" "/../../x" "" = "/cache/x.jar" ∧
    scenarioCache.GetJarPath "paper" "/../../x" ""
      ≠ scenarioCache.baseDir ++ "/jars/" ++ "paper" ++ "-" ++ "/../../x" ++ ".jar" ∧
    scenarioCache.GetMetadataPath "paper" "/../../x" "" = "/cache/x.jar.meta.json" := by
  decide

/-- C25, amended.  For every cache whose root is a clean path other than
`/` and `.`, and every key whose components contain no separator:
`GetJarPath` returns the root, `/jars/`, the server type, a dash, the version
and `.jar` when the build is empty, and with a dash and the build before
`.jar` otherwise.  For every cache and key `GetMetadataPath` returns the
result of `GetJarPath` followed by `.meta.json`.  Both depend on the root and
the key only. -/
theorem GetJarPath_layout (c : Cache) (st v b : String)
    (hclean : filepath.Clean c.baseDir = c.baseDir) (hroot : c.baseDir ≠ "/")
    (hdot : c.baseDir ≠ ".") (hst : '/' ∉ st.data) (hv : '/' ∉ v.data) (hb : '/' ∉ b.data) :
    (b = "" → c.GetJarPath st v b = c.baseDir ++ "/jars/" ++ st ++ "-" ++ v ++ ".jar") ∧
    (b ≠ "" →
      c.GetJarPath st v b = c.baseDir ++ "/jars/" ++ st ++ "-" ++ v ++ "-" ++ b ++ ".jar") ∧
    (∀ (c2 : Cache) (st2 v2 b2 : String),
      c2.GetMetadataPath st2 v2 b2 = c2.GetJarPath st2 v2 b2 ++ ".meta.json") ∧
    ∀ c2 : Cache, c2.baseDir = c.baseDir →
      c2.GetJarPath st v b = c.GetJarPath st v b ∧
        c2.GetMetadataPath st v b = c.GetMetadataPath st v b := by
  have h := GetJarPath_eq c st v b hclean hroot hdot hst hv hb
  refine ⟨?_, ?_, fun _ _ _ _ => rfl, ?_⟩
  · intro h0
    rw [h]
    simp [h0, String.append_assoc]
  · intro h0
    rw [h]
    simp [h0, String.append_assoc]
  · intro c2 hc2
    have : c2 = c := by
      cases c2
      cases c
      simpa using hc2
    rw [this]
    exact ⟨rfl, rfl⟩

/-- C25, amended, at a concrete input: the key of the test,
(paper, 1.21.4, 123), in the cache `/cache`. -/
theorem GetJarPath_layout_witness :
    (filepath.Clean scenarioCache.baseDir = scenarioCache.baseDir ∧
      scenarioCache.baseDir ≠ "/" ∧ scenarioCache.baseDir ≠ "." ∧
      '/' ∉ "paper".data ∧ '/' ∉ "1.21.4".data ∧ '/' ∉ "123".data ∧ ("123" : String) ≠ "") ∧
    scenarioCache.GetJarPath "paper" "1.21.4" "123"
      = scenarioCache.baseDir ++ "/jars/" ++ "paper" ++ "-" ++ "1.21.4" ++ "-" ++ "123" ++ ".jar" :=
  ⟨⟨by decide, by decide, by decide, by decide, by decide, by decide, by decide⟩,
    (GetJarPath_layout scenarioCache "paper" "1.21.4" "123" (by decide) (by decide) (by decide)
      (by decide) (by decide) (by decide)).2.1 (by decide)⟩

/-- Two texts that agree and are cut at the first occurrence of a
character have the same pieces. -/
theorem first_split (a : Char) (l1 l2 r1 r2 : List Char) (h1 : a ∉ l1) (h2 : a ∉ l2)
    (h : l1 ++ a :: r1 = l2 ++ a :: r2) : l1 = l2 ∧ r1 = r2 := by
  induction l1 generalizing l2 with
  | nil =>
    cases l2 with
    | nil => simpa using h
    | cons c cs =>
      simp only [List.nil_append, List.cons_append, List.cons.injEq] at h
      exact absurd (h.1 ▸ List.mem_cons_self _ _) h2
  | cons d ds ih =>
    cases l2 with
    | nil =>
      simp only [List.nil_append, List.cons_append, List.cons.injEq] at h
      exact absurd (h.1 ▸ List.mem_cons_self _ _) h1
    | cons c cs =>
      simp only [List.cons_append, List.cons.injEq] at h
      obtain ⟨e1, e2⟩ := ih cs (fun hm => h1 (List.mem_cons_of_mem _ hm))
        (fun hm => h2 (List.mem_cons_of_mem _ hm)) h.2
      exact ⟨by rw [h.1, e1], e2⟩

/-- Two texts that agree and are cut at the last occurrence of a character
have the same pieces. -/
theorem last_split (a : Char) (l1 l2 r1 r2 : List Char) (h1 : a ∉ r1) (h2 : a ∉ r2)
    (h : l1 ++ a :: r1 = l2 ++ a :: r2) : l1 = l2 ∧ r1 = r2 := by
  have h3 := congrArg List.reverse h
  simp only [List.reverse_append, List.reverse_cons, List.append_assoc, List.singleton_append]
    at h3
  obtain ⟨e1, e2⟩ := first_split a r1.reverse r2.reverse l1.reverse l2.reverse
    (by simpa using h1) (by simpa using h2) h3
  exact ⟨List.reverse_injective e2, List.reverse_injective e1⟩

/-- The characters of the file name of a key. -/
theorem filename_data (st v b : String) :
    ((if b ≠ "" then st ++ "-" ++ v ++ ("-" ++ b) else st ++ "-" ++ v) ++ ".jar").data
      = st.data ++ '-' :: (v.data ++ (if b = "" then [] else '-' :: b.data)) ++
        ['.', 'j', 'a', 'r'] := by
  by_cases h : b = "" <;> simp [h]

/-- The file names of two keys differ when the keys differ and can be read
back from the name: the server types have no dash, and either the versions
have none, or the builds have none and are both empty or both not. -/
theorem filename_injective (st v b st2 v2 b2 : String)
    (hst : '-' ∉ st.data) (hst2 : '-' ∉ st2.data)
    (hrest : ('-' ∉ v.data ∧ '-' ∉ v2.data) ∨
      ('-' ∉ b.data ∧ '-' ∉ b2.data ∧ (b = "" ↔ b2 = "")))
    (h : ((if b ≠ "" then st ++ "-" ++ v ++ ("-" ++ b) else st ++ "-" ++ v) ++ ".jar")
      = ((if b2 ≠ "" then st2 ++ "-" ++ v2 ++ ("-" ++ b2) else st2 ++ "-" ++ v2) ++ ".jar")) :
    st = st2 ∧ v = v2 ∧ b = b2 := by
  have hd := congrArg String.data h
  rw [filename_data, filename_data] at hd
  have hd2 := List.append_cancel_right hd
  obtain ⟨e1, e2⟩ := first_split '-' _ _ _ _ hst hst2 hd2
  have est : st = st2 := String.ext e1
  refine ⟨est, ?_⟩
  rcases hrest with ⟨hv, hv2⟩ | ⟨hb, hb2, hiff⟩
  · by_cases h0 : b = "" <;> by_cases h02 : b2 = ""
    · simp only [h0, h02, if_true, List.append_nil] at e2
      exact ⟨String.ext e2, by rw [h0, h02]⟩
    · simp only [h0, h02, if_true, if_false, List.append_nil] at e2
      exact absurd (e2 ▸ List.mem_append_right _ (List.mem_cons_self _ _)) hv
    · simp only [h0, h02, if_true, if_false, List.append_nil] at e2
      exact absurd (e2.symm ▸ List.mem_append_right _ (List.mem_cons_self _ _)) hv2
    · simp only [h0, h02, if_false] at e2
      obtain ⟨e3, e4⟩ := first_split '-' _ _ _ _ hv hv2 e2
      exact ⟨String.ext e3, String.ext e4⟩
  · by_cases h0 : b = ""
    · have h02 : b2 = "" := hiff.mp h0
      simp only [h0, h02, if_true, List.append_nil] at e2
      exact ⟨String.ext e2, by rw [h0, h02]⟩
    · have h02 : b2 ≠ "" := fun hx => h0 (hiff.mpr hx)
      simp only [h0, h02, if_false] at e2
      obtain ⟨e3, e4⟩ := last_split '-' _ _ _ _ hb hb2 e2
      exact ⟨String.ext e3, String.ext e4⟩

/-- C30, refuted as stated.  In the cache `/cache` the keys
(paper, 1.20-1, no build) and (paper, 1.20, 1) differ and have the same jar
path and the same metadata path. -/
theorem GetJarPath_collision :
    (("paper", "1.20-1", "") : String × String × String) ≠ ("paper", "1.20", "1") ∧
    scenarioCache.GetJarPath "paper" "1.20-1" "" = "/cache/jars/paper-1.20-1.jar" ∧
    scenarioCache.GetJarPath "paper" "1.20" "1" = "/cache/jars/paper-1.20-1.jar" ∧
    scenarioCache.GetMetadataPath "paper" "1.20-1" ""
      = scenarioCache.GetMetadataPath "paper" "1.20" "1" := by
  decide

/-- C30, amended.  For a cache whose root is a clean path other than `/`
and `.` and two keys whose components contain no separator: when the server
types contain no dash and either the versions contain no dash, or the builds
contain no dash and are both empty or both not, keys that differ in a
component have different jar paths and different metadata paths. -/
theorem GetJarPath_injective (c : Cache) (st v b st2 v2 b2 : String)
    (hclean : filepath.Clean c.baseDir = c.baseDir) (hroot : c.baseDir ≠ "/")
    (hdot : c.baseDir ≠ ".")
    (hslash : ∀ s ∈ [st, v, b, st2, v2, b2], '/' ∉ s.data)
    (hst : '-' ∉ st.data) (hst2 : '-' ∉ st2.data)
    (hrest : ('-' ∉ v.data ∧ '-' ∉ v2.data) ∨
      ('-' ∉ b.data ∧ '-' ∉ b2.data ∧ (b = "" ↔ b2 = "")))
    (hkey : st ≠ st2 ∨ v ≠ v2 ∨ b ≠ b2) :
    c.GetJarPath st v b ≠ c.GetJarPath st2 v2 b2 ∧
    c.GetMetadataPath st v b ≠ c.GetMetadataPath st2 v2 b2 := by
  have hjar : c.GetJarPath st v b ≠ c.GetJarPath st2 v2 b2 := by
    intro heq
    rw [GetJarPath_eq c st v b hclean hroot hdot (hslash st (by simp)) (hslash v (by simp))
        (hslash b (by simp)),
      GetJarPath_eq c st2 v2 b2 hclean hroot hdot (hslash st2 (by simp)) (hslash v2 (by simp))
        (hslash b2 (by simp))] at heq
    have hfn : ((if b ≠ "" then st ++ "-" ++ v ++ ("-" ++ b) else st ++ "-" ++ v) ++ ".jar")
        = ((if b2 ≠ "" then st2 ++ "-" ++ v2 ++ ("-" ++ b2) else st2 ++ "-" ++ v2) ++ ".jar")
        := by
      apply String.ext
      have hd := congrArg String.data heq
      simp only [String.data_append] at hd
      simpa using List.append_cancel_left hd
    obtain ⟨e1, e2, e3⟩ := filename_injective st v b st2 v2 b2 hst hst2 hrest hfn
    rcases hkey with hk | hk | hk
    · exact hk e1
    · exact hk e2
    · exact hk e3
  refine ⟨hjar, ?_⟩
  intro heq
  apply hjar
  unfold GetMetadataPath at heq
  apply String.ext
  have hd := congrArg String.data heq
  simp only [String.data_append] at hd
  exact List.append_cancel_right hd

/-- C30, amended, at a concrete input: Paper 1.21.4 with the builds 123 and
124 in the cache `/cache`. -/
theorem GetJarPath_injective_witness :
    (filepath.Clean scenarioCache.baseDir = scenarioCache.baseDir ∧
      scenarioCache.baseDir ≠ "/" ∧ scenarioCache.baseDir ≠ "." ∧
      (∀ s ∈ ["paper", "1.21.4", "123", "paper", "1.21.4", "124"], '/' ∉ s.data) ∧
      '-' ∉ "paper".data ∧ '-' ∉ "1.21.4".data ∧
      (("paper" : String) ≠ "paper" ∨ ("1.21.4" : String) ≠ "1.21.4" ∨
        ("123" : String) ≠ "124")) ∧
    scenarioCache.GetJarPath "paper" "1.21.4" "123"
      ≠ scenarioCache.GetJarPath "paper" "1.21.4" "124" :=
  ⟨⟨by decide, by decide, by decide, by decide, by decide, by decide, by decide⟩,
    (GetJarPath_injective scenarioCache "paper" "1.21.4" "123" "paper" "1.21.4" "124"
      (by decide) (by decide) (by decide) (by decide) (by decide) (by decide)
      (Or.inl ⟨by decide, by decide⟩) (by decide)).1⟩

end Cache

end Mcinit

namespace Mcinit

/-! ## Claims C26 and C29: Java versions -/

namespace Validator

/-- Every version whose first two numbers are 1 and 20 requires Java 17,
whatever follows them. -/
theorem GetRequiredJavaVersion_of_1_20 (mcVersion : String)
    (h : fmt.SscanfDecimalDotDecimal mcVersion = (1, 20)) :
    GetRequiredJavaVersion mcVersion = 17 := by
  unfold GetRequiredJavaVersion
  by_cases h0 : mcVersion.length = 0
  · simp [h0]
  · simp [h0, h]

/-- C26, a defect of `GetRequiredJavaVersion`.  For the versions 1.20.5
and 1.20.6 it returns 17, not 21: only the first two numbers of the version
are read, so all of 1.20 is treated alike.  On the other versions of the
table it returns what the table says. -/
theorem GetRequiredJavaVersion_1_20_5 :
    GetRequiredJavaVersion "1.20.5" = 17 ∧ GetRequiredJavaVersion "1.20.6" = 17 ∧
    fmt.SscanfDecimalDotDecimal "1.20.5" = (1, 20) ∧
    GetRequiredJavaVersion "1.12" = 8 ∧ GetRequiredJavaVersion "1.12.2" = 8 ∧
    GetRequiredJavaVersion "1.16.5" = 8 ∧ GetRequiredJavaVersion "1.17" = 16 ∧
    GetRequiredJavaVersion "1.17.1" = 16 ∧ GetRequiredJavaVersion "1.18" = 17 ∧
    GetRequiredJavaVersion "1.18.2" = 17 ∧ GetRequiredJavaVersion "1.19.4" = 17 ∧
    GetRequiredJavaVersion "1.20.4" = 17 ∧ GetRequiredJavaVersion "1.21" = 21 ∧
    GetRequiredJavaVersion "1.21.4" = 21 ∧ GetRequiredJavaVersion "" = 17 ∧
    GetRequiredJavaVersion "2.0.0" = 17 := by
  decide

end Validator

theorem tripleLt_iff (a b : Int × Int × Int) :
    tripleLt a b ↔ a.1 < b.1 ∨ a.1 = b.1 ∧ (a.2.1 < b.2.1 ∨ a.2.1 = b.2.1 ∧ a.2.2 < b.2.2) := by
  simp [tripleLt, Prod.lex_def]

namespace Detector

/-- The comparison of `FindBest` is the strict lexicographic order of the
version triples. -/
theorem better_iff (inst best : Installation) :
    better inst best = true ↔ tripleLt best.triple inst.triple := by
  rw [tripleLt_iff]
  simp only [better, Installation.triple, Bool.or_eq_true, Bool.and_eq_true, decide_eq_true_eq]
  constructor
  · rintro ((h | ⟨h1, h2⟩) | ⟨⟨h1, h2⟩, h3⟩)
    · exact Or.inl (by omega)
    · exact Or.inr ⟨h1.symm, Or.inl (by omega)⟩
    · exact Or.inr ⟨h1.symm, Or.inr ⟨h2.symm, by omega⟩⟩
  · rintro (h | ⟨h1, h2 | ⟨h2, h3⟩⟩)
    · exact Or.inl (Or.inl (by omega))
    · exact Or.inl (Or.inr ⟨h1.symm, by omega⟩)
    · exact Or.inr ⟨⟨h1.symm, h2.symm⟩, by omega⟩

theorem tripleLt_trans (a b c : Int × Int × Int) (h1 : tripleLt a b) (h2 : tripleLt b c) :
    tripleLt a c := by
  rw [tripleLt_iff] at *
  omega

theorem tripleLt_of_not_lt (a b c : Int × Int × Int) (h1 : ¬ tripleLt a b) (h2 : tripleLt a c) :
    tripleLt b c := by
  rw [tripleLt_iff] at *
  omega

theorem tripleLt_asymm (a b : Int × Int × Int) (h1 : tripleLt a b) : ¬ tripleLt b a := by
  rw [tripleLt_iff] at *
  omega

/-- The loop of `FindBest`: what it holds is the first of the greatest
installations seen. -/
theorem best_loop (rest pre post : List Installation) (best : Installation)
    (hpre : ∀ x ∈ pre, tripleLt x.triple best.triple)
    (hpost : ∀ x ∈ post, ¬ tripleLt best.triple x.triple) :
    ∃ pre2 post2,
      pre ++ best :: post ++ rest
        = pre2 ++ rest.foldl (fun best inst => if better inst best then inst else best) best
          :: post2 ∧
      (∀ x ∈ pre2, tripleLt x.triple
        (rest.foldl (fun best inst => if better inst best then inst else best) best).triple) ∧
      ∀ x ∈ post2, ¬ tripleLt
        (rest.foldl (fun best inst => if better inst best then inst else best) best).triple
        x.triple := by
  induction rest generalizing pre post best with
  | nil => exact ⟨pre, post, by simp, hpre, hpost⟩
  | cons x xs ih =>
    rw [List.foldl_cons]
    by_cases hb : better x best = true
    · have hlt := (better_iff x best).mp hb
      obtain ⟨pre2, post2, h1, h2, h3⟩ := ih (pre ++ best :: post) [] x
        (by
          intro y hy
          simp only [List.mem_append, List.mem_cons] at hy
          rcases hy with hy | hy | hy
          · exact tripleLt_trans _ _ _ (hpre y hy) hlt
          · rw [hy]
            exact hlt
          · exact tripleLt_of_not_lt _ _ _ (hpost y hy) hlt)
        (by simp)
      refine ⟨pre2, post2, ?_, ?_, ?_⟩
      · rw [if_pos hb, ← h1]
        simp
      · rw [if_pos hb]
        exact h2
      · rw [if_pos hb]
        exact h3
    · obtain ⟨pre2, post2, h1, h2, h3⟩ := ih pre (post ++ [x]) best hpre
        (by
          intro y hy
          simp only [List.mem_append, List.mem_singleton] at hy
          rcases hy with hy | hy
          · exact hpost y hy
          · rw [hy]
            exact fun hlt => hb ((better_iff x best).mpr hlt))
      refine ⟨pre2, post2, ?_, ?_, ?_⟩
      · rw [if_neg hb, ← h1]
        simp
      · rw [if_neg hb]
        exact h2
      · rw [if_neg hb]
        exact h3

/-- C29.  `FindBest` fails exactly when no installation is detected.  For
a non-empty list of detected installations it returns an element of the list
such that every installation detected before it has a strictly lower version
triple and no installation detected after it has a strictly higher one, in
the lexicographic order of (Major, Minor, Patch): so no detected installation
has a higher version, and of those with the highest version it is the one
detected first. -/
theorem FindBest_greatest (found : List Installation) :
    ((∃ e, FindBest found = .error e) ↔ found = []) ∧
    (found ≠ [] →
      ∃ best pre post, FindBest found = .ok best ∧ found = pre ++ best :: post ∧
        (∀ x ∈ pre, tripleLt x.triple best.triple) ∧
        (∀ x ∈ post, ¬ tripleLt best.triple x.triple) ∧
        best ∈ found ∧ ∀ x ∈ found, ¬ tripleLt best.triple x.triple) := by
  cases found with
  | nil => simp [FindBest, Detect]
  | cons first rest =>
    obtain ⟨pre, post, h1, h2, h3⟩ := best_loop rest [] [] first (by simp) (by simp)
    have hfind : FindBest (first :: rest)
        = .ok (rest.foldl (fun best inst => if better inst best then inst else best) first) := by
      simp [FindBest, Detect]
    refine ⟨by simp [hfind], fun _ => ⟨_, pre, post, hfind, by simpa using h1, h2, h3, ?_, ?_⟩⟩
    · have : rest.foldl (fun best inst => if better inst best then inst else best) first
          ∈ pre ++ rest.foldl (fun best inst => if better inst best then inst else best) first
            :: post := by simp
      rw [← h1] at this
      simpa using this
    · intro x hx
      have hx2 : x ∈ pre ++ rest.foldl (fun best inst => if better inst best then inst else best)
          first :: post := by
        rw [← h1]
        simpa using hx
      simp only [List.mem_append, List.mem_cons] at hx2
      rcases hx2 with hx2 | hx2 | hx2
      · exact tripleLt_asymm _ _ (h2 x hx2)
      · rw [hx2]
        intro hlt
        exact tripleLt_asymm _ _ hlt hlt
      · exact h3 x hx2

/-- C29 at a concrete input: Java 17.0.9, two installations of Java 21.0.2
and one of Java 21.0.1; the first Java 21.0.2 is returned. -/
theorem FindBest_greatest_witness :
    ([⟨"/usr/lib/jvm/17/bin/java", "17.0.9", 17, 0, 9⟩,
        ⟨"/usr/lib/jvm/21/bin/java", "21.0.2", 21, 0, 2⟩,
        ⟨"/opt/jdk-21/bin/java", "21.0.2", 21, 0, 2⟩,
        ⟨"/opt/jdk-21.0.1/bin/java", "21.0.1", 21, 0, 1⟩] : List Installation) ≠ [] ∧
    FindBest [⟨"/usr/lib/jvm/17/bin/java", "17.0.9", 17, 0, 9⟩,
        ⟨"/usr/lib/jvm/21/bin/java", "21.0.2", 21, 0, 2⟩,
        ⟨"/opt/jdk-21/bin/java", "21.0.2", 21, 0, 2⟩,
        ⟨"/opt/jdk-21.0.1/bin/java", "21.0.1", 21, 0, 1⟩]
      = .ok ⟨"/usr/lib/jvm/21/bin/java", "21.0.2", 21, 0, 2⟩ ∧
    ∃ best pre post,
      FindBest [⟨"/usr/lib/jvm/17/bin/java", "17.0.9", 17, 0, 9⟩,
        ⟨"/usr/lib/jvm/21/bin/java", "21.0.2", 21, 0, 2⟩,
        ⟨"/opt/jdk-21/bin/java", "21.0.2", 21, 0, 2⟩,
        ⟨"/opt/jdk-21.0.1/bin/java", "21.0.1", 21, 0, 1⟩] = .ok best ∧
      [⟨"/usr/lib/jvm/17/bin/java", "17.0.9", 17, 0, 9⟩,
        ⟨"/usr/lib/jvm/21/bin/java", "21.0.2", 21, 0, 2⟩,
        ⟨"/opt/jdk-21/bin/java", "21.0.2", 21, 0, 2⟩,
        ⟨"/opt/jdk-21.0.1/bin/java", "21.0.1", 21, 0, 1⟩] = pre ++ best :: post ∧
      (∀ x ∈ pre, tripleLt x.triple best.triple) ∧
      (∀ x ∈ post, ¬ tripleLt best.triple x.triple) ∧
      best ∈ ([⟨"/usr/lib/jvm/17/bin/java", "17.0.9", 17, 0, 9⟩,
        ⟨"/usr/lib/jvm/21/bin/java", "21.0.2", 21, 0, 2⟩,
        ⟨"/opt/jdk-21/bin/java", "21.0.2", 21, 0, 2⟩,
        ⟨"/opt/jdk-21.0.1/bin/java", "21.0.1", 21, 0, 1⟩] : List Installation) ∧
      ∀ x ∈ ([⟨"/usr/lib/jvm/17/bin/java", "17.0.9", 17, 0, 9⟩,
        ⟨"/usr/lib/jvm/21/bin/java", "21.0.2", 21, 0, 2⟩,
        ⟨"/opt/jdk-21/bin/java", "21.0.2", 21, 0, 2⟩,
        ⟨"/opt/jdk-21.0.1/bin/java", "21.0.1", 21, 0, 1⟩] : List Installation),
        ¬ tripleLt best.triple x.triple :=
  ⟨by decide, by decide,
    (FindBest_greatest [⟨"/usr/lib/jvm/17/bin/java", "17.0.9", 17, 0, 9⟩,
        ⟨"/usr/lib/jvm/21/bin/java", "21.0.2", 21, 0, 2⟩,
        ⟨"/opt/jdk-21/bin/java", "21.0.2", 21, 0, 2⟩,
        ⟨"/opt/jdk-21.0.1/bin/java", "21.0.1", 21, 0, 1⟩]).2 (by decide)⟩

end Detector

end Mcinit

namespace Mcinit

/-! ## Claim C28: custom JVM flags -/

namespace strings

theorem splitChars_of_no_sep (sep : Char) (t : List Char) (ht : sep ∉ t) :
    splitChars sep t = [t] := by
  induction t with
  | nil => rfl
  | cons c cs ih =>
    have hc : c ≠ sep := fun h => ht (h ▸ List.mem_cons_self _ _)
    have hcs : sep ∉ cs := fun h => ht (List.mem_cons_of_mem _ h)
    simp [splitChars, hc, ih hcs]

theorem splitChars_ne_nil (sep : Char) (t : List Char) : splitChars sep t ≠ [] := by
  cases t with
  | nil => simp [splitChars]
  | cons c cs =>
    by_cases hc : c = sep
    · simp [splitChars, hc]
    · cases h : splitChars sep cs <;> simp [splitChars, hc, h]

/-- The first piece ends at the first separator. -/
theorem splitChars_append_sep (sep : Char) (t rest : List Char) (ht : sep ∉ t) :
    splitChars sep (t ++ sep :: rest) = t :: splitChars sep rest := by
  induction t with
  | nil => simp [splitChars]
  | cons c cs ih =>
    have hc : c ≠ sep := fun h => ht (h ▸ List.mem_cons_self _ _)
    have hcs : sep ∉ cs := fun h => ht (List.mem_cons_of_mem _ h)
    simp [splitChars, hc, ih hcs]

end strings

namespace jvmflags

theorem ParseCustomFlags_eq (flagsString : String) :
    ParseCustomFlags flagsString = flush (flagsString.data.foldl parseStep ⟨[], [], false⟩) := by
  unfold ParseCustomFlags flush
  by_cases h : flagsString = ""
  · simp [h]
  · simp [h]

theorem parseStep_quote (flags : List String) (cur : List Char) (inQuote : Bool) :
    parseStep ⟨flags, cur, inQuote⟩ '"' = ⟨flags, cur, !inQuote⟩ := by
  simp [parseStep]

theorem parseStep_space_quoted (flags : List String) (cur : List Char) :
    parseStep ⟨flags, cur, true⟩ ' ' = ⟨flags, cur ++ [' '], true⟩ := by
  simp [parseStep]

theorem parseStep_space_flush (flags : List String) (cur : List Char) (h : cur ≠ []) :
    parseStep ⟨flags, cur, false⟩ ' ' = ⟨flags ++ [String.mk cur], [], false⟩ := by
  simp [parseStep, h]

theorem parseStep_space_skip (flags : List String) :
    parseStep ⟨flags, [], false⟩ ' ' = ⟨flags, [], false⟩ := by
  simp [parseStep]

theorem parseStep_other (flags : List String) (cur : List Char) (inQuote : Bool) (c : Char)
    (h1 : c ≠ '"') (h2 : c ≠ ' ') :
    parseStep ⟨flags, cur, inQuote⟩ c = ⟨flags, cur ++ [c], inQuote⟩ := by
  simp [parseStep, h1, h2]

/-- The cases of one step of the loop. -/
theorem parseStep_cases (flags : List String) (cur : List Char) (inQuote : Bool) (c : Char) :
    parseStep ⟨flags, cur, inQuote⟩ c = ⟨flags, cur, !inQuote⟩ ∨
    (c ≠ '"' ∧ parseStep ⟨flags, cur, inQuote⟩ c = ⟨flags, cur ++ [c], inQuote⟩) ∨
    (cur ≠ [] ∧ parseStep ⟨flags, cur, inQuote⟩ c = ⟨flags ++ [String.mk cur], [], false⟩) ∨
    parseStep ⟨flags, cur, inQuote⟩ c = ⟨flags, cur, inQuote⟩ := by
  by_cases h1 : c = '"'
  · subst h1
    exact Or.inl (parseStep_quote flags cur inQuote)
  · by_cases h2 : c = ' '
    · subst h2
      cases inQuote with
      | true => exact Or.inr (Or.inl ⟨h1, parseStep_space_quoted flags cur⟩)
      | false =>
        by_cases h4 : cur = []
        · subst h4
          exact Or.inr (Or.inr (Or.inr (parseStep_space_skip flags)))
        · exact Or.inr (Or.inr (Or.inl ⟨h4, parseStep_space_flush flags cur h4⟩))
    · exact Or.inr (Or.inl ⟨h1, parseStep_other flags cur inQuote c h1 h2⟩)

/-- The flags are never empty and never hold a quote, at any point of the
loop. -/
theorem loop_flags_clean (cs : List Char) (st : ParseState)
    (hflags : ∀ flag ∈ st.flags, flag ≠ "" ∧ '"' ∉ flag.data) (hcur : '"' ∉ st.current) :
    (∀ flag ∈ (cs.foldl parseStep st).flags, flag ≠ "" ∧ '"' ∉ flag.data) ∧
      '"' ∉ (cs.foldl parseStep st).current := by
  induction cs generalizing st with
  | nil => exact ⟨hflags, hcur⟩
  | cons c cs ih =>
    rw [List.foldl_cons]
    obtain ⟨flags, cur, inQuote⟩ := st
    simp only at hflags hcur
    rcases parseStep_cases flags cur inQuote c with h | ⟨hc, h⟩ | ⟨hne, h⟩ | h <;> rw [h] <;>
      apply ih
    · exact hflags
    · exact hcur
    · exact hflags
    · simp [hcur, Ne.symm hc]
    · intro flag hflag
      simp only [List.mem_append, List.mem_singleton] at hflag
      rcases hflag with hf | hf
      · exact hflags flag hf
      · rw [hf]
        exact ⟨fun h0 => hne (congrArg String.data h0), hcur⟩
    · simp
    · exact hflags
    · exact hcur

/-- Outside quotes and on a text without quotes the loop cuts at the
spaces and keeps the pieces that are not empty. -/
theorem loop_fields (cs : List Char) (flags : List String) (cur : List Char)
    (hcs : '"' ∉ cs) (hcur : ' ' ∉ cur) :
    flush (cs.foldl parseStep ⟨flags, cur, false⟩)
      = flags ++ ((strings.splitChars ' ' (cur ++ cs)).map String.mk).filter
          (fun f => f ≠ "") := by
  induction cs generalizing flags cur with
  | nil =>
    simp only [List.foldl_nil, List.append_nil, strings.splitChars_of_no_sep ' ' cur hcur, flush]
    by_cases h : cur = []
    · simp [h]
    · have : String.mk cur ≠ "" := fun h0 => h (congrArg String.data h0)
      simp [h, this]
  | cons c cs ih =>
    have hc : c ≠ '"' := fun h => hcs (h ▸ List.mem_cons_self _ _)
    have hcs2 : '"' ∉ cs := fun h => hcs (List.mem_cons_of_mem _ h)
    rw [List.foldl_cons]
    by_cases h2 : c = ' '
    · subst h2
      rw [strings.splitChars_append_sep ' ' cur cs hcur]
      by_cases h4 : cur = []
      · subst h4
        rw [parseStep_space_skip, ih flags [] hcs2 (by simp)]
        simp
      · have : String.mk cur ≠ "" := fun h0 => h4 (congrArg String.data h0)
        rw [parseStep_space_flush flags cur h4, ih (flags ++ [String.mk cur]) [] hcs2 (by simp)]
        simp [this]
    · rw [parseStep_other flags cur false c hc h2,
        ih flags (cur ++ [c]) hcs2 (by simp [hcur, Ne.symm h2])]
      simp

/-- Inside quotes every character other than a quote is kept. -/
theorem loop_quoted (q : List Char) (flags : List String) (cur : List Char) (hq : '"' ∉ q) :
    q.foldl parseStep ⟨flags, cur, true⟩ = ⟨flags, cur ++ q, true⟩ := by
  induction q generalizing cur with
  | nil => simp
  | cons c cs ih =>
    have hc : c ≠ '"' := fun h => hq (h ▸ List.mem_cons_self _ _)
    have hcs : '"' ∉ cs := fun h => hq (List.mem_cons_of_mem _ h)
    have hstep : parseStep ⟨flags, cur, true⟩ c = ⟨flags, cur ++ [c], true⟩ := by
      by_cases h2 : c = ' '
      · subst h2
        exact parseStep_space_quoted flags cur
      · exact parseStep_other flags cur true c hc h2
    rw [List.foldl_cons, hstep, ih (cur ++ [c]) hcs]
    simp

/-- A text without quotes leaves the loop outside quotes. -/
theorem loop_unquoted (cs : List Char) (flags : List String) (cur : List Char)
    (hcs : '"' ∉ cs) : (cs.foldl parseStep ⟨flags, cur, false⟩).inQuote = false := by
  induction cs generalizing flags cur with
  | nil => rfl
  | cons c cs ih =>
    have hc : c ≠ '"' := fun h => hcs (h ▸ List.mem_cons_self _ _)
    have hcs2 : '"' ∉ cs := fun h => hcs (List.mem_cons_of_mem _ h)
    rw [List.foldl_cons]
    by_cases h2 : c = ' '
    · subst h2
      by_cases h4 : cur = []
      · subst h4
        rw [parseStep_space_skip]
        exact ih _ _ hcs2
      · rw [parseStep_space_flush flags cur h4]
        exact ih _ _ hcs2
    · rw [parseStep_other flags cur false c hc h2]
      exact ih _ _ hcs2

/-- A text that is in the current flag or in a flag is in a flag at the
end. -/
theorem loop_keeps (q : List Char) (hne : q ≠ []) (cs : List Char) (st : ParseState)
    (h : (∃ flag ∈ st.flags, q <:+: flag.data) ∨ q <:+: st.current) :
    ∃ flag ∈ flush (cs.foldl parseStep st), q <:+: flag.data := by
  induction cs generalizing st with
  | nil =>
    simp only [List.foldl_nil, flush]
    rcases h with ⟨flag, hflag, hq⟩ | hq
    · by_cases h0 : st.current = []
      · exact ⟨flag, by simpa [h0] using hflag, hq⟩
      · exact ⟨flag, by simp [h0, hflag], hq⟩
    · have h0 : st.current ≠ [] := by
        intro h0
        rw [h0] at hq
        exact hne (List.eq_nil_of_infix_nil hq)
      exact ⟨String.mk st.current, by simp [h0], hq⟩
  | cons c cs ih =>
    rw [List.foldl_cons]
    obtain ⟨flags, cur, inQuote⟩ := st
    simp only at h
    rcases parseStep_cases flags cur inQuote c with hs | ⟨_, hs⟩ | ⟨_, hs⟩ | hs <;> rw [hs] <;>
      apply ih
    · exact h
    · rcases h with h | h
      · exact Or.inl h
      · exact Or.inr (h.trans (List.infix_append' [] cur [c]))
    · rcases h with ⟨flag, hflag, hq⟩ | hq
      · exact Or.inl ⟨flag, by simp [hflag], hq⟩
      · exact Or.inl ⟨String.mk cur, by simp, hq⟩
    · exact h

/-- C28.  For every text `ParseCustomFlags` returns no empty flag and no
flag with a double quote.  For a text without double quotes it returns the
non-empty pieces between spaces, in order, so nothing for the empty text and
nothing more for a run of spaces.  A non-empty section between two double
quotes, the first of which opens a quotation, is wholly inside one flag,
spaces included, and the quotes are not.  On the texts of the test it returns
what the test expects. -/
theorem ParseCustomFlags_spec (flagsString : String) :
    (∀ flag ∈ ParseCustomFlags flagsString, flag ≠ "" ∧ '"' ∉ flag.data) ∧
    ('"' ∉ flagsString.data → ParseCustomFlags flagsString = spaceFields flagsString) ∧
    (∀ before quoted after : List Char, '"' ∉ before → '"' ∉ quoted → quoted ≠ [] →
      flagsString.data = before ++ '"' :: quoted ++ '"' :: after →
      ∃ flag ∈ ParseCustomFlags flagsString, quoted <:+: flag.data) ∧
    ParseCustomFlags "" = [] ∧ ParseCustomFlags "-XX:+PrintGC" = ["-XX:+PrintGC"] ∧
    ParseCustomFlags "-XX:+PrintGC  -Xlog:gc" = ["-XX:+PrintGC", "-Xlog:gc"] ∧
    ParseCustomFlags "\"-Dfoo=bar baz\"" = ["-Dfoo=bar baz"] := by
  refine ⟨?_, ?_, ?_, by decide, by decide, by decide, by decide⟩
  · intro flag hflag
    rw [ParseCustomFlags_eq] at hflag
    obtain ⟨h1, h2⟩ := loop_flags_clean flagsString.data ⟨[], [], false⟩ (by simp) (by simp)
    unfold flush at hflag
    by_cases h0 : (flagsString.data.foldl parseStep ⟨[], [], false⟩).current = []
    · rw [if_neg (by simpa using h0)] at hflag
      exact h1 flag hflag
    · rw [if_pos h0] at hflag
      simp only [List.mem_append, List.mem_singleton] at hflag
      rcases hflag with hf | hf
      · exact h1 flag hf
      · rw [hf]
        exact ⟨fun h => h0 (congrArg String.data h), h2⟩
  · intro hq
    rw [ParseCustomFlags_eq, loop_fields flagsString.data [] [] hq (by simp)]
    simp [spaceFields, strings.Split]
  · intro before quoted after hb hs hne hdata
    rw [ParseCustomFlags_eq, hdata]
    have hsplit : before ++ '"' :: quoted ++ '"' :: after
        = before ++ ('"' :: (quoted ++ '"' :: after)) := by simp
    rw [hsplit, List.foldl_append, List.foldl_cons]
    have hin := loop_unquoted before [] [] hb
    generalize before.foldl parseStep ⟨[], [], false⟩ = st at hin
    obtain ⟨flags, cur, inQuote⟩ := st
    simp only at hin
    subst hin
    rw [parseStep_quote, List.foldl_append, Bool.not_false, loop_quoted quoted flags cur hs,
      List.foldl_cons, parseStep_quote]
    exact loop_keeps quoted hne after _ (Or.inr ⟨cur, [], by simp⟩)

/-- C28 at concrete inputs: a text without quotes that has a run of spaces
and ends with a space, and a text with a quoted section in the middle of a
flag. -/
theorem ParseCustomFlags_spec_witness :
    ('"' ∉ "-Xms1G   -Xmx2G ".data ∧
      ParseCustomFlags "-Xms1G   -Xmx2G " = ["-Xms1G", "-Xmx2G"] ∧
      spaceFields "-Xms1G   -Xmx2G " = ["-Xms1G", "-Xmx2G"]) ∧
    (('"' ∉ "-Dname=".data ∧ '"' ∉ "a b".data ∧ "a b".data ≠ [] ∧
        "-Dname=\"a b\"c -Xmx2G".data = "-Dname=".data ++ '"' :: "a b".data ++ '"' :: "c -Xmx2G".data) ∧
      ParseCustomFlags "-Dname=\"a b\"c -Xmx2G" = ["-Dname=a bc", "-Xmx2G"] ∧
      ∃ flag ∈ ParseCustomFlags "-Dname=\"a b\"c -Xmx2G", "a b".data <:+: flag.data) :=
  ⟨⟨by decide, ((ParseCustomFlags_spec "-Xms1G   -Xmx2G ").2.1 (by decide)).trans (by decide),
      by decide⟩,
    ⟨by decide, by decide, by decide, by decide⟩, by decide,
    (ParseCustomFlags_spec "-Dname=\"a b\"c -Xmx2G").2.2.1 "-Dname=".data "a b".data
      "c -Xmx2G".data (by decide) (by decide) (by decide) (by decide)⟩

end jvmflags

end Mcinit

namespace Mcinit

/-! ## Claim C27: the version in the output of `java -version` -/

theorem dropWhile_append_stop (p : Char → Bool) (ds : List Char) (x : Char) (tl : List Char)
    (hds : ∀ c ∈ ds, p c = true) (hx : p x = false) :
    (ds ++ x :: tl).dropWhile p = x :: tl := by
  induction ds with
  | nil => simp [List.dropWhile, hx]
  | cons d ds ih =>
    have hd : p d = true := hds d (List.mem_cons_self _ _)
    simp [List.dropWhile, hd, ih (fun c hc => hds c (List.mem_cons_of_mem _ hc))]

/-- What a decimal digit is not. -/
theorem digit_facts (ch : Char) (h : ch.isDigit = true) :
    ch ≠ '\n' ∧ fmt.isSpace ch = false ∧ ch ≠ '+' ∧ ch ≠ '-' ∧ ch ≠ '_' ∧ ch ≠ '.' ∧
      ch ≠ '"' := by
  have hb : 48 ≤ ch.toNat ∧ ch.toNat ≤ 57 := by
    simp only [Char.isDigit, Bool.and_eq_true, decide_eq_true_eq, ge_iff_le] at h
    obtain ⟨h1, h2⟩ := h
    rw [UInt32.le_def] at h1 h2
    simp only [Char.toNat]
    exact ⟨by simpa using h1, by simpa using h2⟩
  refine ⟨?_, ?_, ?_, ?_, ?_, ?_, ?_⟩
  · rintro rfl
    exact absurd h (by decide)
  · simp only [fmt.isSpace, Bool.or_eq_false_iff, Bool.and_eq_false_iff, decide_eq_false_iff_not]
    omega
  · rintro rfl
    exact absurd h (by decide)
  · rintro rfl
    exact absurd h (by decide)
  · rintro rfl
    exact absurd h (by decide)
  · rintro rfl
    exact absurd h (by decide)
  · rintro rfl
    exact absurd h (by decide)

/-- A text of decimal digits whose value is a Go `int` scans to its
value. -/
theorem scanOrZero_digits (c : List Char) (hne : c ≠ []) (hdig : ∀ ch ∈ c, ch.isDigit = true)
    (hrange : fmt.isInt64 (fmt.digitsValue c)) :
    scanOrZero (String.mk c) = fmt.digitsValue c := by
  cases c with
  | nil => exact absurd rfl hne
  | cons d rest =>
    obtain ⟨h1, h2, h3, h4, _, _, _⟩ := digit_facts d (hdig d (List.mem_cons_self _ _))
    have htok : (d :: rest).takeWhile (fun c => c.isDigit) = d :: rest := by
      rw [List.takeWhile_eq_self_iff]
      intro ch hch
      exact hdig ch hch
    have h := fmt.scan_unsigned d rest (d :: rest) h1 h2 h3 h4 htok hne hrange
    simp [scanOrZero, h]

namespace versionRegex

/-- The pattern does not match where its first nine characters hold no
quote. -/
theorem matchHere_of_no_quote (A B : List Char) (hA : '"' ∉ A) (hlen : 9 ≤ A.length) :
    matchHere (A ++ B) = none := by
  unfold matchHere
  have hpre : ¬ "version \"".data.isPrefixOf (A ++ B) = true := by
    intro h
    rw [List.isPrefixOf_iff_prefix] at h
    have h2 : "version \"".data <+: A :=
      List.prefix_of_prefix_length_le h (List.prefix_append A B) (by simpa using hlen)
    exact hA (h2.subset (by decide))
  simp [hpre]

/-- The pattern matches where the text starts with it, a group without
quote and a quote. -/
theorem matchHere_at (V post : List Char) (hne : V ≠ []) (hV : '"' ∉ V) :
    matchHere ("version \"".data ++ V ++ '"' :: post) = some V := by
  unfold matchHere
  have hpre : "version \"".data.isPrefixOf ("version \"".data ++ V ++ '"' :: post) = true := by
    rw [List.isPrefixOf_iff_prefix, List.append_assoc]
    exact List.prefix_append _ _
  have hdrop : ("version \"".data ++ V ++ '"' :: post).drop "version \"".data.length
      = V ++ '"' :: post := by
    rw [List.append_assoc, List.drop_left]
  have hnq : ∀ c ∈ V, decide (c ≠ '"') = true := by
    intro c hc
    have : c ≠ '"' := fun h => hV (h ▸ hc)
    simp [this]
  have htake : (V ++ '"' :: post).takeWhile (fun c => decide (c ≠ '"')) = V :=
    fmt.takeWhile_append_stop _ V '"' post hnq (by simp)
  have hrest : (V ++ '"' :: post).dropWhile (fun c => decide (c ≠ '"')) = '"' :: post :=
    dropWhile_append_stop _ V '"' post hnq (by simp)
  simp only [hpre, if_true, hdrop, htake, hrest]
  simp [hne]

/-- The leftmost match is the first quoted version, when no quote comes
before it. -/
theorem findChars_first (pre V post : List Char) (hpre : '"' ∉ pre) (hne : V ≠ [])
    (hV : '"' ∉ V) :
    findChars (pre ++ ("version \"".data ++ V ++ '"' :: post))
      = [String.mk ("version \"".data ++ V ++ ['"']), String.mk V] := by
  induction pre with
  | nil =>
    have h := matchHere_at V post hne hV
    have hcons : "version \"".data ++ V ++ '"' :: post
        = 'v' :: ("ersion \"".data ++ V ++ '"' :: post) := rfl
    rw [List.nil_append]
    rw [hcons] at h ⊢
    rw [findChars, h]
  | cons c cs ih =>
    have hc : '"' ∉ cs := fun h => hpre (List.mem_cons_of_mem _ h)
    have hnone : matchHere (c :: cs ++ ("version \"".data ++ V ++ '"' :: post)) = none := by
      have hsplit : c :: cs ++ ("version \"".data ++ V ++ '"' :: post)
          = (c :: cs ++ "version ".data) ++ ('"' :: (V ++ '"' :: post)) := by
        simp
      rw [hsplit]
      apply matchHere_of_no_quote
      · intro h
        simp only [List.mem_append] at h
        rcases h with h | h
        · exact hpre h
        · exact absurd h (by decide)
      · simp
    rw [List.cons_append] at hnone ⊢
    rw [findChars, hnone]
    exact ih hc

/-- Without a quote the pattern has no match. -/
theorem findChars_of_no_quote (cs : List Char) (h : '"' ∉ cs) : findChars cs = [] := by
  induction cs with
  | nil => rfl
  | cons c cs ih =>
    have hc : '"' ∉ cs := fun hm => h (List.mem_cons_of_mem _ hm)
    have hnone : matchHere (c :: cs) = none := by
      unfold matchHere
      have hpre : ¬ "version \"".data.isPrefixOf (c :: cs) = true := by
        intro hp
        rw [List.isPrefixOf_iff_prefix] at hp
        exact h (hp.subset (by decide))
      simp [hpre]
    rw [findChars, hnone]
    exact ih hc

end versionRegex

/-- C27, refuted as stated.  The output `version "x" version "17.0.1"`
contains the quoted version 17.0.1, yet `parseJavaVersion` fails: the pattern
takes the first quoted version, `x`.  And for the version `1.8`, which has
two components, the major returned is 8, the second component. -/
theorem parseJavaVersion_first_match_only :
    (parseJavaVersion "version \"x\" version \"17.0.1\"").err = some (.invalidFormat "x") ∧
    (parseJavaVersion "version \"x\" version \"17.0.1\"").major = 0 ∧
    (parseJavaVersion "openjdk version \"17.0.1\"").major = 17 ∧
    (parseJavaVersion "java version \"1.8\"").err = none ∧
    (parseJavaVersion "java version \"1.8\"").major = 8 := by
  decide

/-- C27, amended.  For every output in which no double quote comes before
the first `version "V"`, where `V` is two runs of decimal digits joined by a
dot, each the text of a Go `int`, followed by nothing or by a dot and any
text without a double quote: `parseJavaVersion` returns no error, `V` as the
version, and as major the number of the second run when the first run is
`1` and the number of the first run otherwise.  For every output in which
the pattern has no match, and so for every output without a double quote, it
returns the could-not-parse error. -/
theorem parseJavaVersion_spec (pre c0 c1 rest post : List Char) (hpre : '"' ∉ pre)
    (h0 : c0 ≠ [] ∧ (∀ ch ∈ c0, ch.isDigit = true) ∧ fmt.isInt64 (fmt.digitsValue c0))
    (h1 : c1 ≠ [] ∧ (∀ ch ∈ c1, ch.isDigit = true) ∧ fmt.isInt64 (fmt.digitsValue c1))
    (hrest : rest = [] ∨ ∃ r, rest = '.' :: r) (hq : '"' ∉ rest) :
    ((parseJavaVersion
        (String.mk (pre ++ ("version \"".data ++ (c0 ++ '.' :: c1 ++ rest) ++ '"' :: post)))).err
      = none ∧
    (parseJavaVersion
        (String.mk (pre ++ ("version \"".data ++ (c0 ++ '.' :: c1 ++ rest) ++ '"' :: post)))).version
      = String.mk (c0 ++ '.' :: c1 ++ rest) ∧
    (parseJavaVersion
        (String.mk (pre ++ ("version \"".data ++ (c0 ++ '.' :: c1 ++ rest) ++ '"' :: post)))).major
      = if c0 = ['1'] then (fmt.digitsValue c1 : Int) else (fmt.digitsValue c0 : Int)) ∧
    (∀ output : String, versionRegex.FindStringSubmatch output = [] →
      (parseJavaVersion output).err = some .couldNotParse) ∧
    ∀ output : String, '"' ∉ output.data →
      (parseJavaVersion output).err = some .couldNotParse := by
  have hnomatch : ∀ output : String, versionRegex.FindStringSubmatch output = [] →
      (parseJavaVersion output).err = some .couldNotParse := by
    intro output h
    simp [parseJavaVersion, h]
  refine ⟨?_, hnomatch, fun output h =>
    hnomatch output (versionRegex.findChars_of_no_quote output.data h)⟩
  obtain ⟨hne0, hdig0, hr0⟩ := h0
  obtain ⟨hne1, hdig1, hr1⟩ := h1
  have hd0 : '.' ∉ c0 := fun h => (digit_facts '.' (hdig0 '.' h)).2.2.2.2.2.1 rfl
  have hd1 : '.' ∉ c1 := fun h => (digit_facts '.' (hdig1 '.' h)).2.2.2.2.2.1 rfl
  have hq0 : '"' ∉ c0 := fun h => (digit_facts '"' (hdig0 '"' h)).2.2.2.2.2.2 rfl
  have hq1 : '"' ∉ c1 := fun h => (digit_facts '"' (hdig1 '"' h)).2.2.2.2.2.2 rfl
  have hV : '"' ∉ c0 ++ '.' :: c1 ++ rest := by
    simp only [List.mem_append, List.mem_cons, not_or]
    exact ⟨⟨hq0, by decide, hq1⟩, hq⟩
  have hVne : c0 ++ '.' :: c1 ++ rest ≠ [] := by
    cases c0 with
    | nil => exact absurd rfl hne0
    | cons d ds => simp
  have hfind := versionRegex.findChars_first pre (c0 ++ '.' :: c1 ++ rest) post hpre hVne hV
  have hsplit : ∃ more, strings.splitChars '.' (c0 ++ '.' :: c1 ++ rest) = c0 :: c1 :: more := by
    simp only [List.append_assoc, List.cons_append]
    rw [strings.splitChars_append_sep '.' c0 _ hd0]
    rcases hrest with h | ⟨r, h⟩
    · rw [h, List.append_nil, strings.splitChars_of_no_sep '.' c1 hd1]
      exact ⟨[], rfl⟩
    · rw [h, strings.splitChars_append_sep '.' c1 r hd1]
      exact ⟨_, rfl⟩
  obtain ⟨more, hmore⟩ := hsplit
  have hs0 := scanOrZero_digits c0 hne0 hdig0 hr0
  have hs1 := scanOrZero_digits c1 hne1 hdig1 hr1
  have hone : (String.mk c0 = "1") ↔ c0 = ['1'] := by
    constructor
    · intro h
      exact congrArg String.data h
    · intro h
      rw [h]
  unfold parseJavaVersion
  simp only [versionRegex.FindStringSubmatch, hfind, strings.Split, hmore, List.map_cons]
  by_cases h1 : c0 = ['1']
  · simp only [hone.mpr h1, if_true, h1]
    cases more <;> simp [hs1]
  · have : ¬ String.mk c0 = "1" := fun h => h1 (hone.mp h)
    simp only [this, if_false, h1]
    cases more <;> simp [hs0]

/-- C27, amended, at concrete inputs: the outputs of the test for Java 8
and Java 17. -/
theorem parseJavaVersion_spec_witness :
    (('"' ∉ "java ".data ∧
        ("1".data ≠ [] ∧ (∀ ch ∈ "1".data, ch.isDigit = true) ∧
          fmt.isInt64 (fmt.digitsValue "1".data)) ∧
        ("8".data ≠ [] ∧ (∀ ch ∈ "8".data, ch.isDigit = true) ∧
          fmt.isInt64 (fmt.digitsValue "8".data)) ∧
        (∃ r, ".0_292".data = '.' :: r) ∧ '"' ∉ ".0_292".data) ∧
      (parseJavaVersion "java version \"1.8.0_292\"").version = "1.8.0_292" ∧
      (parseJavaVersion "java version \"1.8.0_292\"").major = 8) ∧
    (parseJavaVersion "openjdk version \"17.0.1\" 2021-10-19 LTS").err = none ∧
    (parseJavaVersion "openjdk version \"17.0.1\" 2021-10-19 LTS").version = "17.0.1" ∧
    (parseJavaVersion "openjdk version \"17.0.1\" 2021-10-19 LTS").major = 17 ∧
    (parseJavaVersion "invalid").err = some .couldNotParse :=
  ⟨⟨⟨by decide, ⟨by decide, by decide, by decide⟩, ⟨by decide, by decide, by decide⟩,
        ⟨_, rfl⟩, by decide⟩,
      (parseJavaVersion_spec "java ".data "1".data "8".data ".0_292".data [] (by decide)
        ⟨by decide, by decide, by decide⟩ ⟨by decide, by decide, by decide⟩
        (Or.inr ⟨_, rfl⟩) (by decide)).1.2.1,
      ((parseJavaVersion_spec "java ".data "1".data "8".data ".0_292".data [] (by decide)
        ⟨by decide, by decide, by decide⟩ ⟨by decide, by decide, by decide⟩
        (Or.inr ⟨_, rfl⟩) (by decide)).1.2.2).trans (by decide)⟩,
    (parseJavaVersion_spec "openjdk ".data "17".data "0".data ".1".data " 2021-10-19 LTS".data
      (by decide) ⟨by decide, by decide, by decide⟩ ⟨by decide, by decide, by decide⟩
      (Or.inr ⟨_, rfl⟩) (by decide)).1.1,
    (parseJavaVersion_spec "openjdk ".data "17".data "0".data ".1".data " 2021-10-19 LTS".data
      (by decide) ⟨by decide, by decide, by decide⟩ ⟨by decide, by decide, by decide⟩
      (Or.inr ⟨_, rfl⟩) (by decide)).1.2.1,
    ((parseJavaVersion_spec "openjdk ".data "17".data "0".data ".1".data " 2021-10-19 LTS".data
      (by decide) ⟨by decide, by decide, by decide⟩ ⟨by decide, by decide, by decide⟩
      (Or.inr ⟨_, rfl⟩) (by decide)).1.2.2).trans (by decide),
    (parseJavaVersion_spec [] "1".data "8".data [] [] (by decide)
      ⟨by decide, by decide, by decide⟩ ⟨by decide, by decide, by decide⟩
      (Or.inl rfl) (by decide)).2.2 "invalid" (by decide)⟩

end Mcinit

namespace Mcinit

/-! ## Claim C20: the Java executable the manager starts -/

/-- The scan of a run of decimal digits that is the text of a Go `int`,
followed by a text that does not go on with a digit: the number of the run,
whatever follows. -/
theorem scan_digit_run (digits rest : List Char) (hne : digits ≠ [])
    (hdig : ∀ ch ∈ digits, ch.isDigit = true)
    (hrest : ∀ ch, rest.head? = some ch → ch.isDigit = false)
    (hrange : fmt.isInt64 (fmt.digitsValue digits)) :
    fmt.SscanfDecimal (String.mk (digits ++ rest)) = some (fmt.digitsValue digits : Int) := by
  have htok : (digits ++ rest).takeWhile (fun c => c.isDigit) = digits := by
    cases rest with
    | nil =>
      rw [List.append_nil, List.takeWhile_eq_self_iff]
      exact hdig
    | cons x tl => exact fmt.takeWhile_append_stop _ digits x tl hdig (hrest x rfl)
  cases digits with
  | nil => exact absurd rfl hne
  | cons d ds =>
    obtain ⟨h1, h2, h3, h4, _, _, _⟩ := digit_facts d (hdig d (List.mem_cons_self _ _))
    exact fmt.scan_unsigned d (ds ++ rest) (d :: ds) h1 h2 h3 h4 htok hne hrange

theorem find_first (p : Installation → Bool) (pre post : List Installation)
    (inst : Installation) (hpre : ∀ x ∈ pre, p x = false) (hinst : p inst = true) :
    (pre ++ inst :: post).find? p = some inst := by
  induction pre with
  | nil => simp [List.find?, hinst]
  | cons a as ih =>
    have ha : p a = false := hpre a (List.mem_cons_self _ _)
    simp only [List.cons_append, List.find?, ha]
    exact ih (fun x hx => hpre x (List.mem_cons_of_mem _ hx))

namespace Manager

/-- The search for a major version: the first detected installation that
has it, and an error when none has it. -/
theorem FindByMajorVersion_spec (found : List Installation) (n : Int) :
    (∀ pre inst post, found = pre ++ inst :: post → (∀ x ∈ pre, x.Major ≠ n) →
      inst.Major = n → Detector.FindByMajorVersion found n = .ok inst) ∧
    ((∀ x ∈ found, x.Major ≠ n) → ∃ e, Detector.FindByMajorVersion found n = .error e) ∧
    ∀ inst, Detector.FindByMajorVersion found n = .ok inst → inst ∈ found ∧ inst.Major = n := by
  refine ⟨?_, ?_, ?_⟩
  · intro pre inst post hfound hpre hinst
    have hfind := find_first (fun i => decide (i.Major = n)) pre post inst
      (fun x hx => by simpa using hpre x hx) (by simpa using hinst)
    have hlen : found.length ≠ 0 := by
      rw [hfound]
      simp
    rw [← hfound] at hfind
    simp [Detector.FindByMajorVersion, Detector.Detect, hlen, hfind]
  · intro hnone
    have hfind : found.find? (fun i => decide (i.Major = n)) = none := by
      rw [List.find?_eq_none]
      intro x hx
      simpa using hnone x hx
    by_cases hlen : found.length = 0
    · exact ⟨.noInstallation, by simp [Detector.FindByMajorVersion, Detector.Detect, hlen]⟩
    · exact ⟨.versionNotFound n, by
        simp [Detector.FindByMajorVersion, Detector.Detect, hlen, hfind]⟩
  · intro inst h
    unfold Detector.FindByMajorVersion Detector.Detect at h
    by_cases hlen : found.length = 0
    · simp [hlen] at h
    · simp only [hlen, if_false] at h
      cases hfind : found.find? (fun i => decide (i.Major = n)) with
      | none => simp [hfind] at h
      | some i =>
        simp only [hfind, Except.ok.injEq] at h
        subst h
        exact ⟨List.mem_of_find?_eq_some hfind, by simpa using List.find?_some hfind⟩

/-- C20.  The order in which `Manager.resolveJavaPath` decides.  A
configured Java path that is neither empty nor `auto` is returned unchanged
whatever installations the host has, so detection has no part in the result.
Otherwise, with a configured Java version that is neither empty nor `auto`:
when the version starts with a run of decimal digits, the text of a Go `int`,
that is the whole version or is followed by a character that is not a digit,
the major version asked for is the number of that run; the result is the path
of the first detected installation with that major version, and an error when
no detected installation has it, also when other installations are there for
the search for the best one; and for every such version a path that is
returned is the path of a detected installation whose major version is the
number `%d` scans from the version, 0 when it scans none.  Only with neither
configured is the result the path of the best installation: the first of
those with the greatest (Major, Minor, Patch), and an error exactly when no
installation is detected. -/
theorem resolveJavaPath_priority (cfg : Config) (found : List Installation) :
    (cfg.Java.Path ≠ "" → cfg.Java.Path ≠ "auto" →
      ∀ other : List Installation, resolveJavaPath cfg other = .ok cfg.Java.Path) ∧
    ((cfg.Java.Path = "" ∨ cfg.Java.Path = "auto") →
      cfg.Java.Version ≠ "" → cfg.Java.Version ≠ "auto" →
      (∀ digits rest : List Char, cfg.Java.Version.data = digits ++ rest → digits ≠ [] →
        (∀ ch ∈ digits, ch.isDigit = true) →
        (∀ ch, rest.head? = some ch → ch.isDigit = false) →
        fmt.isInt64 (fmt.digitsValue digits) →
        (∀ pre inst post, found = pre ++ inst :: post →
          (∀ x ∈ pre, x.Major ≠ (fmt.digitsValue digits : Int)) →
          inst.Major = (fmt.digitsValue digits : Int) →
          resolveJavaPath cfg found = .ok inst.Path) ∧
        ((∀ x ∈ found, x.Major ≠ (fmt.digitsValue digits : Int)) →
          ∃ e, resolveJavaPath cfg found = .error e)) ∧
      ∀ path, resolveJavaPath cfg found = .ok path →
        ∃ inst ∈ found, inst.Path = path ∧
          inst.Major = (fmt.SscanfDecimal cfg.Java.Version).getD 0) ∧
    ((cfg.Java.Path = "" ∨ cfg.Java.Path = "auto") →
      (cfg.Java.Version = "" ∨ cfg.Java.Version = "auto") →
      ((∃ e, resolveJavaPath cfg found = .error e) ↔ found = []) ∧
      (found ≠ [] →
        ∃ best pre post, found = pre ++ best :: post ∧
          resolveJavaPath cfg found = .ok best.Path ∧
          (∀ x ∈ pre, tripleLt x.triple best.triple) ∧
          ∀ x ∈ post, ¬ tripleLt best.triple x.triple)) := by
  refine ⟨?_, ?_, ?_⟩
  · intro h1 h2 other
    simp [resolveJavaPath, h1, h2]
  · intro hp hv1 hv2
    have hp2 : ¬ (cfg.Java.Path ≠ "" ∧ cfg.Java.Path ≠ "auto") := by
      rcases hp with h | h <;> simp [h]
    have hres : resolveJavaPath cfg found
        = match Detector.FindByMajorVersion found
            ((fmt.SscanfDecimal cfg.Java.Version).getD 0) with
          | .error e => .error e
          | .ok inst => .ok inst.Path := by
      simp [resolveJavaPath, hp2, hv1, hv2]
    refine ⟨?_, ?_⟩
    · intro digits rest hdata hne hdig hrest hrange
      have hscan : fmt.SscanfDecimal cfg.Java.Version = some (fmt.digitsValue digits : Int) := by
        have := scan_digit_run digits rest hne hdig hrest hrange
        rw [← hdata] at this
        exact this
      rw [hscan, Option.getD_some] at hres
      obtain ⟨hfirst, hnone, _⟩ := FindByMajorVersion_spec found (fmt.digitsValue digits : Int)
      refine ⟨?_, ?_⟩
      · intro pre inst post hfound hpre hinst
        rw [hres, hfirst pre inst post hfound hpre hinst]
      · intro hno
        obtain ⟨e, he⟩ := hnone hno
        exact ⟨e, by rw [hres, he]⟩
    · intro path hpath
      rw [hres] at hpath
      cases hfind : Detector.FindByMajorVersion found
          ((fmt.SscanfDecimal cfg.Java.Version).getD 0) with
      | error e => simp [hfind] at hpath
      | ok inst =>
        simp only [hfind, Except.ok.injEq] at hpath
        obtain ⟨hmem, hmaj⟩ := (FindByMajorVersion_spec found _).2.2 inst hfind
        exact ⟨inst, hmem, hpath, hmaj⟩
  · intro hp hv
    have hp2 : ¬ (cfg.Java.Path ≠ "" ∧ cfg.Java.Path ≠ "auto") := by
      rcases hp with h | h <;> simp [h]
    have hv2 : ¬ (cfg.Java.Version ≠ "" ∧ cfg.Java.Version ≠ "auto") := by
      rcases hv with h | h <;> simp [h]
    have hres : resolveJavaPath cfg found
        = match Detector.FindBest found with
          | .error e => .error e
          | .ok inst => .ok inst.Path := by
      simp [resolveJavaPath, hp2, hv2]
    cases found with
    | nil =>
      refine ⟨?_, fun h => absurd rfl h⟩
      rw [hres]
      simp [Detector.FindBest, Detector.Detect]
    | cons first rest =>
      obtain ⟨pre, post, h1, h2, h3⟩ := Detector.best_loop rest [] [] first (by simp) (by simp)
      have hfind : Detector.FindBest (first :: rest)
          = .ok (rest.foldl
              (fun best inst => if Detector.better inst best then inst else best) first) := by
        simp [Detector.FindBest, Detector.Detect]
      rw [hres, hfind]
      refine ⟨by simp, fun _ => ⟨_, pre, post, by simpa using h1, rfl, h2, h3⟩⟩

/-- C20 at concrete inputs: a host with Java 21 and Java 17.  An explicit
path wins over everything; the versions `17` and `17.0.9` select the Java 17
installation and the version `21_0` the Java 21 installation; the version
`11` fails although two installations are there; with nothing configured the
Java 21 installation is taken. -/
theorem resolveJavaPath_priority_witness :
    (("/opt/jdk/bin/java" : String) ≠ "" ∧ ("/opt/jdk/bin/java" : String) ≠ "auto" ∧
      resolveJavaPath ⟨⟨"server.jar"⟩, ⟨"17", "/opt/jdk/bin/java"⟩, ⟨"2G", "4G", "minimal", []⟩⟩
        [⟨"/usr/lib/jvm/21/bin/java", "21.0.2", 21, 0, 2⟩,
          ⟨"/usr/lib/jvm/17/bin/java", "17.0.9", 17, 0, 9⟩] = .ok "/opt/jdk/bin/java") ∧
    resolveJavaPath ⟨⟨"server.jar"⟩, ⟨"17", "auto"⟩, ⟨"2G", "4G", "minimal", []⟩⟩
      [⟨"/usr/lib/jvm/21/bin/java", "21.0.2", 21, 0, 2⟩,
        ⟨"/usr/lib/jvm/17/bin/java", "17.0.9", 17, 0, 9⟩] = .ok "/usr/lib/jvm/17/bin/java" ∧
    resolveJavaPath ⟨⟨"server.jar"⟩, ⟨"17.0.9", ""⟩, ⟨"2G", "4G", "minimal", []⟩⟩
      [⟨"/usr/lib/jvm/21/bin/java", "21.0.2", 21, 0, 2⟩,
        ⟨"/usr/lib/jvm/17/bin/java", "17.0.9", 17, 0, 9⟩] = .ok "/usr/lib/jvm/17/bin/java" ∧
    resolveJavaPath ⟨⟨"server.jar"⟩, ⟨"21_0", ""⟩, ⟨"2G", "4G", "minimal", []⟩⟩
      [⟨"/usr/lib/jvm/21/bin/java", "21.0.2", 21, 0, 2⟩,
        ⟨"/usr/lib/jvm/17/bin/java", "17.0.9", 17, 0, 9⟩] = .ok "/usr/lib/jvm/21/bin/java" ∧
    (∃ e, resolveJavaPath ⟨⟨"server.jar"⟩, ⟨"11", ""⟩, ⟨"2G", "4G", "minimal", []⟩⟩
      [⟨"/usr/lib/jvm/21/bin/java", "21.0.2", 21, 0, 2⟩,
        ⟨"/usr/lib/jvm/17/bin/java", "17.0.9", 17, 0, 9⟩] = .error e) ∧
    (∃ best pre post,
      ([⟨"/usr/lib/jvm/17/bin/java", "17.0.9", 17, 0, 9⟩,
        ⟨"/usr/lib/jvm/21/bin/java", "21.0.2", 21, 0, 2⟩] : List Installation)
        = pre ++ best :: post ∧
      resolveJavaPath ⟨⟨"server.jar"⟩, ⟨"auto", ""⟩, ⟨"2G", "4G", "minimal", []⟩⟩
        [⟨"/usr/lib/jvm/17/bin/java", "17.0.9", 17, 0, 9⟩,
          ⟨"/usr/lib/jvm/21/bin/java", "21.0.2", 21, 0, 2⟩] = .ok best.Path ∧
      (∀ x ∈ pre, tripleLt x.triple best.triple) ∧
      ∀ x ∈ post, ¬ tripleLt best.triple x.triple) ∧
    resolveJavaPath ⟨⟨"server.jar"⟩, ⟨"auto", ""⟩, ⟨"2G", "4G", "minimal", []⟩⟩
      [⟨"/usr/lib/jvm/17/bin/java", "17.0.9", 17, 0, 9⟩,
        ⟨"/usr/lib/jvm/21/bin/java", "21.0.2", 21, 0, 2⟩] = .ok "/usr/lib/jvm/21/bin/java" :=
  ⟨⟨by decide, by decide,
      (resolveJavaPath_priority
        ⟨⟨"server.jar"⟩, ⟨"17", "/opt/jdk/bin/java"⟩, ⟨"2G", "4G", "minimal", []⟩⟩ []).1
        (by decide) (by decide) _⟩,
    (((resolveJavaPath_priority ⟨⟨"server.jar"⟩, ⟨"17", "auto"⟩, ⟨"2G", "4G", "minimal", []⟩⟩
        [⟨"/usr/lib/jvm/21/bin/java", "21.0.2", 21, 0, 2⟩,
          ⟨"/usr/lib/jvm/17/bin/java", "17.0.9", 17, 0, 9⟩]).2.1
        (Or.inr rfl) (by decide) (by decide)).1 "17".data [] (by decide) (by decide)
        (by decide) (by decide) (by decide)).1
        [⟨"/usr/lib/jvm/21/bin/java", "21.0.2", 21, 0, 2⟩]
        ⟨"/usr/lib/jvm/17/bin/java", "17.0.9", 17, 0, 9⟩ [] rfl (by decide) (by decide),
    (((resolveJavaPath_priority ⟨⟨"server.jar"⟩, ⟨"17.0.9", ""⟩, ⟨"2G", "4G", "minimal", []⟩⟩
        [⟨"/usr/lib/jvm/21/bin/java", "21.0.2", 21, 0, 2⟩,
          ⟨"/usr/lib/jvm/17/bin/java", "17.0.9", 17, 0, 9⟩]).2.1
        (Or.inl rfl) (by decide) (by decide)).1 "17".data ".0.9".data (by decide) (by decide)
        (by decide) (by decide) (by decide)).1
        [⟨"/usr/lib/jvm/21/bin/java", "21.0.2", 21, 0, 2⟩]
        ⟨"/usr/lib/jvm/17/bin/java", "17.0.9", 17, 0, 9⟩ [] rfl (by decide) (by decide),
    (((resolveJavaPath_priority ⟨⟨"server.jar"⟩, ⟨"21_0", ""⟩, ⟨"2G", "4G", "minimal", []⟩⟩
        [⟨"/usr/lib/jvm/21/bin/java", "21.0.2", 21, 0, 2⟩,
          ⟨"/usr/lib/jvm/17/bin/java", "17.0.9", 17, 0, 9⟩]).2.1
        (Or.inl rfl) (by decide) (by decide)).1 "21".data "_0".data (by decide) (by decide)
        (by decide) (by decide) (by decide)).1
        [] ⟨"/usr/lib/jvm/21/bin/java", "21.0.2", 21, 0, 2⟩
        [⟨"/usr/lib/jvm/17/bin/java", "17.0.9", 17, 0, 9⟩] rfl (by decide) (by decide),
    (((resolveJavaPath_priority ⟨⟨"server.jar"⟩, ⟨"11", ""⟩, ⟨"2G", "4G", "minimal", []⟩⟩
        [⟨"/usr/lib/jvm/21/bin/java", "21.0.2", 21, 0, 2⟩,
          ⟨"/usr/lib/jvm/17/bin/java", "17.0.9", 17, 0, 9⟩]).2.1
        (Or.inl rfl) (by decide) (by decide)).1 "11".data [] (by decide) (by decide)
        (by decide) (by decide) (by decide)).2 (by decide),
    ((resolveJavaPath_priority ⟨⟨"server.jar"⟩, ⟨"auto", ""⟩, ⟨"2G", "4G", "minimal", []⟩⟩
        [⟨"/usr/lib/jvm/17/bin/java", "17.0.9", 17, 0, 9⟩,
          ⟨"/usr/lib/jvm/21/bin/java", "21.0.2", 21, 0, 2⟩]).2.2
        (Or.inl rfl) (Or.inr rfl)).2 (by decide),
    by decide⟩

end Manager

end Mcinit
